import Mathlib

/-!
# lna: arena allocator, matrix engine and softmax-regression equations

A shallow embedding of `src/src/lna_arena.c`, `src/src/lna_matrix.c` and
`src/src/equation.c`.

Conventions of the embedding.

* `u64` values are natural numbers; every `u64` operation of the source is
  written with its reduction modulo `2^64`.
* A pointer is `Option Nat`: `none` is the null pointer, `some a` the byte
  address `a`.  The address 0 is the null pointer of C, so `some a` stands for
  a pointer only when `a ≠ 0`; the results about the training step say so in
  their hypotheses.  The arena's `base` is the address of the caller's memory.
* `ARENA_ALIGN` is `sizeof(void*)`, fixed by the target; every function that
  allocates takes it as its first argument.
* Memory is a map from byte addresses to `f32` cells; the cell of element `i`
  of a buffer at address `p` lives at `p + 4 * i` (`sizeof(f32) = 4` is
  asserted in `lna_number.h`).  The element type is a parameter `α`, so the
  data-movement results hold for any reading of `f32`; the softmax and
  cross-entropy results read `f32` as exact real arithmetic.  The type `f32`
  below is the rounded arithmetic of the source, for the results that depend
  on rounding.
* An operation returns `none` when the source dereferences a null pointer.
-/

namespace Lna

/-! ## u64 arithmetic -/

/-- Addition of two `u64` values. -/
@[irreducible]
def u64_add (a b : Nat) : Nat := (a + b) % 2 ^ 64

/-- Subtraction of two `u64` values: the difference modulo `2^64` (it wraps below
zero). -/
@[irreducible]
def u64_sub (a b : Nat) : Nat :=
  if b % 2 ^ 64 ≤ a % 2 ^ 64 then a % 2 ^ 64 - b % 2 ^ 64
  else 2 ^ 64 - (b % 2 ^ 64 - a % 2 ^ 64)

/-- Multiplication of two `u64` values. -/
@[irreducible]
def u64_mul (a b : Nat) : Nat := (a * b) % 2 ^ 64

/-- Bitwise complement of a `u64` value. -/
@[irreducible]
def u64_not (a : Nat) : Nat := 2 ^ 64 - 1 - a % 2 ^ 64

/-! ## lna_number.h: the type f32

`typedef float f32` with `sizeof(float) == 4`: IEEE-754 binary32.  The model below keeps
the finite values and rounds every operation to the nearest value with a 24-bit
significand, ties to even; the exponent is unbounded (no overflow to infinity, no
subnormals, no NaN). -/

/-- The number of binary digits of `n`, counted with `fuel` steps. -/
def bit_length_aux : Nat → Nat → Nat
  | 0, _ => 0
  | fuel + 1, n => if n = 0 then 0 else bit_length_aux fuel (n / 2) + 1

/-- The number of binary digits of `n` (0 for 0). -/
def bit_length (n : Nat) : Nat := bit_length_aux n n

/-- A finite `f32` value `m * 2^e`, kept in lowest terms: `m` is odd, or `m = 0` and
`e = 0`. -/
structure f32 where
  m : Int
  e : Int
deriving DecidableEq

/-- The value `± sig * 2^ex` in lowest terms (`sig` below `2^32`). -/
def f32.normal (neg : Bool) (sig : Nat) (ex : Int) : f32 :=
  if sig = 0 then ⟨0, 0⟩
  else
    ⟨(if neg then -1 else 1) *
        ((sig >>> (bit_length (Nat.gcd sig (2 ^ 32)) - 1) : Nat) : Int),
      ex + ((bit_length (Nat.gcd sig (2 ^ 32)) - 1 : Nat) : Int)⟩

/-- The value `n / d * 2^e` rounded to the nearest `f32`, ties to even.  The quotient is
taken with at least 27 binary digits (`q`, remainder `r`); its digits beyond the 24th
(`lo`, compared with `half`) and the remainder decide the rounding. -/
def f32.round (n : Int) (d : Nat) (e : Int) : f32 :=
  if n = 0 then ⟨0, 0⟩
  else if d = 0 then ⟨0, 0⟩
  else
    let a := n.natAbs
    let s := 27 + bit_length d - bit_length a
    let q := (a <<< s) / d
    let r := (a <<< s) % d
    let x := bit_length q - 24
    let hi := q >>> x
    let lo := q % 2 ^ x
    let half := 2 ^ (x - 1)
    f32.normal (decide (n < 0))
      (if lo > half ∨ (lo = half ∧ (r ≠ 0 ∨ hi % 2 = 1)) then hi + 1 else hi)
      (e - (s : Int) + (x : Int))

/-- The constant `0.0f`. -/
instance f32.instZero : Zero f32 := ⟨⟨0, 0⟩⟩

/-- The constant `1.0f`. -/
instance f32.instOne : One f32 := ⟨⟨1, 0⟩⟩

/-- The conversion `(f32)n` of a `u64`. -/
instance f32.instNatCast : NatCast f32 := ⟨fun n => f32.round n 1 0⟩

/-- The sum `x + y` of two `f32`. -/
instance f32.instAdd : Add f32 :=
  ⟨fun x y =>
    f32.round (x.m * 2 ^ (x.e - min x.e y.e).toNat + y.m * 2 ^ (y.e - min x.e y.e).toNat)
      1 (min x.e y.e)⟩

/-- The difference `x - y` of two `f32`. -/
instance f32.instSub : Sub f32 :=
  ⟨fun x y =>
    f32.round (x.m * 2 ^ (x.e - min x.e y.e).toNat - y.m * 2 ^ (y.e - min x.e y.e).toNat)
      1 (min x.e y.e)⟩

/-- The product `x * y` of two `f32`. -/
instance f32.instMul : Mul f32 := ⟨fun x y => f32.round (x.m * y.m) 1 (x.e + y.e)⟩

/-- The quotient `x / y` of two `f32`, for `y` other than zero. -/
instance f32.instDiv : Div f32 :=
  ⟨fun x y => f32.round (x.m * y.m.sign) y.m.natAbs (x.e - y.e)⟩

/-! ## lna_arena.h / lna_arena.c -/

/-- The macro `ALIGN_UP_POW2(n, p)`:
`(((u64)(n) + ((u64)(p) - 1)) & (~((u64)(p) - 1)))`. -/
@[irreducible]
def ALIGN_UP_POW2 (n p : Nat) : Nat :=
  (u64_add (n % 2 ^ 64) (u64_sub p 1)) &&& (u64_not (u64_sub p 1))

/-- The struct `ml_arena`: `base` is the address of the backing memory,
`capacity` its size in bytes, `pos` the bytes used. -/
structure ml_arena where
  base : Nat
  capacity : Nat
  pos : Nat
deriving DecidableEq

/-- The function `create_ml_arena`: wraps `capacity` bytes at `mem`. -/
def create_ml_arena (capacity : Nat) (mem : Nat) : ml_arena :=
  { base := mem, capacity := capacity, pos := 0 }

/-- The function `push_ml_arena`: returns the pointer handed out (`none` for `NULL`)
and the arena afterwards. -/
@[irreducible]
def push_ml_arena (ARENA_ALIGN : Nat) (arena : ml_arena) (size : Nat) :
    Option Nat × ml_arena :=
  let cur := arena.pos
  let aligned := ALIGN_UP_POW2 cur ARENA_ALIGN
  if aligned > arena.capacity then (none, arena)
  else if size > u64_sub arena.capacity aligned then (none, arena)
  else (some (arena.base + aligned), { arena with pos := u64_add aligned size })

/-- The function `pop_ml_arena`. -/
def pop_ml_arena (arena : ml_arena) (size : Nat) : ml_arena :=
  if size ≥ arena.pos then { arena with pos := 0 }
  else { arena with pos := u64_sub arena.pos size }

/-- The function `get_free_mem`. -/
def get_free_mem (arena : ml_arena) : Nat :=
  u64_sub arena.capacity arena.pos

/-- Every field of the arena is a `u64` value. -/
def ml_arena.is_u64 (arena : ml_arena) : Prop :=
  arena.capacity < 2 ^ 64 ∧ arena.pos < 2 ^ 64

/-- The least multiple of `p` that is at least `n` (the mathematical alignment). -/
def align_up (n p : Nat) : Nat := ((n + (p - 1)) / p) * p

/-- The region `(offset from base, size)` of one `push_ml_arena` call: none when the
call returned `NULL`. -/
def region_of (arena : ml_arena) (size : Nat) : Option Nat → List (Nat × Nat)
  | some p => [(p - arena.base, size)]
  | none => []

/-- Runs `push_ml_arena` once per requested size, in order, and collects the
region `(offset from base, size)` of every call that did not return `NULL`. -/
def push_all (ARENA_ALIGN : Nat) (arena : ml_arena) : List Nat → List (Nat × Nat) × ml_arena
  | [] => ([], arena)
  | size :: rest =>
    (region_of arena size (push_ml_arena ARENA_ALIGN arena size).1 ++
        (push_all ARENA_ALIGN (push_ml_arena ARENA_ALIGN arena size).2 rest).1,
      (push_all ARENA_ALIGN (push_ml_arena ARENA_ALIGN arena size).2 rest).2)

/-- Two byte regions `(offset, size)` share no byte. -/
def regions_disjoint (a b : Nat × Nat) : Prop :=
  ∀ x, ¬ (a.1 ≤ x ∧ x < a.1 + a.2 ∧ b.1 ≤ x ∧ x < b.1 + b.2)

/-! ## lna_matrix.h / lna_matrix.c -/

/-- The enum `LnaOpStatus`. -/
inductive LnaOpStatus where
  | INVALID_DIMENSIONS
  | INVALID_ELEMENT_TYPES
  | INVALID_ALLOC
  | LNA_TODO
  | LNA_OK
deriving DecidableEq

/-- The struct `Matrix`: `data` is the pointer to the first `f32`, `none` when null and
`some a` for the non-zero address `a`. -/
structure Matrix where
  rows : Nat
  cols : Nat
  data : Option Nat
deriving DecidableEq

/-- Memory: the `f32` cell stored at each byte address. -/
abbrev Mem (α : Type) := Nat → α

/-- The read `p[idx]` through an `f32*`; `none` when `p` is null. -/
def load {α : Type} (mem : Mem α) (p : Option Nat) (idx : Nat) : Option α :=
  p.map (fun a => mem (a + 4 * idx))

/-- The write `p[idx] = v` through an `f32*`; `none` when `p` is null. -/
def store {α : Type} (mem : Mem α) (p : Option Nat) (idx : Nat) (v : α) : Option (Mem α) :=
  p.map (fun a => Function.update mem (a + 4 * idx) v)

/-- The loop `for (u64 i = 0; i < n; ++i) body`, threading the state; it stops with
`none` as soon as an iteration does. -/
def forLoop {σ : Type} (n : Nat) (body : Nat → σ → Option σ) (init : σ) : Option σ :=
  match n with
  | 0 => some init
  | k + 1 => (forLoop k body init).bind (body k)

/-- What an allocating matrix operation leaves behind: its status, the arena, the
`Matrix` struct behind the `out` pointer, and memory. -/
structure Outcome (α : Type) where
  status : LnaOpStatus
  arena : ml_arena
  out : Matrix
  mem : Mem α

/-- The function `create_Matrix`: the arena afterwards and the struct written to `dest`. -/
def create_Matrix (ARENA_ALIGN : Nat) (arena : ml_arena) (rows cols : Nat) :
    ml_arena × Matrix :=
  (( push_ml_arena ARENA_ALIGN arena (u64_mul (u64_mul rows cols) 4)).2,
    { rows := rows, cols := cols,
      data := (push_ml_arena ARENA_ALIGN arena (u64_mul (u64_mul rows cols) 4)).1 })

/-- The function `mget`. -/
def mget {α : Type} (mem : Mem α) (matrix : Matrix) (row col : Nat) : Option α :=
  load mem matrix.data (u64_add (u64_mul row matrix.cols) col)

/-- The function `mset`. -/
def mset {α : Type} (mem : Mem α) (matrix : Matrix) (row col : Nat) (val : α) :
    Option (Mem α) :=
  store mem matrix.data (u64_add (u64_mul row matrix.cols) col) val

/-- The function `Matrix_mut_Matrix`. -/
def Matrix_mut_Matrix {α : Type} [Zero α] [Add α] [Mul α] (ARENA_ALIGN : Nat)
    (arena : ml_arena) (mem : Mem α) (out lhs rhs : Matrix) : Option (Outcome α) :=
  if lhs.cols ≠ rhs.rows then some ⟨LnaOpStatus.INVALID_DIMENSIONS, arena, out, mem⟩
  else if lhs.data = none ∨ rhs.data = none then
    some ⟨LnaOpStatus.INVALID_ALLOC, arena, out, mem⟩
  else
    (forLoop (create_Matrix ARENA_ALIGN arena lhs.rows rhs.cols).2.rows
      (fun cur_row m =>
        forLoop (create_Matrix ARENA_ALIGN arena lhs.rows rhs.cols).2.cols
          (fun cur_col m =>
            (forLoop lhs.cols
              (fun i acc =>
                (load m lhs.data (u64_add (u64_mul cur_row lhs.cols) i)).bind fun a =>
                (load m rhs.data (u64_add (u64_mul i rhs.cols) cur_col)).bind fun b =>
                some (acc + a * b))
              (0 : α)).bind fun acc =>
            store m (create_Matrix ARENA_ALIGN arena lhs.rows rhs.cols).2.data
              (u64_add (u64_mul cur_row
                (create_Matrix ARENA_ALIGN arena lhs.rows rhs.cols).2.cols) cur_col) acc)
          m)
      mem).map fun m =>
        ⟨LnaOpStatus.LNA_OK, (create_Matrix ARENA_ALIGN arena lhs.rows rhs.cols).1,
          (create_Matrix ARENA_ALIGN arena lhs.rows rhs.cols).2, m⟩

/-- The element-wise loop shared by `Matrix_plus_Matrix` and `Matrix_minus_Matrix`:
`out[row_index + col] = op lhs[row_index + col] rhs[row_index + col]` with
`row_index = cur_row * lhs.cols`, for `cur_row < out.rows` and `cur_col < out.cols`. -/
def elementwise_loop {α : Type} (op : α → α → α) (mem : Mem α) (out lhs rhs : Matrix) :
    Option (Mem α) :=
  forLoop out.rows
    (fun cur_row m =>
      forLoop out.cols
        (fun cur_col m =>
          (load m lhs.data (u64_add (u64_mul cur_row lhs.cols) cur_col)).bind fun a =>
          (load m rhs.data (u64_add (u64_mul cur_row lhs.cols) cur_col)).bind fun b =>
          store m out.data (u64_add (u64_mul cur_row lhs.cols) cur_col) (op a b))
        m)
    mem

/-- The function `Matrix_plus_Matrix`. -/
def Matrix_plus_Matrix {α : Type} [Add α] (ARENA_ALIGN : Nat)
    (arena : ml_arena) (mem : Mem α) (out lhs rhs : Matrix) : Option (Outcome α) :=
  if lhs.cols ≠ rhs.cols then some ⟨LnaOpStatus.INVALID_DIMENSIONS, arena, out, mem⟩
  else if lhs.rows ≠ rhs.rows then some ⟨LnaOpStatus.INVALID_DIMENSIONS, arena, out, mem⟩
  else if lhs.data = none ∨ rhs.data = none then
    some ⟨LnaOpStatus.INVALID_ALLOC, arena, out, mem⟩
  else
    (elementwise_loop (fun a b => a + b) mem
      (create_Matrix ARENA_ALIGN arena lhs.rows lhs.cols).2 lhs rhs).map fun m =>
        ⟨LnaOpStatus.LNA_OK, (create_Matrix ARENA_ALIGN arena lhs.rows lhs.cols).1,
          (create_Matrix ARENA_ALIGN arena lhs.rows lhs.cols).2, m⟩

/-- The function `Matrix_minus_Matrix`. -/
def Matrix_minus_Matrix {α : Type} [Sub α] (ARENA_ALIGN : Nat)
    (arena : ml_arena) (mem : Mem α) (out lhs rhs : Matrix) : Option (Outcome α) :=
  if lhs.cols ≠ rhs.cols then some ⟨LnaOpStatus.INVALID_DIMENSIONS, arena, out, mem⟩
  else if lhs.rows ≠ rhs.rows then some ⟨LnaOpStatus.INVALID_DIMENSIONS, arena, out, mem⟩
  else if lhs.data = none ∨ rhs.data = none then
    some ⟨LnaOpStatus.INVALID_ALLOC, arena, out, mem⟩
  else
    (elementwise_loop (fun a b => a - b) mem
      (create_Matrix ARENA_ALIGN arena lhs.rows lhs.cols).2 lhs rhs).map fun m =>
        ⟨LnaOpStatus.LNA_OK, (create_Matrix ARENA_ALIGN arena lhs.rows lhs.cols).1,
          (create_Matrix ARENA_ALIGN arena lhs.rows lhs.cols).2, m⟩

/-- The loop shared by `Matrix_mut_Scalar`, `Matrix_plus_Scalar` and
`Matrix_minus_Scalar`: `lhs[row_index + col] = op lhs[row_index + col] rhs`. -/
def scalar_loop {α : Type} (op : α → α → α) (mem : Mem α) (lhs : Matrix) (rhs : α) :
    Option (Mem α) :=
  forLoop lhs.rows
    (fun cur_row m =>
      forLoop lhs.cols
        (fun cur_col m =>
          (load m lhs.data (u64_add (u64_mul cur_row lhs.cols) cur_col)).bind fun a =>
          store m lhs.data (u64_add (u64_mul cur_row lhs.cols) cur_col) (op a rhs))
        m)
    mem

/-- The function `Matrix_mut_Scalar`. -/
def Matrix_mut_Scalar {α : Type} [Mul α] (mem : Mem α) (lhs : Matrix) (rhs : α) :
    Option (LnaOpStatus × Mem α) :=
  if lhs.data = none then some (LnaOpStatus.INVALID_ALLOC, mem)
  else (scalar_loop (fun a b => a * b) mem lhs rhs).map fun m => (LnaOpStatus.LNA_OK, m)

/-- The function `Matrix_plus_Scalar`. -/
def Matrix_plus_Scalar {α : Type} [Add α] (mem : Mem α) (lhs : Matrix) (rhs : α) :
    Option (LnaOpStatus × Mem α) :=
  if lhs.data = none then some (LnaOpStatus.INVALID_ALLOC, mem)
  else (scalar_loop (fun a b => a + b) mem lhs rhs).map fun m => (LnaOpStatus.LNA_OK, m)

/-- The function `Matrix_minus_Scalar`. -/
def Matrix_minus_Scalar {α : Type} [Sub α] (mem : Mem α) (lhs : Matrix) (rhs : α) :
    Option (LnaOpStatus × Mem α) :=
  if lhs.data = none then some (LnaOpStatus.INVALID_ALLOC, mem)
  else (scalar_loop (fun a b => a - b) mem lhs rhs).map fun m => (LnaOpStatus.LNA_OK, m)

/-- What `Matrix_transpose` leaves behind; the arena pointer it was given may be null. -/
structure TransposeOutcome (α : Type) where
  status : LnaOpStatus
  arena : Option ml_arena
  out : Matrix
  mem : Mem α

/-- The loop of `Matrix_transpose`:
`out[cur_col * out.cols + cur_row] = target[cur_row * target.cols + cur_col]`. -/
def transpose_loop {α : Type} (mem : Mem α) (out target : Matrix) : Option (Mem α) :=
  forLoop target.rows
    (fun cur_row m =>
      forLoop target.cols
        (fun cur_col m =>
          (load m target.data (u64_add (u64_mul cur_row target.cols) cur_col)).bind fun a =>
          store m out.data (u64_add (u64_mul cur_col out.cols) cur_row) a)
        m)
    mem

/-- The function `Matrix_transpose`; `arena` is `none` when the arena pointer is null. -/
def Matrix_transpose {α : Type} (ARENA_ALIGN : Nat) (arena : Option ml_arena)
    (mem : Mem α) (out target : Matrix) : Option (TransposeOutcome α) :=
  match arena with
  | none => some ⟨LnaOpStatus.INVALID_ALLOC, none, out, mem⟩
  | some a =>
    if target.data = none then some ⟨LnaOpStatus.INVALID_ALLOC, some a, out, mem⟩
    else
      (transpose_loop mem (create_Matrix ARENA_ALIGN a target.cols target.rows).2
        target).map fun m =>
          ⟨LnaOpStatus.LNA_OK, some (create_Matrix ARENA_ALIGN a target.cols target.rows).1,
            (create_Matrix ARENA_ALIGN a target.cols target.rows).2, m⟩

/-- The function `Matrix_minus_Matrix_inplace`. -/
def Matrix_minus_Matrix_inplace {α : Type} [Sub α] (mem : Mem α) (lhs rhs : Matrix) :
    Option (LnaOpStatus × Mem α) :=
  if lhs.cols ≠ rhs.cols then some (LnaOpStatus.INVALID_DIMENSIONS, mem)
  else if lhs.rows ≠ rhs.rows then some (LnaOpStatus.INVALID_DIMENSIONS, mem)
  else if lhs.data = none ∨ rhs.data = none then some (LnaOpStatus.INVALID_ALLOC, mem)
  else
    (forLoop lhs.rows
      (fun cur_row m =>
        forLoop lhs.cols
          (fun cur_col m =>
            (load m lhs.data (u64_add (u64_mul cur_row lhs.cols) cur_col)).bind fun a =>
            (load m rhs.data (u64_add (u64_mul cur_row lhs.cols) cur_col)).bind fun b =>
            store m lhs.data (u64_add (u64_mul cur_row lhs.cols) cur_col) (a - b))
          m)
      mem).map fun m => (LnaOpStatus.LNA_OK, m)

/-! ## equation.h / equation.c -/

/-- The macro `eps`, `1e-12f`, read as the exact value `10^-12`. -/
def eps {α : Type} [LinearOrderedField α] : α := 1 / 1000000000000

/-- The function `cross_entropy`; `logf` is the libm logarithm and `labels` the label
array. -/
def cross_entropy {α : Type} [LinearOrderedField α] (logf : α → α) (mem : Mem α)
    (probabilities : Matrix) (labels : Nat → Nat) : Option α :=
  (forLoop probabilities.rows
    (fun cur_class loss =>
      (mget mem probabilities cur_class (labels cur_class)).bind fun correct_prob =>
      some (loss + -logf (if correct_prob < eps then eps else correct_prob)))
    (0 : α)).map fun loss => loss / (probabilities.rows : α)

/-- One row of `softmax`: the three passes over row `cur_sample`. -/
def softmax_row {α : Type} [LinearOrderedField α] (expf : α → α) (out logits : Matrix)
    (cur_sample : Nat) (mem : Mem α) : Option (Mem α) :=
  (mget mem logits cur_sample 0).bind fun row_max0 =>
  (forLoop logits.cols
    (fun cur_score row_max =>
      (mget mem logits cur_sample cur_score).bind fun v =>
      some (if v > row_max then v else row_max))
    row_max0).bind fun row_max =>
  (forLoop logits.cols
    (fun cur_score (st : Mem α × α) =>
      (mget st.1 logits cur_sample cur_score).bind fun x =>
      (mset st.1 out cur_sample cur_score (expf (x - row_max))).bind fun m =>
      some (m, st.2 + expf (x - row_max)))
    (mem, (0 : α))).bind fun st =>
  forLoop logits.cols
    (fun cur_score m =>
      (mget m out cur_sample cur_score).bind fun e =>
      mset m out cur_sample cur_score (e * (1 / st.2)))
    st.1

/-- The function `softmax`; `expf` is the libm exponential. -/
def softmax {α : Type} [LinearOrderedField α] (expf : α → α) (ARENA_ALIGN : Nat)
    (arena : ml_arena) (mem : Mem α) (logits : Matrix) : Option (Outcome α) :=
  (forLoop logits.rows
    (softmax_row expf (create_Matrix ARENA_ALIGN arena logits.rows logits.cols).2 logits)
    mem).map fun m =>
      ⟨LnaOpStatus.LNA_OK, (create_Matrix ARENA_ALIGN arena logits.rows logits.cols).1,
        (create_Matrix ARENA_ALIGN arena logits.rows logits.cols).2, m⟩

/-- The function `add_bias_rowwise_inplace`. -/
def add_bias_rowwise_inplace {α : Type} [Add α] (mem : Mem α) (logits bias : Matrix) :
    Option (LnaOpStatus × Mem α) :=
  if bias.rows ≠ 1 ∨ bias.cols ≠ logits.cols then
    some (LnaOpStatus.INVALID_DIMENSIONS, mem)
  else
    (forLoop logits.rows
      (fun i m =>
        forLoop logits.cols
          (fun j m =>
            (mget m logits i j).bind fun a =>
            (mget m bias 0 j).bind fun b =>
            mset m logits i j (a + b))
          m)
      mem).map fun m => (LnaOpStatus.LNA_OK, m)

/-- The function `sum_rows`. -/
def sum_rows {α : Type} [Zero α] [Add α] (ARENA_ALIGN : Nat) (arena : ml_arena)
    (mem : Mem α) (m : Matrix) : Option (Outcome α) :=
  ((forLoop m.cols
      (fun j mm => mset mm (create_Matrix ARENA_ALIGN arena 1 m.cols).2 0 j (0 : α))
      mem).bind fun zeroed =>
    forLoop m.rows
      (fun i mm =>
        forLoop m.cols
          (fun j mm =>
            (mget mm (create_Matrix ARENA_ALIGN arena 1 m.cols).2 0 j).bind fun a =>
            (mget mm m i j).bind fun b =>
            mset mm (create_Matrix ARENA_ALIGN arena 1 m.cols).2 0 j (a + b))
          mm)
      zeroed).map fun mm =>
        ⟨LnaOpStatus.LNA_OK, (create_Matrix ARENA_ALIGN arena 1 m.cols).1,
          (create_Matrix ARENA_ALIGN arena 1 m.cols).2, mm⟩

/-- One iteration of the first loop of `softmax_xent_backward_inplace`.  The state is
the status already returned, if any, and memory; once the function has returned, the
remaining iterations do nothing. -/
def backward_onehot_step {α : Type} [One α] [Sub α] (probs : Matrix) (labels : Nat → Nat)
    (i : Nat) (st : Option LnaOpStatus × Mem α) : Option (Option LnaOpStatus × Mem α) :=
  if st.1 ≠ none then some st
  else if labels i ≥ probs.cols then some (some LnaOpStatus.INVALID_ELEMENT_TYPES, st.2)
  else
    (mget st.2 probs i (labels i)).bind fun v =>
    (mset st.2 probs i (labels i) (v - 1)).bind fun m =>
    some (none, m)

/-- The second loop of `softmax_xent_backward_inplace`: every entry times `invN`. -/
def backward_scale_loop {α : Type} [Mul α] (probs : Matrix) (invN : α) (mem : Mem α) :
    Option (Mem α) :=
  forLoop probs.rows
    (fun i m =>
      forLoop probs.cols
        (fun j m =>
          (mget m probs i j).bind fun v =>
          mset m probs i j (v * invN))
        m)
    mem

/-- The function `softmax_xent_backward_inplace`. -/
def softmax_xent_backward_inplace {α : Type} [One α] [Sub α] [Mul α] [Div α] [NatCast α]
    (mem : Mem α) (probs : Matrix) (labels : Nat → Nat) : Option (LnaOpStatus × Mem α) :=
  (forLoop probs.rows (backward_onehot_step probs labels) (none, mem)).bind fun st =>
    match st.1 with
    | some status => some (status, st.2)
    | none =>
      (backward_scale_loop probs (1 / (probs.rows : α)) st.2).map fun m =>
        (LnaOpStatus.LNA_OK, m)

/-- The address of element `(r, c)` of a row-major buffer at `p` with `cols` columns. -/
def cell (p cols r c : Nat) : Nat := p + 4 * (r * cols + c)

/-- The storage of `a` (its `rows * cols` cells) shares no byte with the `n` bytes at
address `lo`; a matrix with null data has no storage. -/
def Matrix.outside (a : Matrix) (lo n : Nat) : Prop :=
  match a.data with
  | some p => p + 4 * (a.rows * a.cols) ≤ lo ∨ lo + n ≤ p
  | none => True

/-- The storages of `a` and `b` share no byte. -/
def Matrix.apart (a b : Matrix) : Prop :=
  match b.data with
  | some q => a.outside q (4 * (b.rows * b.cols))
  | none => True

/-- The sum over `i = 0 .. K-1`, accumulated left to right from 0, of
`lhs(r,i) * rhs(i,c)` for row-major buffers at `pl` (`K` columns) and `pr` (`C` columns). -/
def dot_acc {α : Type} [Zero α] [Add α] [Mul α] (mem : Mem α) (pl pr K C r c : Nat) : α :=
  (List.range K).foldl (fun acc i => acc + mem (cell pl K r i) * mem (cell pr C i c)) 0

/-- The running maximum `softmax` keeps for a row `z` of `C` entries: it starts at `z 0`
and is replaced by each entry that is greater. -/
def row_max_acc {α : Type} [LinearOrderedField α] (z : Nat → α) (C : Nat) : α :=
  (List.range C).foldl (fun m j => if z j > m then z j else m) (z 0)

/-- The row sum `softmax` accumulates, left to right from 0, of `expf (z j - M)`. -/
def row_sum_acc {α : Type} [LinearOrderedField α] (expf : α → α) (z : Nat → α) (M : α)
    (C : Nat) : α :=
  (List.range C).foldl (fun s j => s + expf (z j - M)) 0

/-- The value `softmax` stores for entry `j` of a row `z` of `C` entries:
`expf (z j - max) * (1 / sum)`. -/
def softmax_val {α : Type} [LinearOrderedField α] (expf : α → α) (z : Nat → α) (C j : Nat) :
    α :=
  expf (z j - row_max_acc z C) * (1 / row_sum_acc expf z (row_max_acc z C) C)

/-- The function `softmax_regression_train_step`; every status is discarded, as in the
source. The local `Xt` has no value before `Matrix_transpose` fills it, so reading it after
a rejected transpose is a fault. The result is the loss returned, the arena and the memory
after the call. -/
def softmax_regression_train_step {α : Type} [LinearOrderedField α] (expf logf : α → α)
    (ARENA_ALIGN : Nat) (arena : ml_arena) (mem : Mem α) (X : Matrix) (labels : Nat → Nat)
    (W b : Matrix) (learning_rate : α) : Option (α × ml_arena × Mem α) :=
  (Matrix_mut_Matrix ARENA_ALIGN (create_Matrix ARENA_ALIGN arena X.rows W.cols).1 mem
      (create_Matrix ARENA_ALIGN arena X.rows W.cols).2 X W).bind fun logits =>
  (add_bias_rowwise_inplace logits.mem logits.out b).bind fun biased =>
  (softmax expf ARENA_ALIGN logits.arena biased.2 logits.out).bind fun probs =>
  (cross_entropy logf probs.mem probs.out labels).bind fun loss =>
  (softmax_xent_backward_inplace probs.mem probs.out labels).bind fun dZ =>
  (Matrix_transpose ARENA_ALIGN (some probs.arena) dZ.2 (Matrix.mk 0 0 none) X).bind fun Xt =>
  if Xt.status ≠ LnaOpStatus.LNA_OK then none
  else
    Xt.arena.bind fun arena_t =>
    (Matrix_mut_Matrix ARENA_ALIGN
        (create_Matrix ARENA_ALIGN arena_t Xt.out.rows probs.out.cols).1 Xt.mem
        (create_Matrix ARENA_ALIGN arena_t Xt.out.rows probs.out.cols).2 Xt.out
        probs.out).bind fun dW =>
    (sum_rows ARENA_ALIGN dW.arena dW.mem probs.out).bind fun db =>
    (Matrix_mut_Scalar db.mem dW.out learning_rate).bind fun dWs =>
    (Matrix_minus_Matrix_inplace dWs.2 W dW.out).bind fun Wn =>
    (Matrix_mut_Scalar Wn.2 db.out learning_rate).bind fun dbs =>
    (Matrix_minus_Matrix_inplace dbs.2 b db.out).bind fun bn =>
    some (loss, db.arena, bn.2)

/-- The arena position after a successful allocation of `size` bytes from position `pos`. -/
def pos_after (ARENA_ALIGN pos size : Nat) : Nat := align_up pos ARENA_ALIGN + size

/-- The arena position after the seven allocations of one training step on `N` samples,
`D` features and `C` classes. -/
def train_step_pos (ARENA_ALIGN pos N D C : Nat) : Nat :=
  pos_after ARENA_ALIGN
    (pos_after ARENA_ALIGN
      (pos_after ARENA_ALIGN
        (pos_after ARENA_ALIGN
          (pos_after ARENA_ALIGN
            (pos_after ARENA_ALIGN (pos_after ARENA_ALIGN pos (4 * (N * C))) (4 * (N * C)))
            (4 * (N * C)))
          (4 * (D * N)))
        (4 * (D * C)))
      (4 * (D * C)))
    (4 * (1 * C))

/-- Entry `(r, c)` of `X * W + b` for `X` at `px` (`D` columns), `W` at `pw` and the row
`b` at `pb` (`C` columns each). -/
def affine_val {α : Type} [LinearOrderedField α] (mem : Mem α) (px pw pb D C r c : Nat) : α :=
  (∑ i in Finset.range D, mem (cell px D r i) * mem (cell pw C i c)) + mem (cell pb C 0 c)

/-- Entry `(r, c)` of `softmax (X * W + b)`. -/
def prob_val {α : Type} [LinearOrderedField α] (expf : α → α) (mem : Mem α)
    (px pw pb D C r c : Nat) : α :=
  softmax_val expf (fun j => affine_val mem px pw pb D C r j) C c

/-- Entry `(r, c)` of `dZ = (softmax (X * W + b) - onehot labels) / N`. -/
def dZ_val {α : Type} [LinearOrderedField α] (expf : α → α) (mem : Mem α)
    (px pw pb N D C : Nat) (labels : Nat → Nat) (r c : Nat) : α :=
  (prob_val expf mem px pw pb D C r c - (if c = labels r then 1 else 0)) / (N : α)

/-- The mean over the `N` rows of `-logf (max p eps)` for `p` the entry of
`softmax (X * W + b)` at the row's label. -/
def loss_val {α : Type} [LinearOrderedField α] (expf logf : α → α) (mem : Mem α)
    (px pw pb N D C : Nat) (labels : Nat → Nat) : α :=
  (∑ i in Finset.range N, -logf (max (prob_val expf mem px pw pb D C i (labels i)) eps)) /
    (N : α)

/-- The regions `(offset from base, size)` of successive allocations of the given sizes
from position `pos`, each starting at the position aligned up to `ARENA_ALIGN`. -/
def aligned_regions (ARENA_ALIGN pos : Nat) : List Nat → List (Nat × Nat)
  | [] => []
  | size :: rest =>
    (align_up pos ARENA_ALIGN, size) ::
      aligned_regions ARENA_ALIGN (pos_after ARENA_ALIGN pos size) rest

/-- The sizes in bytes of the seven arena allocations of one training step on `N` samples,
`D` features and `C` classes, in the order of the calls. -/
def train_step_sizes (N D C : Nat) : List Nat :=
  [4 * (N * C), 4 * (N * C), 4 * (N * C), 4 * (D * N), 4 * (D * C), 4 * (D * C), 4 * C]

/-! ## The arena with a record of its pushes

The allocating functions once more, on an arena that records every `push_ml_arena` call
made on it.  Nothing else differs from the definitions above. -/

/-- An arena together with the record of every `push_ml_arena` call made on it, oldest
first: the pointer returned (`none` for `NULL`) and the size requested. -/
structure logged_arena where
  arena : ml_arena
  pushes : List (Option Nat × Nat)

/-- The function `push_ml_arena`, recorded. -/
def push_ml_arena_logged (ARENA_ALIGN : Nat) (la : logged_arena) (size : Nat) :
    Option Nat × logged_arena :=
  ((push_ml_arena ARENA_ALIGN la.arena size).1,
    { arena := (push_ml_arena ARENA_ALIGN la.arena size).2,
      pushes := la.pushes ++ [((push_ml_arena ARENA_ALIGN la.arena size).1, size)] })

/-- The function `create_Matrix` on a logged arena. -/
def create_Matrix_logged (ARENA_ALIGN : Nat) (la : logged_arena) (rows cols : Nat) :
    logged_arena × Matrix :=
  (( push_ml_arena_logged ARENA_ALIGN la (u64_mul (u64_mul rows cols) 4)).2,
    { rows := rows, cols := cols,
      data := (push_ml_arena_logged ARENA_ALIGN la (u64_mul (u64_mul rows cols) 4)).1 })

/-- What an allocating matrix operation leaves behind, on a logged arena. -/
structure LoggedOutcome (α : Type) where
  status : LnaOpStatus
  arena : logged_arena
  out : Matrix
  mem : Mem α

/-- What `Matrix_transpose` leaves behind, on a logged arena. -/
structure LoggedTransposeOutcome (α : Type) where
  status : LnaOpStatus
  arena : Option logged_arena
  out : Matrix
  mem : Mem α

/-- Forgets the record of pushes. -/
def LoggedOutcome.erase {α : Type} (o : LoggedOutcome α) : Outcome α :=
  ⟨o.status, o.arena.arena, o.out, o.mem⟩

/-- Forgets the record of pushes. -/
def LoggedTransposeOutcome.erase {α : Type} (o : LoggedTransposeOutcome α) :
    TransposeOutcome α :=
  ⟨o.status, o.arena.map fun la => la.arena, o.out, o.mem⟩

/-- The function `Matrix_mut_Matrix` on a logged arena. -/
def Matrix_mut_Matrix_logged {α : Type} [Zero α] [Add α] [Mul α] (ARENA_ALIGN : Nat)
    (la : logged_arena) (mem : Mem α) (out lhs rhs : Matrix) : Option (LoggedOutcome α) :=
  if lhs.cols ≠ rhs.rows then some ⟨LnaOpStatus.INVALID_DIMENSIONS, la, out, mem⟩
  else if lhs.data = none ∨ rhs.data = none then
    some ⟨LnaOpStatus.INVALID_ALLOC, la, out, mem⟩
  else
    (forLoop (create_Matrix_logged ARENA_ALIGN la lhs.rows rhs.cols).2.rows
      (fun cur_row m =>
        forLoop (create_Matrix_logged ARENA_ALIGN la lhs.rows rhs.cols).2.cols
          (fun cur_col m =>
            (forLoop lhs.cols
              (fun i acc =>
                (load m lhs.data (u64_add (u64_mul cur_row lhs.cols) i)).bind fun a =>
                (load m rhs.data (u64_add (u64_mul i rhs.cols) cur_col)).bind fun b =>
                some (acc + a * b))
              (0 : α)).bind fun acc =>
            store m (create_Matrix_logged ARENA_ALIGN la lhs.rows rhs.cols).2.data
              (u64_add (u64_mul cur_row
                (create_Matrix_logged ARENA_ALIGN la lhs.rows rhs.cols).2.cols) cur_col) acc)
          m)
      mem).map fun m =>
        ⟨LnaOpStatus.LNA_OK, (create_Matrix_logged ARENA_ALIGN la lhs.rows rhs.cols).1,
          (create_Matrix_logged ARENA_ALIGN la lhs.rows rhs.cols).2, m⟩

/-- The function `Matrix_transpose` on a logged arena. -/
def Matrix_transpose_logged {α : Type} (ARENA_ALIGN : Nat) (la : Option logged_arena)
    (mem : Mem α) (out target : Matrix) : Option (LoggedTransposeOutcome α) :=
  match la with
  | none => some ⟨LnaOpStatus.INVALID_ALLOC, none, out, mem⟩
  | some a =>
    if target.data = none then some ⟨LnaOpStatus.INVALID_ALLOC, some a, out, mem⟩
    else
      (transpose_loop mem (create_Matrix_logged ARENA_ALIGN a target.cols target.rows).2
        target).map fun m =>
          ⟨LnaOpStatus.LNA_OK,
            some (create_Matrix_logged ARENA_ALIGN a target.cols target.rows).1,
            (create_Matrix_logged ARENA_ALIGN a target.cols target.rows).2, m⟩

/-- The function `softmax` on a logged arena. -/
def softmax_logged {α : Type} [LinearOrderedField α] (expf : α → α) (ARENA_ALIGN : Nat)
    (la : logged_arena) (mem : Mem α) (logits : Matrix) : Option (LoggedOutcome α) :=
  (forLoop logits.rows
    (softmax_row expf (create_Matrix_logged ARENA_ALIGN la logits.rows logits.cols).2 logits)
    mem).map fun m =>
      ⟨LnaOpStatus.LNA_OK, (create_Matrix_logged ARENA_ALIGN la logits.rows logits.cols).1,
        (create_Matrix_logged ARENA_ALIGN la logits.rows logits.cols).2, m⟩

/-- The function `sum_rows` on a logged arena. -/
def sum_rows_logged {α : Type} [Zero α] [Add α] (ARENA_ALIGN : Nat) (la : logged_arena)
    (mem : Mem α) (m : Matrix) : Option (LoggedOutcome α) :=
  ((forLoop m.cols
      (fun j mm => mset mm (create_Matrix_logged ARENA_ALIGN la 1 m.cols).2 0 j (0 : α))
      mem).bind fun zeroed =>
    forLoop m.rows
      (fun i mm =>
        forLoop m.cols
          (fun j mm =>
            (mget mm (create_Matrix_logged ARENA_ALIGN la 1 m.cols).2 0 j).bind fun a =>
            (mget mm m i j).bind fun b =>
            mset mm (create_Matrix_logged ARENA_ALIGN la 1 m.cols).2 0 j (a + b))
          mm)
      zeroed).map fun mm =>
        ⟨LnaOpStatus.LNA_OK, (create_Matrix_logged ARENA_ALIGN la 1 m.cols).1,
          (create_Matrix_logged ARENA_ALIGN la 1 m.cols).2, mm⟩

/-- The function `softmax_regression_train_step` on a logged arena: the loss returned,
the arena with the record of its pushes, and the memory after the call. -/
def softmax_regression_train_step_logged {α : Type} [LinearOrderedField α]
    (expf logf : α → α) (ARENA_ALIGN : Nat) (la : logged_arena) (mem : Mem α) (X : Matrix)
    (labels : Nat → Nat) (W b : Matrix) (learning_rate : α) :
    Option (α × logged_arena × Mem α) :=
  (Matrix_mut_Matrix_logged ARENA_ALIGN
      (create_Matrix_logged ARENA_ALIGN la X.rows W.cols).1 mem
      (create_Matrix_logged ARENA_ALIGN la X.rows W.cols).2 X W).bind fun logits =>
  (add_bias_rowwise_inplace logits.mem logits.out b).bind fun biased =>
  (softmax_logged expf ARENA_ALIGN logits.arena biased.2 logits.out).bind fun probs =>
  (cross_entropy logf probs.mem probs.out labels).bind fun loss =>
  (softmax_xent_backward_inplace probs.mem probs.out labels).bind fun dZ =>
  (Matrix_transpose_logged ARENA_ALIGN (some probs.arena) dZ.2 (Matrix.mk 0 0 none)
      X).bind fun Xt =>
  if Xt.status ≠ LnaOpStatus.LNA_OK then none
  else
    Xt.arena.bind fun arena_t =>
    (Matrix_mut_Matrix_logged ARENA_ALIGN
        (create_Matrix_logged ARENA_ALIGN arena_t Xt.out.rows probs.out.cols).1 Xt.mem
        (create_Matrix_logged ARENA_ALIGN arena_t Xt.out.rows probs.out.cols).2 Xt.out
        probs.out).bind fun dW =>
    (sum_rows_logged ARENA_ALIGN dW.arena dW.mem probs.out).bind fun db =>
    (Matrix_mut_Scalar db.mem dW.out learning_rate).bind fun dWs =>
    (Matrix_minus_Matrix_inplace dWs.2 W dW.out).bind fun Wn =>
    (Matrix_mut_Scalar Wn.2 db.out learning_rate).bind fun dbs =>
    (Matrix_minus_Matrix_inplace dbs.2 b db.out).bind fun bn =>
    some (loss, db.arena, bn.2)

/-- The record a step leaves on an arena with no pushes yet, when its seven allocations
succeed at the aligned positions: pointer and size of each, `base` the arena's base. -/
def expected_pushes (ARENA_ALIGN base pos : Nat) (sizes : List Nat) :
    List (Option Nat × Nat) :=
  (aligned_regions ARENA_ALIGN pos sizes).map fun r => (some (base + r.1), r.2)

/-- The memory of the end-to-end instance: `X = [[1,0,0],[0,1,0]]` stored at 8192 (its two
ones at the byte addresses 8192 and 8208) and zero everywhere else, in particular in `W`
at 8216 and in `b` at 8240. -/
def instance_mem : Mem ℝ := fun a => if a = 8192 ∨ a = 8208 then 1 else 0

/-! ## Arena lemmas -/

theorem u64_sub_of_le {a b : Nat} (ha : a < 2 ^ 64) (hb : b ≤ a) : u64_sub a b = a - b := by
  unfold u64_sub
  split_ifs <;> omega

theorem u64_sub_lt (a b : Nat) : u64_sub a b < 2 ^ 64 := by
  unfold u64_sub
  split_ifs <;> omega

/-- The value of `u64_sub` is the integer difference modulo `2^64`. -/
theorem u64_sub_int (a b : Nat) (ha : a < 2 ^ 64) (hb : b < 2 ^ 64) :
    ((u64_sub a b : Nat) : Int) = ((a : Int) - (b : Int)) % 2 ^ 64 := by
  unfold u64_sub
  split_ifs <;> omega

theorem u64_add_of_lt {a b : Nat} (h : a + b < 2 ^ 64) : u64_add a b = a + b := by
  unfold u64_add; omega

theorem u64_mul_of_lt {a b : Nat} (h : a * b < 2 ^ 64) : u64_mul a b = a * b := by
  unfold u64_mul; exact Nat.mod_eq_of_lt h

theorem u64_not_lt (a : Nat) : u64_not a < 2 ^ 64 := by
  unfold u64_not; omega

theorem ALIGN_UP_POW2_lt (n p : Nat) : ALIGN_UP_POW2 n p < 2 ^ 64 := by
  unfold ALIGN_UP_POW2
  exact lt_of_le_of_lt Nat.and_le_right (u64_not_lt _)

theorem land_high_mask (y k : Nat) (hk : k ≤ 64) (hy : y < 2 ^ 64) :
    y &&& (2 ^ 64 - 2 ^ k) = y / 2 ^ k * 2 ^ k := by
  apply Nat.eq_of_testBit_eq
  intro i
  have hm : 2 ^ 64 - 2 ^ k = 2 ^ k * (2 ^ (64 - k) - 1) := by
    rw [Nat.mul_sub, ← pow_add, Nat.add_sub_cancel' hk, mul_one]
  rw [Nat.testBit_land, hm, Nat.mul_comm (y / 2 ^ k), Nat.testBit_mul_pow_two,
    Nat.testBit_mul_pow_two, Nat.testBit_two_pow_sub_one, ← Nat.shiftRight_eq_div_pow,
    Nat.testBit_shiftRight]
  by_cases hik : k ≤ i
  · have : k + (i - k) = i := by omega
    rw [this]
    by_cases hi : i < 64
    · have : i - k < 64 - k := by omega
      simp [hik, this]
    · have hlt : y < 2 ^ i := lt_of_lt_of_le hy (Nat.pow_le_pow_right (by norm_num) (by omega))
      simp [Nat.testBit_lt_two_pow hlt]
  · simp [hik]

theorem two_pow_lt_u64 {k : Nat} (hk : k < 64) : 2 ^ k < 2 ^ 64 :=
  Nat.pow_lt_pow_right (by norm_num) hk

/-- Without wrap-around the macro computes the mathematical alignment. -/
theorem ALIGN_UP_POW2_eq_align_up (n k : Nat) (hk : k < 64) (hn : n + 2 ^ k ≤ 2 ^ 64) :
    ALIGN_UP_POW2 n (2 ^ k) = align_up n (2 ^ k) := by
  have hp : 0 < 2 ^ k := Nat.two_pow_pos k
  have hp2 : 2 ^ k < 2 ^ 64 := two_pow_lt_u64 hk
  have h1 : u64_sub (2 ^ k) 1 = 2 ^ k - 1 := u64_sub_of_le hp2 hp
  have h2 : u64_add (n % 2 ^ 64) (2 ^ k - 1) = n + (2 ^ k - 1) := by
    unfold u64_add; omega
  have h3 : u64_not (2 ^ k - 1) = 2 ^ 64 - 2 ^ k := by
    unfold u64_not; omega
  unfold ALIGN_UP_POW2 align_up
  rw [h1, h2, h3]
  exact land_high_mask _ k (le_of_lt hk) (by omega)

theorem le_align_up (n p : Nat) (hp : 0 < p) : n ≤ align_up n p := by
  unfold align_up
  have h := Nat.div_add_mod (n + (p - 1)) p
  have h2 := Nat.mod_lt (n + (p - 1)) hp
  have h3 : p * ((n + (p - 1)) / p) = (n + (p - 1)) / p * p := Nat.mul_comm _ _
  omega

theorem align_up_lt (n p : Nat) (hp : 0 < p) : align_up n p < n + p := by
  unfold align_up
  have h := Nat.div_mul_le_self (n + (p - 1)) p
  omega

theorem dvd_align_up (n p : Nat) : p ∣ align_up n p :=
  Dvd.intro_left _ rfl

/-- The value `align_up n p` is the least multiple of `p` that is at least `n`. -/
theorem align_up_least (n p m : Nat) (hp : 0 < p) (hm : p ∣ m) (hnm : n ≤ m) :
    align_up n p ≤ m := by
  obtain ⟨c, rfl⟩ := hm
  unfold align_up
  rw [Nat.mul_comm p c]
  apply Nat.mul_le_mul_right
  rw [Nat.div_le_iff_le_mul_add_pred hp]
  calc n + (p - 1) ≤ p * c + (p - 1) := by omega
    _ = p * c + (p - 1) := rfl

/-- The allocator's behaviour when the alignment cannot wrap: the arena ends at
least `ARENA_ALIGN` bytes below `2^64`. -/
theorem push_ml_arena_no_wrap (k : Nat) (hk : k < 64) (arena : ml_arena) (size : Nat)
    (hpos : arena.pos ≤ arena.capacity) (hcap : arena.capacity + 2 ^ k ≤ 2 ^ 64) :
    push_ml_arena (2 ^ k) arena size =
      if align_up arena.pos (2 ^ k) > arena.capacity ∨
          size > arena.capacity - align_up arena.pos (2 ^ k) then (none, arena)
      else (some (arena.base + align_up arena.pos (2 ^ k)),
        { arena with pos := align_up arena.pos (2 ^ k) + size }) := by
  have hp : 0 < 2 ^ k := Nat.two_pow_pos k
  have ha := ALIGN_UP_POW2_eq_align_up arena.pos k hk (by omega)
  unfold push_ml_arena
  simp only [ha]
  by_cases h1 : align_up arena.pos (2 ^ k) > arena.capacity
  · simp [h1]
  · have h1' : align_up arena.pos (2 ^ k) ≤ arena.capacity := by omega
    rw [u64_sub_of_le (by omega) h1']
    by_cases h2 : size > arena.capacity - align_up arena.pos (2 ^ k)
    · simp [h1, h2]
    · rw [u64_add_of_lt (by omega)]
      simp [h1, h2]

/-- The three ways `push_ml_arena` can end, as equations. -/
theorem push_cases (ARENA_ALIGN : Nat) (arena : ml_arena) (size : Nat) :
    push_ml_arena ARENA_ALIGN arena size = (none, arena) ∨
    (ALIGN_UP_POW2 arena.pos ARENA_ALIGN ≤ arena.capacity ∧
      size ≤ u64_sub arena.capacity (ALIGN_UP_POW2 arena.pos ARENA_ALIGN) ∧
      push_ml_arena ARENA_ALIGN arena size =
        (some (arena.base + ALIGN_UP_POW2 arena.pos ARENA_ALIGN),
          { arena with pos := u64_add (ALIGN_UP_POW2 arena.pos ARENA_ALIGN) size })) := by
  unfold push_ml_arena
  by_cases h1 : ALIGN_UP_POW2 arena.pos ARENA_ALIGN > arena.capacity
  · left; simp [h1]
  · by_cases h2 : size > u64_sub arena.capacity (ALIGN_UP_POW2 arena.pos ARENA_ALIGN)
    · left; simp [h1, h2]
    · right; exact ⟨by omega, by omega, by simp [h1, h2]⟩

theorem u64_add_le_of_fits (a c s : Nat) (hlt : a < 2 ^ 64) (h1 : a ≤ c)
    (h2 : s ≤ u64_sub c a) : u64_add a s ≤ c := by
  have h3 := u64_sub_lt c a
  by_cases hc : c < 2 ^ 64
  · rw [u64_sub_of_le hc h1] at h2
    unfold u64_add
    omega
  · unfold u64_add
    omega

/-! ## Loops and row-major addressing -/

theorem forLoop_zero {σ : Type} (body : Nat → σ → Option σ) (init : σ) :
    forLoop 0 body init = some init := rfl

theorem forLoop_succ {σ : Type} (k : Nat) (body : Nat → σ → Option σ) (init : σ) :
    forLoop (k + 1) body init = (forLoop k body init).bind (body k) := rfl

/-- Invariant rule for `forLoop`: a loop whose every iteration succeeds and carries the
invariant from `i` to `i + 1` runs to the end and establishes it at `n`. -/
theorem forLoop_inv {σ : Type} (P : Nat → σ → Prop) (n : Nat) (body : Nat → σ → Option σ)
    (init : σ) (h0 : P 0 init)
    (hstep : ∀ i s, i < n → P i s → ∃ s', body i s = some s' ∧ P (i + 1) s') :
    ∃ s', forLoop n body init = some s' ∧ P n s' := by
  induction n with
  | zero => exact ⟨init, rfl, h0⟩
  | succ k ih =>
    obtain ⟨s, hs, hP⟩ := ih (fun i s hi => hstep i s (Nat.lt_succ_of_lt hi))
    obtain ⟨s', hs', hP'⟩ := hstep k s (Nat.lt_succ_self k) hP
    refine ⟨s', ?_, hP'⟩
    rw [forLoop_succ, hs]
    exact hs'

/-- A loop that writes the value `F i` to the distinct address `a i` at iteration `i`. -/
theorem forLoop_fill {α : Type} (n : Nat) (a : Nat → Nat) (F : Nat → α)
    (body : Nat → Mem α → Option (Mem α)) (mem : Mem α)
    (hinj : ∀ i j, i < n → j < n → a i = a j → i = j)
    (hbody : ∀ i m, i < n → (∀ x, (∀ j, j < i → x ≠ a j) → m x = mem x) →
      body i m = some (Function.update m (a i) (F i))) :
    ∃ m', forLoop n body mem = some m' ∧ (∀ i, i < n → m' (a i) = F i) ∧
      (∀ x, (∀ j, j < n → x ≠ a j) → m' x = mem x) := by
  have key := forLoop_inv
    (fun i m => i ≤ n ∧ (∀ j, j < i → m (a j) = F j) ∧
      (∀ x, (∀ j, j < i → x ≠ a j) → m x = mem x))
    n body mem
    ⟨Nat.zero_le _, fun j hj => absurd hj (Nat.not_lt_zero j), fun x _ => rfl⟩
    (by
      intro i m hi hP
      obtain ⟨_, hP1, hP2⟩ := hP
      refine ⟨_, hbody i m hi hP2, hi, ?_, ?_⟩
      · intro j hj
        by_cases hji : j = i
        · subst hji
          simp
        · have hjlt : j < i := by omega
          have hne : a j ≠ a i := fun h => hji (hinj j i (by omega) hi h)
          rw [Function.update_noteq hne]
          exact hP1 j hjlt
      · intro x hx
        have hne : x ≠ a i := hx i (Nat.lt_succ_self i)
        rw [Function.update_noteq hne]
        exact hP2 x (fun j hj => hx j (Nat.lt_succ_of_lt hj)))
  obtain ⟨m', hm', _, h1, h2⟩ := key
  exact ⟨m', hm', h1, h2⟩

/-- A loop nest that writes `F r c` to the distinct address `a r c` at iteration `(r, c)`. -/
theorem forLoop_fill2 {α : Type} (R C : Nat) (a : Nat → Nat → Nat) (F : Nat → Nat → α)
    (body : Nat → Nat → Mem α → Option (Mem α)) (mem : Mem α)
    (hinj : ∀ r c r' c', r < R → c < C → r' < R → c' < C → a r c = a r' c' →
      r = r' ∧ c = c')
    (hbody : ∀ r c m, r < R → c < C →
      (∀ x, (∀ r' c', r' < R → c' < C → (r' < r ∨ (r' = r ∧ c' < c)) → x ≠ a r' c') →
        m x = mem x) →
      body r c m = some (Function.update m (a r c) (F r c))) :
    ∃ m', forLoop R (fun r m => forLoop C (fun c m => body r c m) m) mem = some m' ∧
      (∀ r c, r < R → c < C → m' (a r c) = F r c) ∧
      (∀ x, (∀ r c, r < R → c < C → x ≠ a r c) → m' x = mem x) := by
  have key := forLoop_inv
    (fun r m => r ≤ R ∧ (∀ r' c, r' < r → c < C → m (a r' c) = F r' c) ∧
      (∀ x, (∀ r' c, r' < r → c < C → x ≠ a r' c) → m x = mem x))
    R (fun r m => forLoop C (fun c m => body r c m) m) mem
    ⟨Nat.zero_le _, fun r' c hr => absurd hr (Nat.not_lt_zero r'), fun x _ => rfl⟩
    (by
      intro r m hr hP
      obtain ⟨_, hP1, hP2⟩ := hP
      obtain ⟨m', hm', h1, h2⟩ := forLoop_fill C (fun c => a r c) (fun c => F r c)
        (fun c m => body r c m) m
        (fun i j hi hj h => (hinj r i r j hr hi hr hj h).2)
        (by
          intro c m2 hc hm2
          apply hbody r c m2 hr hc
          intro x hx
          rw [hm2 x (fun j hj => hx r j hr (by omega) (Or.inr ⟨rfl, hj⟩))]
          exact hP2 x (fun r' c' hr' hc' => hx r' c' (by omega) hc' (Or.inl hr')))
      refine ⟨m', hm', hr, ?_, ?_⟩
      · intro r' c hr' hc
        by_cases hrr : r' = r
        · subst hrr
          exact h1 c hc
        · have hlt : r' < r := by omega
          rw [h2 (a r' c) (fun j hj h => hrr (hinj r' c r j (by omega) hc hr hj h).1)]
          exact hP1 r' c hlt hc
      · intro x hx
        rw [h2 x (fun j hj => hx r j (Nat.lt_succ_self r) hj)]
        exact hP2 x (fun r' c' hr' hc' => hx r' c' (Nat.lt_succ_of_lt hr') hc'))
  obtain ⟨m', hm', _, h1, h2⟩ := key
  exact ⟨m', hm', h1, h2⟩

theorem idx_lt {R C r c : Nat} (hr : r < R) (hc : c < C) : r * C + c < R * C := by
  have h : (r + 1) * C ≤ R * C := Nat.mul_le_mul_right C hr
  rw [Nat.add_mul, Nat.one_mul] at h
  omega

/-- The `u64` index `row * cols + col` does not wrap inside a buffer that fits in the
address space. -/
theorem u64_idx {R C r c : Nat} (hr : r < R) (hc : c < C) (hfit : R * C < 2 ^ 64) :
    u64_add (u64_mul r C) c = r * C + c := by
  have h := idx_lt hr hc
  rw [u64_mul_of_lt (by omega), u64_add_of_lt (by omega)]

theorem cell_inj {p C r c r' c' : Nat} (hc : c < C) (hc' : c' < C)
    (h : cell p C r c = cell p C r' c') : r = r' ∧ c = c' := by
  unfold cell at h
  have h1 : r * C + c = r' * C + c' := by omega
  have hC : 0 < C := by omega
  have e1 : (r * C + c) / C = r := by
    rw [Nat.mul_comm, Nat.mul_add_div hC, Nat.div_eq_of_lt hc, Nat.add_zero]
  have e2 : (r' * C + c') / C = r' := by
    rw [Nat.mul_comm, Nat.mul_add_div hC, Nat.div_eq_of_lt hc', Nat.add_zero]
  have hr : r = r' := by rw [← e1, ← e2, h1]
  subst hr
  exact ⟨rfl, by omega⟩

theorem cell_lt {p R C r c : Nat} (hr : r < R) (hc : c < C) :
    p ≤ cell p C r c ∧ cell p C r c + 4 ≤ p + 4 * (R * C) := by
  have h := idx_lt hr hc
  unfold cell
  omega

theorem load_some {α : Type} (mem : Mem α) (p idx : Nat) :
    load mem (some p) idx = some (mem (p + 4 * idx)) := rfl

theorem store_some {α : Type} (mem : Mem α) (p idx : Nat) (v : α) :
    store mem (some p) idx v = some (Function.update mem (p + 4 * idx) v) := rfl

/-! ## Arena: sequences of allocations -/

theorem push_all_regions (k : Nat) (hk : k < 64) (sizes : List Nat) :
    ∀ arena : ml_arena, arena.pos ≤ arena.capacity → arena.capacity + 2 ^ k ≤ 2 ^ 64 →
      (∀ reg ∈ (push_all (2 ^ k) arena sizes).1,
        arena.pos ≤ reg.1 ∧ reg.1 + reg.2 ≤ arena.capacity) ∧
      (push_all (2 ^ k) arena sizes).1.Pairwise (fun a b => a.1 + a.2 ≤ b.1) := by
  induction sizes with
  | nil => intro arena _ _; simp [push_all]
  | cons size rest ih =>
    intro arena hpos hcap
    have hp : 0 < 2 ^ k := Nat.two_pow_pos k
    have hle := le_align_up arena.pos (2 ^ k) hp
    rw [push_all, push_ml_arena_no_wrap k hk arena size hpos hcap]
    by_cases h : align_up arena.pos (2 ^ k) > arena.capacity ∨
        size > arena.capacity - align_up arena.pos (2 ^ k)
    · simp only [if_pos h, region_of, List.nil_append]
      exact ih arena hpos hcap
    · simp only [if_neg h, region_of, List.singleton_append]
      have h' : align_up arena.pos (2 ^ k) ≤ arena.capacity ∧
          size ≤ arena.capacity - align_up arena.pos (2 ^ k) := by omega
      obtain ⟨ih1, ih2⟩ := ih { arena with pos := align_up arena.pos (2 ^ k) + size }
        (by simp only; omega) hcap
      simp only at ih1
      constructor
      · intro reg hreg
        rcases List.mem_cons.mp hreg with rfl | hreg
        · simp only [Nat.add_sub_cancel_left]; omega
        · have := ih1 reg hreg
          omega
      · refine List.pairwise_cons.mpr ⟨?_, ih2⟩
        intro reg hreg
        have := ih1 reg hreg
        simp only [Nat.add_sub_cancel_left]; omega

theorem regions_disjoint_of_le (a b : Nat × Nat) (h : a.1 + a.2 ≤ b.1) :
    regions_disjoint a b := by
  intro x hx
  omega

/-! ## Arena: the claims -/

/-- Why the results on the arena ask for `capacity + ARENA_ALIGN ≤ 2^64`.  An arena of
capacity `2^64 - 1` is larger than any region of memory that can back it; on such an
arena, at position `2^64 - 1` with `ARENA_ALIGN = 8`, the least multiple of 8 that is at
least `pos` is `2^64`, the macro `ALIGN_UP_POW2` wraps to `0`, and `push_ml_arena` hands
out `base + 0` and moves the position back to the requested size. -/
theorem push_ml_arena_wraps_at_u64_top :
    (ml_arena.mk 4096 (2 ^ 64 - 1) (2 ^ 64 - 1)).pos ≤
        (ml_arena.mk 4096 (2 ^ 64 - 1) (2 ^ 64 - 1)).capacity ∧
      align_up (2 ^ 64 - 1) 8 = 2 ^ 64 ∧
      ALIGN_UP_POW2 (2 ^ 64 - 1) 8 = 0 ∧
      push_ml_arena 8 (ml_arena.mk 4096 (2 ^ 64 - 1) (2 ^ 64 - 1)) 1 =
        (some 4096, ml_arena.mk 4096 (2 ^ 64 - 1) 1) := by
  unfold push_ml_arena ALIGN_UP_POW2 align_up u64_add u64_sub u64_not
  decide

/-- C2: the invariant `0 ≤ pos ≤ capacity` holds after `create_ml_arena`, and from any
arena satisfying it, it holds again after `push_ml_arena` (whether the call succeeds or
fails) and after `pop_ml_arena`, for every alignment and every size. -/
theorem arena_invariant_preserved (ARENA_ALIGN capacity mem : Nat) (arena : ml_arena)
    (size : Nat) :
    (0 ≤ (create_ml_arena capacity mem).pos ∧
      (create_ml_arena capacity mem).pos ≤ (create_ml_arena capacity mem).capacity) ∧
    (arena.pos ≤ arena.capacity →
      (0 ≤ (push_ml_arena ARENA_ALIGN arena size).2.pos ∧
        (push_ml_arena ARENA_ALIGN arena size).2.pos ≤
          (push_ml_arena ARENA_ALIGN arena size).2.capacity) ∧
      (0 ≤ (pop_ml_arena arena size).pos ∧
        (pop_ml_arena arena size).pos ≤ (pop_ml_arena arena size).capacity)) := by
  refine ⟨⟨Nat.zero_le _, Nat.zero_le _⟩, fun h => ⟨⟨Nat.zero_le _, ?_⟩, Nat.zero_le _, ?_⟩⟩
  · rcases push_cases ARENA_ALIGN arena size with h0 | ⟨h1, h2, h3⟩
    · rw [h0]
      exact h
    · rw [h3]
      exact u64_add_le_of_fits _ _ _ (ALIGN_UP_POW2_lt _ _) h1 h2
  · unfold pop_ml_arena
    split_ifs with h1
    · exact Nat.zero_le _
    · show u64_sub arena.pos size ≤ arena.capacity
      have h3 := u64_sub_lt arena.pos size
      by_cases hp : arena.pos < 2 ^ 64
      · rw [u64_sub_of_le hp (by omega)]
        omega
      · omega

/-- C2 (witness): the arena of capacity 100 at position 9, a push of 20 bytes and a
pop of 4 bytes, with `ARENA_ALIGN = 8`. -/
theorem arena_invariant_preserved_witness :
    (9 : Nat) ≤ 100 ∧
      (push_ml_arena 8 (ml_arena.mk 4096 100 9) 20).2.pos ≤
        (push_ml_arena 8 (ml_arena.mk 4096 100 9) 20).2.capacity ∧
      (pop_ml_arena (ml_arena.mk 4096 100 9) 20).pos ≤
        (pop_ml_arena (ml_arena.mk 4096 100 9) 20).capacity :=
  ⟨by decide,
    ((arena_invariant_preserved 8 100 4096 (ml_arena.mk 4096 100 9) 20).2 (by decide)).1.2,
    ((arena_invariant_preserved 8 100 4096 (ml_arena.mk 4096 100 9) 20).2 (by decide)).2.2⟩

/-- On the fresh arena of capacity `2^64 - 1` (larger than any region of memory that can
back it), with `ARENA_ALIGN = 8`, the requests of `2^64 - 1` bytes and then 1 byte both
succeed, and both are handed the region starting at offset 0. -/
theorem push_all_overlap_at_u64_top :
    (push_all 8 (create_ml_arena (2 ^ 64 - 1) 4096) [2 ^ 64 - 1, 1]).1 =
        [(0, 2 ^ 64 - 1), (0, 1)] ∧
      ¬ regions_disjoint (0, 2 ^ 64 - 1) (0, 1) := by
  constructor
  · unfold push_all push_all push_all push_ml_arena ALIGN_UP_POW2 u64_add u64_sub u64_not
      region_of create_ml_arena
    decide
  · intro h
    exact h 0 (by decide)

/-- C4: when `push_ml_arena` returns `NULL` the arena is exactly what it was before the
call (base, capacity and pos), so `get_free_mem` is unchanged and every later request
behaves as it would have without the failed call. -/
theorem push_failure_is_clean (ARENA_ALIGN : Nat) (arena : ml_arena) (size : Nat)
    (h : (push_ml_arena ARENA_ALIGN arena size).1 = none) :
    (push_ml_arena ARENA_ALIGN arena size).2 = arena ∧
      (push_ml_arena ARENA_ALIGN arena size).2.base = arena.base ∧
      (push_ml_arena ARENA_ALIGN arena size).2.capacity = arena.capacity ∧
      (push_ml_arena ARENA_ALIGN arena size).2.pos = arena.pos ∧
      get_free_mem (push_ml_arena ARENA_ALIGN arena size).2 = get_free_mem arena ∧
      ∀ later : Nat,
        push_ml_arena ARENA_ALIGN (push_ml_arena ARENA_ALIGN arena size).2 later =
          push_ml_arena ARENA_ALIGN arena later := by
  have key : push_ml_arena ARENA_ALIGN arena size = (none, arena) := by
    rcases push_cases ARENA_ALIGN arena size with h0 | ⟨_, _, h3⟩
    · exact h0
    · rw [h3] at h
      cases h
  rw [key]
  exact ⟨rfl, rfl, rfl, rfl, rfl, fun _ => rfl⟩

/-- C4 (witness): the arena of capacity 100 at position 9 refuses 200 bytes, is left
unchanged, and then serves a request of 20 bytes at offset 16. -/
theorem push_failure_is_clean_witness :
    (push_ml_arena 8 (ml_arena.mk 4096 100 9) 200).1 = none ∧
      (push_ml_arena 8 (ml_arena.mk 4096 100 9) 200).2 = ml_arena.mk 4096 100 9 ∧
      push_ml_arena 8 (push_ml_arena 8 (ml_arena.mk 4096 100 9) 200).2 20 =
        (some (4096 + 16), ml_arena.mk 4096 100 36) := by
  have h0 : (push_ml_arena 8 (ml_arena.mk 4096 100 9) 200).1 = none := by
    unfold push_ml_arena ALIGN_UP_POW2 u64_add u64_sub u64_not
    decide
  have h := push_failure_is_clean 8 (ml_arena.mk 4096 100 9) 200 h0
  refine ⟨h0, h.1, ?_⟩
  rw [h.2.2.2.2.2 20]
  unfold push_ml_arena ALIGN_UP_POW2 u64_add u64_sub u64_not
  decide

/-! ## Arena: position and free memory -/

/-- Without wrap-around a push never moves the position backwards. -/
theorem push_ml_arena_pos_mono (k : Nat) (hk : k < 64) (arena : ml_arena) (size : Nat)
    (hpos : arena.pos ≤ arena.capacity) (hcap : arena.capacity + 2 ^ k ≤ 2 ^ 64) :
    arena.pos ≤ (push_ml_arena (2 ^ k) arena size).2.pos := by
  have hle := le_align_up arena.pos (2 ^ k) (Nat.two_pow_pos k)
  rw [push_ml_arena_no_wrap k hk arena size hpos hcap]
  by_cases h : align_up arena.pos (2 ^ k) > arena.capacity ∨
      size > arena.capacity - align_up arena.pos (2 ^ k)
  · rw [if_pos h]
  · rw [if_neg h]
    show arena.pos ≤ align_up arena.pos (2 ^ k) + size
    omega

/-- With `ARENA_ALIGN = 8`, on the arena of capacity `2^64 - 1` at position `2^64 - 1`
(larger than any region of memory that can back it) `push_ml_arena` of 1 byte succeeds
and leaves the position at 1. -/
theorem push_ml_arena_moves_back_at_u64_top :
    (ml_arena.mk 4096 (2 ^ 64 - 1) (2 ^ 64 - 1)).pos ≤
        (ml_arena.mk 4096 (2 ^ 64 - 1) (2 ^ 64 - 1)).capacity ∧
      (push_ml_arena 8 (ml_arena.mk 4096 (2 ^ 64 - 1) (2 ^ 64 - 1)) 1).1 = some 4096 ∧
      (push_ml_arena 8 (ml_arena.mk 4096 (2 ^ 64 - 1) (2 ^ 64 - 1)) 1).2.pos = 1 ∧
      (push_ml_arena 8 (ml_arena.mk 4096 (2 ^ 64 - 1) (2 ^ 64 - 1)) 1).2.pos <
        (ml_arena.mk 4096 (2 ^ 64 - 1) (2 ^ 64 - 1)).pos := by
  have h : push_ml_arena 8 (ml_arena.mk 4096 (2 ^ 64 - 1) (2 ^ 64 - 1)) 1 =
      (some 4096, ml_arena.mk 4096 (2 ^ 64 - 1) 1) := by
    unfold push_ml_arena ALIGN_UP_POW2 u64_add u64_sub u64_not
    decide
  rw [h]
  decide

/-- C17: `pop_ml_arena` subtracts `size` from the position when `size < pos` and sets it
to 0 when `size ≥ pos`; base and capacity are unchanged; afterwards `get_free_mem` is
the `u64` difference `capacity - pos`, which is the exact difference whenever the
position is within the capacity. -/
theorem pop_ml_arena_saturates (arena : ml_arena) (size : Nat) (hu : arena.is_u64) :
    (size < arena.pos → (pop_ml_arena arena size).pos = arena.pos - size) ∧
    (size ≥ arena.pos → (pop_ml_arena arena size).pos = 0) ∧
    (pop_ml_arena arena size).pos ≤ arena.pos ∧
    (pop_ml_arena arena size).base = arena.base ∧
    (pop_ml_arena arena size).capacity = arena.capacity ∧
    ((get_free_mem (pop_ml_arena arena size) : Int) =
      ((arena.capacity : Int) - ((pop_ml_arena arena size).pos : Int)) % 2 ^ 64) ∧
    (arena.pos ≤ arena.capacity →
      get_free_mem (pop_ml_arena arena size) =
        arena.capacity - (pop_ml_arena arena size).pos) := by
  obtain ⟨hc, hp⟩ := hu
  by_cases h : size ≥ arena.pos
  · have e : pop_ml_arena arena size = { arena with pos := 0 } := by
      unfold pop_ml_arena
      rw [if_pos h]
    rw [e]
    refine ⟨fun h' => absurd h' (by omega), fun _ => rfl, Nat.zero_le _, rfl, rfl, ?_, ?_⟩
    · show ((u64_sub arena.capacity 0 : Nat) : Int) = ((arena.capacity : Int) - (0 : Nat)) % 2 ^ 64
      exact u64_sub_int _ _ hc (by omega)
    · intro _
      show u64_sub arena.capacity 0 = arena.capacity - 0
      exact u64_sub_of_le hc (Nat.zero_le _)
  · have e : pop_ml_arena arena size = { arena with pos := u64_sub arena.pos size } := by
      unfold pop_ml_arena
      rw [if_neg h]
    have e2 : u64_sub arena.pos size = arena.pos - size := u64_sub_of_le hp (by omega)
    rw [e, e2]
    refine ⟨fun _ => rfl, fun h' => absurd h' h, Nat.sub_le _ _, rfl, rfl, ?_, ?_⟩
    · show ((u64_sub arena.capacity (arena.pos - size) : Nat) : Int) =
        ((arena.capacity : Int) - ((arena.pos - size : Nat) : Int)) % 2 ^ 64
      exact u64_sub_int _ _ hc (by omega)
    · intro hle
      show u64_sub arena.capacity (arena.pos - size) = arena.capacity - (arena.pos - size)
      exact u64_sub_of_le hc (by omega)

/-- C17 (witness): the arena of capacity 100 at position 36, popping 20 bytes. -/
theorem pop_ml_arena_saturates_witness :
    (ml_arena.mk 4096 100 36).is_u64 ∧
      (pop_ml_arena (ml_arena.mk 4096 100 36) 20).pos = 36 - 20 ∧
      get_free_mem (pop_ml_arena (ml_arena.mk 4096 100 36) 20) =
        100 - (pop_ml_arena (ml_arena.mk 4096 100 36) 20).pos :=
  ⟨⟨by decide, by decide⟩,
    (pop_ml_arena_saturates (ml_arena.mk 4096 100 36) 20 ⟨by decide, by decide⟩).1
      (by decide),
    (pop_ml_arena_saturates (ml_arena.mk 4096 100 36) 20 ⟨by decide, by decide⟩).2.2.2.2.2.2
      (by decide)⟩

/-! ## Matrix operations: rejected calls -/

/-- C6: a shape-incompatible call returns `INVALID_DIMENSIONS` and leaves the arena,
the `out` struct and all of memory (so both operands) exactly as they were, for
`Matrix_mut_Matrix`, `Matrix_plus_Matrix`, `Matrix_minus_Matrix`,
`Matrix_minus_Matrix_inplace` and `add_bias_rowwise_inplace`. -/
theorem shape_mismatch_is_rejected {α : Type} [Zero α] [Add α] [Mul α] [Sub α]
    (ARENA_ALIGN : Nat) (arena : ml_arena) (mem : Mem α) (out lhs rhs logits bias : Matrix) :
    (lhs.cols ≠ rhs.rows →
      Matrix_mut_Matrix ARENA_ALIGN arena mem out lhs rhs =
        some ⟨LnaOpStatus.INVALID_DIMENSIONS, arena, out, mem⟩) ∧
    ((lhs.rows ≠ rhs.rows ∨ lhs.cols ≠ rhs.cols) →
      Matrix_plus_Matrix ARENA_ALIGN arena mem out lhs rhs =
          some ⟨LnaOpStatus.INVALID_DIMENSIONS, arena, out, mem⟩ ∧
        Matrix_minus_Matrix ARENA_ALIGN arena mem out lhs rhs =
          some ⟨LnaOpStatus.INVALID_DIMENSIONS, arena, out, mem⟩ ∧
        Matrix_minus_Matrix_inplace mem lhs rhs =
          some (LnaOpStatus.INVALID_DIMENSIONS, mem)) ∧
    ((bias.rows ≠ 1 ∨ bias.cols ≠ logits.cols) →
      add_bias_rowwise_inplace mem logits bias =
        some (LnaOpStatus.INVALID_DIMENSIONS, mem)) := by
  refine ⟨fun h => ?_, fun h => ⟨?_, ?_, ?_⟩, fun h => ?_⟩
  · unfold Matrix_mut_Matrix
    rw [if_pos h]
  · unfold Matrix_plus_Matrix
    by_cases hc : lhs.cols ≠ rhs.cols
    · rw [if_pos hc]
    · rw [if_neg hc, if_pos (h.resolve_right hc)]
  · unfold Matrix_minus_Matrix
    by_cases hc : lhs.cols ≠ rhs.cols
    · rw [if_pos hc]
    · rw [if_neg hc, if_pos (h.resolve_right hc)]
  · unfold Matrix_minus_Matrix_inplace
    by_cases hc : lhs.cols ≠ rhs.cols
    · rw [if_pos hc]
    · rw [if_neg hc, if_pos (h.resolve_right hc)]
  · unfold add_bias_rowwise_inplace
    rw [if_pos h]

/-- C6 (witness): a 2 x 3 matrix against a 2 x 3 matrix for the product, a 2 x 3 against
a 3 x 3 for the sums, and a 2-row bias, over integer cells. -/
theorem shape_mismatch_is_rejected_witness :
    Matrix_mut_Matrix 8 (ml_arena.mk 4096 1024 0) (fun _ => (0 : Int)) (Matrix.mk 0 0 none)
        (Matrix.mk 2 3 (some 8192)) (Matrix.mk 2 3 (some 8300)) =
      some ⟨LnaOpStatus.INVALID_DIMENSIONS, ml_arena.mk 4096 1024 0, Matrix.mk 0 0 none,
        fun _ => (0 : Int)⟩ ∧
    Matrix_minus_Matrix_inplace (fun _ => (0 : Int)) (Matrix.mk 2 3 (some 8192))
        (Matrix.mk 3 3 (some 8300)) =
      some (LnaOpStatus.INVALID_DIMENSIONS, fun _ => (0 : Int)) ∧
    add_bias_rowwise_inplace (fun _ => (0 : Int)) (Matrix.mk 2 3 (some 8192))
        (Matrix.mk 2 3 (some 8300)) =
      some (LnaOpStatus.INVALID_DIMENSIONS, fun _ => (0 : Int)) :=
  ⟨(shape_mismatch_is_rejected 8 (ml_arena.mk 4096 1024 0) (fun _ => (0 : Int))
      (Matrix.mk 0 0 none) (Matrix.mk 2 3 (some 8192)) (Matrix.mk 2 3 (some 8300))
      (Matrix.mk 2 3 (some 8192)) (Matrix.mk 2 3 (some 8300))).1 (by decide),
    ((shape_mismatch_is_rejected 8 (ml_arena.mk 4096 1024 0) (fun _ => (0 : Int))
      (Matrix.mk 0 0 none) (Matrix.mk 2 3 (some 8192)) (Matrix.mk 3 3 (some 8300))
      (Matrix.mk 2 3 (some 8192)) (Matrix.mk 2 3 (some 8300))).2.1
        (Or.inl (by decide))).2.2,
    (shape_mismatch_is_rejected 8 (ml_arena.mk 4096 1024 0) (fun _ => (0 : Int))
      (Matrix.mk 0 0 none) (Matrix.mk 2 3 (some 8192)) (Matrix.mk 3 3 (some 8300))
      (Matrix.mk 2 3 (some 8192)) (Matrix.mk 2 3 (some 8300))).2.2 (Or.inl (by decide))⟩

/-- C18: null storage is rejected with `INVALID_ALLOC` and nothing changes (arena, `out`
struct, memory): the binary operations on shape-compatible operands of which one has
null data, the scalar operations on a matrix with null data, and `Matrix_transpose`
with a null arena or null target data.  When the shapes are incompatible as well, the
binary operations answer `INVALID_DIMENSIONS`, the dimension check coming first. -/
theorem null_storage_is_rejected {α : Type} [Zero α] [Add α] [Mul α] [Sub α]
    (ARENA_ALIGN : Nat) (arena : ml_arena) (mem : Mem α) (out lhs rhs : Matrix) (s : α)
    (hnull : lhs.data = none ∨ rhs.data = none) :
    (lhs.cols = rhs.rows →
      Matrix_mut_Matrix ARENA_ALIGN arena mem out lhs rhs =
        some ⟨LnaOpStatus.INVALID_ALLOC, arena, out, mem⟩) ∧
    (lhs.cols ≠ rhs.rows →
      Matrix_mut_Matrix ARENA_ALIGN arena mem out lhs rhs =
        some ⟨LnaOpStatus.INVALID_DIMENSIONS, arena, out, mem⟩) ∧
    (lhs.rows = rhs.rows ∧ lhs.cols = rhs.cols →
      Matrix_plus_Matrix ARENA_ALIGN arena mem out lhs rhs =
          some ⟨LnaOpStatus.INVALID_ALLOC, arena, out, mem⟩ ∧
        Matrix_minus_Matrix ARENA_ALIGN arena mem out lhs rhs =
          some ⟨LnaOpStatus.INVALID_ALLOC, arena, out, mem⟩ ∧
        Matrix_minus_Matrix_inplace mem lhs rhs = some (LnaOpStatus.INVALID_ALLOC, mem)) ∧
    (lhs.rows ≠ rhs.rows ∨ lhs.cols ≠ rhs.cols →
      Matrix_plus_Matrix ARENA_ALIGN arena mem out lhs rhs =
          some ⟨LnaOpStatus.INVALID_DIMENSIONS, arena, out, mem⟩ ∧
        Matrix_minus_Matrix ARENA_ALIGN arena mem out lhs rhs =
          some ⟨LnaOpStatus.INVALID_DIMENSIONS, arena, out, mem⟩ ∧
        Matrix_minus_Matrix_inplace mem lhs rhs =
          some (LnaOpStatus.INVALID_DIMENSIONS, mem)) ∧
    (lhs.data = none →
      Matrix_mut_Scalar mem lhs s = some (LnaOpStatus.INVALID_ALLOC, mem) ∧
        Matrix_plus_Scalar mem lhs s = some (LnaOpStatus.INVALID_ALLOC, mem) ∧
        Matrix_minus_Scalar mem lhs s = some (LnaOpStatus.INVALID_ALLOC, mem) ∧
        Matrix_transpose ARENA_ALIGN (some arena) mem out lhs =
          some ⟨LnaOpStatus.INVALID_ALLOC, some arena, out, mem⟩) ∧
    Matrix_transpose ARENA_ALIGN none mem out lhs =
      some ⟨LnaOpStatus.INVALID_ALLOC, none, out, mem⟩ := by
  refine ⟨fun h => ?_, fun h => ?_, fun h => ⟨?_, ?_, ?_⟩, fun h => ⟨?_, ?_, ?_⟩,
    fun h => ⟨?_, ?_, ?_, ?_⟩, ?_⟩
  · unfold Matrix_mut_Matrix
    rw [if_neg (not_not.mpr h), if_pos hnull]
  · unfold Matrix_mut_Matrix
    rw [if_pos h]
  · unfold Matrix_plus_Matrix
    rw [if_neg (not_not.mpr h.2), if_neg (not_not.mpr h.1), if_pos hnull]
  · unfold Matrix_minus_Matrix
    rw [if_neg (not_not.mpr h.2), if_neg (not_not.mpr h.1), if_pos hnull]
  · unfold Matrix_minus_Matrix_inplace
    rw [if_neg (not_not.mpr h.2), if_neg (not_not.mpr h.1), if_pos hnull]
  · unfold Matrix_plus_Matrix
    by_cases hc : lhs.cols ≠ rhs.cols
    · rw [if_pos hc]
    · rw [if_neg hc, if_pos (h.resolve_right hc)]
  · unfold Matrix_minus_Matrix
    by_cases hc : lhs.cols ≠ rhs.cols
    · rw [if_pos hc]
    · rw [if_neg hc, if_pos (h.resolve_right hc)]
  · unfold Matrix_minus_Matrix_inplace
    by_cases hc : lhs.cols ≠ rhs.cols
    · rw [if_pos hc]
    · rw [if_neg hc, if_pos (h.resolve_right hc)]
  · unfold Matrix_mut_Scalar
    rw [if_pos h]
  · unfold Matrix_plus_Scalar
    rw [if_pos h]
  · unfold Matrix_minus_Scalar
    rw [if_pos h]
  · unfold Matrix_transpose
    simp only
    rw [if_pos h]
  · unfold Matrix_transpose
    rfl

/-- C18 (witness): a 2 x 3 operand with null data against a stored 3 x 2 operand. -/
theorem null_storage_is_rejected_witness :
    Matrix_mut_Matrix 8 (ml_arena.mk 4096 1024 0) (fun _ => (0 : Int)) (Matrix.mk 0 0 none)
        (Matrix.mk 2 3 none) (Matrix.mk 3 2 (some 8300)) =
      some ⟨LnaOpStatus.INVALID_ALLOC, ml_arena.mk 4096 1024 0, Matrix.mk 0 0 none,
        fun _ => (0 : Int)⟩ ∧
    Matrix_mut_Scalar (fun _ => (0 : Int)) (Matrix.mk 2 3 none) 5 =
      some (LnaOpStatus.INVALID_ALLOC, fun _ => (0 : Int)) :=
  ⟨(null_storage_is_rejected 8 (ml_arena.mk 4096 1024 0) (fun _ => (0 : Int))
      (Matrix.mk 0 0 none) (Matrix.mk 2 3 none) (Matrix.mk 3 2 (some 8300)) 5
      (Or.inl rfl)).1 (by decide),
    ((null_storage_is_rejected 8 (ml_arena.mk 4096 1024 0) (fun _ => (0 : Int))
      (Matrix.mk 0 0 none) (Matrix.mk 2 3 none) (Matrix.mk 3 2 (some 8300)) 5
      (Or.inl rfl)).2.2.2.2.1 rfl).1⟩

/-! ## Allocation inside the matrix operations -/

/-- With room in the arena and no wrap-around, `create_Matrix` hands out the aligned
position and advances the arena by `4 * rows * cols` bytes. -/
theorem create_Matrix_ok (k : Nat) (hk : k < 64) (arena : ml_arena) (rows cols : Nat)
    (hpos : arena.pos ≤ arena.capacity) (hcap : arena.capacity + 2 ^ k ≤ 2 ^ 64)
    (hroom : align_up arena.pos (2 ^ k) + 4 * (rows * cols) ≤ arena.capacity) :
    create_Matrix (2 ^ k) arena rows cols =
      ({ arena with pos := align_up arena.pos (2 ^ k) + 4 * (rows * cols) },
        { rows := rows, cols := cols,
          data := some (arena.base + align_up arena.pos (2 ^ k)) }) := by
  have hp : 0 < 2 ^ k := Nat.two_pow_pos k
  have hsize : u64_mul (u64_mul rows cols) 4 = 4 * (rows * cols) := by
    rw [u64_mul_of_lt (show rows * cols < 2 ^ 64 by omega),
      u64_mul_of_lt (show rows * cols * 4 < 2 ^ 64 by omega), Nat.mul_comm]
  have hpush : push_ml_arena (2 ^ k) arena (4 * (rows * cols)) =
      (some (arena.base + align_up arena.pos (2 ^ k)),
        { arena with pos := align_up arena.pos (2 ^ k) + 4 * (rows * cols) }) := by
    rw [push_ml_arena_no_wrap k hk arena _ hpos hcap, if_neg (by omega)]
  unfold create_Matrix
  rw [hsize, hpush]

theorem forLoop_none_of_first {σ : Type} (n : Nat) (body : Nat → σ → Option σ) (init : σ)
    (hn : 0 < n) (h : body 0 init = none) : forLoop n body init = none := by
  induction n with
  | zero => omega
  | succ k ih =>
    rw [forLoop_succ]
    by_cases hk : k = 0
    · subst hk
      rw [forLoop_zero]
      exact h
    · rw [ih (by omega)]
      rfl

theorem elementwise_loop_null_out {α : Type} (op : α → α → α) (mem : Mem α)
    (out lhs rhs : Matrix) (hout : out.data = none) (hr : 0 < out.rows) (hc : 0 < out.cols) :
    elementwise_loop op mem out lhs rhs = none := by
  unfold elementwise_loop
  apply forLoop_none_of_first _ _ _ hr
  apply forLoop_none_of_first _ _ _ hc
  rw [hout]
  cases lhs.data <;> cases rhs.data <;> rfl

theorem transpose_loop_null_out {α : Type} (mem : Mem α) (out target : Matrix)
    (hout : out.data = none) (hr : 0 < target.rows) (hc : 0 < target.cols) :
    transpose_loop mem out target = none := by
  unfold transpose_loop
  apply forLoop_none_of_first _ _ _ hr
  apply forLoop_none_of_first _ _ _ hc
  rw [hout]
  cases target.data <;> rfl

/-- When the arena cannot hold the output, `Matrix_plus_Matrix` on valid non-empty
operands writes through the null pointer that `create_Matrix` stored. -/
theorem Matrix_plus_Matrix_exhausted {α : Type} [Add α] (ARENA_ALIGN : Nat)
    (arena : ml_arena) (mem : Mem α) (out lhs rhs : Matrix)
    (hc : lhs.cols = rhs.cols) (hr : lhs.rows = rhs.rows)
    (hl : lhs.data ≠ none) (hrd : rhs.data ≠ none)
    (hfail : (push_ml_arena ARENA_ALIGN arena (u64_mul (u64_mul lhs.rows lhs.cols) 4)).1 = none)
    (h0 : 0 < lhs.rows) (h1 : 0 < lhs.cols) :
    Matrix_plus_Matrix ARENA_ALIGN arena mem out lhs rhs = none := by
  unfold Matrix_plus_Matrix
  rw [if_neg (not_not.mpr hc), if_neg (not_not.mpr hr), if_neg (not_or.mpr ⟨hl, hrd⟩)]
  rw [elementwise_loop_null_out _ _ (create_Matrix ARENA_ALIGN arena lhs.rows lhs.cols).2 _ _
    hfail h0 h1]
  rfl

theorem Matrix_minus_Matrix_exhausted {α : Type} [Sub α] (ARENA_ALIGN : Nat)
    (arena : ml_arena) (mem : Mem α) (out lhs rhs : Matrix)
    (hc : lhs.cols = rhs.cols) (hr : lhs.rows = rhs.rows)
    (hl : lhs.data ≠ none) (hrd : rhs.data ≠ none)
    (hfail : (push_ml_arena ARENA_ALIGN arena (u64_mul (u64_mul lhs.rows lhs.cols) 4)).1 = none)
    (h0 : 0 < lhs.rows) (h1 : 0 < lhs.cols) :
    Matrix_minus_Matrix ARENA_ALIGN arena mem out lhs rhs = none := by
  unfold Matrix_minus_Matrix
  rw [if_neg (not_not.mpr hc), if_neg (not_not.mpr hr), if_neg (not_or.mpr ⟨hl, hrd⟩)]
  rw [elementwise_loop_null_out _ _ (create_Matrix ARENA_ALIGN arena lhs.rows lhs.cols).2 _ _
    hfail h0 h1]
  rfl

theorem Matrix_transpose_exhausted {α : Type} (ARENA_ALIGN : Nat)
    (arena : ml_arena) (mem : Mem α) (out target : Matrix)
    (ht : target.data ≠ none)
    (hfail : (push_ml_arena ARENA_ALIGN arena
      (u64_mul (u64_mul target.cols target.rows) 4)).1 = none)
    (h0 : 0 < target.rows) (h1 : 0 < target.cols) :
    Matrix_transpose ARENA_ALIGN (some arena) mem out target = none := by
  unfold Matrix_transpose
  simp only
  rw [if_neg ht, transpose_loop_null_out _
    (create_Matrix ARENA_ALIGN arena target.cols target.rows).2 _ hfail h0 h1]
  rfl

theorem Matrix_mut_Matrix_exhausted {α : Type} [Zero α] [Add α] [Mul α] (ARENA_ALIGN : Nat)
    (arena : ml_arena) (mem : Mem α) (out lhs rhs : Matrix)
    (hc : lhs.cols = rhs.rows) (hl : lhs.data ≠ none) (hrd : rhs.data ≠ none)
    (hfail : (push_ml_arena ARENA_ALIGN arena (u64_mul (u64_mul lhs.rows rhs.cols) 4)).1 = none)
    (h0 : 0 < lhs.rows) (h1 : 0 < rhs.cols) :
    Matrix_mut_Matrix ARENA_ALIGN arena mem out lhs rhs = none := by
  unfold Matrix_mut_Matrix
  rw [if_neg (not_not.mpr hc), if_neg (not_or.mpr ⟨hl, hrd⟩)]
  have hnone : (create_Matrix ARENA_ALIGN arena lhs.rows rhs.cols).2.data = none := hfail
  rw [Option.map_eq_none']
  apply forLoop_none_of_first _ _ _ h0
  apply forLoop_none_of_first _ _ _ h1
  rw [hnone]
  cases forLoop lhs.cols _ (0 : α) <;> rfl

/-- C19 (failing input): the arena of capacity 16 is full (`pos = 16`) and holds the two
stored 1 x 1 operands; the request of 4 bytes fails.  Each allocating operation then
writes through the null `out->data` (the model's `none`) where the claim says it
returns `INVALID_ALLOC`. -/
theorem exhausted_arena_faults :
    (push_ml_arena 8 (ml_arena.mk 4096 16 16) 4).1 = none ∧
    Matrix_plus_Matrix 8 (ml_arena.mk 4096 16 16) (fun _ => (0 : Int)) (Matrix.mk 0 0 none)
      (Matrix.mk 1 1 (some 4096)) (Matrix.mk 1 1 (some 4104)) = none ∧
    Matrix_minus_Matrix 8 (ml_arena.mk 4096 16 16) (fun _ => (0 : Int)) (Matrix.mk 0 0 none)
      (Matrix.mk 1 1 (some 4096)) (Matrix.mk 1 1 (some 4104)) = none ∧
    Matrix_mut_Matrix 8 (ml_arena.mk 4096 16 16) (fun _ => (0 : Int)) (Matrix.mk 0 0 none)
      (Matrix.mk 1 1 (some 4096)) (Matrix.mk 1 1 (some 4104)) = none ∧
    Matrix_transpose 8 (some (ml_arena.mk 4096 16 16)) (fun _ => (0 : Int))
      (Matrix.mk 0 0 none) (Matrix.mk 1 1 (some 4096)) = none := by
  have hfail : (push_ml_arena 8 (ml_arena.mk 4096 16 16) 4).1 = none := by
    unfold push_ml_arena ALIGN_UP_POW2 u64_add u64_sub u64_not
    decide
  have hsize : u64_mul (u64_mul 1 1) 4 = 4 := by
    unfold u64_mul
    decide
  have hfail2 : (push_ml_arena 8 (ml_arena.mk 4096 16 16) (u64_mul (u64_mul 1 1) 4)).1 =
      none := by
    rw [hsize]
    exact hfail
  exact ⟨hfail,
    Matrix_plus_Matrix_exhausted 8 _ _ _ _ _ rfl rfl (by decide) (by decide) hfail2
      (by decide) (by decide),
    Matrix_minus_Matrix_exhausted 8 _ _ _ _ _ rfl rfl (by decide) (by decide) hfail2
      (by decide) (by decide),
    Matrix_mut_Matrix_exhausted 8 _ _ _ _ _ rfl (by decide) (by decide) hfail2
      (by decide) (by decide),
    Matrix_transpose_exhausted 8 _ _ _ _ (by decide) hfail2 (by decide) (by decide)⟩

/-- C15 (failing input): with `rows = 2^62` and `cols = 1` the byte count
`(rows*cols)*sizeof(f32)` is `2^64`, which wraps to 0 in `u64`.  On the empty arena of
capacity 64 `create_Matrix` stores the non-null pointer `base + 0` and the requested
shape, yet reserves 0 bytes: the position stays 0, far less than the `2^64` bytes that
`rows * cols` elements need. -/
theorem create_Matrix_size_wraps :
    create_Matrix 8 (ml_arena.mk 4096 64 0) (2 ^ 62) 1 =
        (ml_arena.mk 4096 64 0, Matrix.mk (2 ^ 62) 1 (some 4096)) ∧
      u64_mul (u64_mul (2 ^ 62) 1) 4 = 0 ∧
      (create_Matrix 8 (ml_arena.mk 4096 64 0) (2 ^ 62) 1).1.pos - 0 < 4 * (2 ^ 62 * 1) := by
  have h : create_Matrix 8 (ml_arena.mk 4096 64 0) (2 ^ 62) 1 =
      (ml_arena.mk 4096 64 0, Matrix.mk (2 ^ 62) 1 (some 4096)) := by
    unfold create_Matrix push_ml_arena ALIGN_UP_POW2 u64_add u64_sub u64_not u64_mul
    decide
  refine ⟨h, ?_, ?_⟩
  · unfold u64_mul
    decide
  · rw [h]
    decide

/-! ## Element-wise loops -/

theorem mget_cell {α : Type} (m : Mem α) {R C p r c : Nat} (hr : r < R) (hc : c < C)
    (hfit : R * C < 2 ^ 64) :
    mget m (Matrix.mk R C (some p)) r c = some (m (cell p C r c)) := by
  unfold mget
  show load m (some p) (u64_add (u64_mul r C) c) = _
  rw [u64_idx hr hc hfit, load_some]
  rfl

theorem mset_cell {α : Type} (m : Mem α) {R C p r c : Nat} (v : α) (hr : r < R) (hc : c < C)
    (hfit : R * C < 2 ^ 64) :
    mset m (Matrix.mk R C (some p)) r c v = some (Function.update m (cell p C r c) v) := by
  unfold mset
  show store m (some p) (u64_add (u64_mul r C) c) v = _
  rw [u64_idx hr hc hfit, store_some]
  rfl

/-- The element-wise loop writes `op lhs(r,c) rhs(r,c)` to every cell of `out` and
nothing else, when `rhs` lies outside `out` and `lhs` either is `out` or lies outside. -/
theorem elementwise_loop_spec {α : Type} (op : α → α → α) (mem : Mem α)
    (R C Rl Rr Cr po pl pr : Nat) (hfit : R * C < 2 ^ 64)
    (hl : pl = po ∨ pl + 4 * (R * C) ≤ po ∨ po + 4 * (R * C) ≤ pl)
    (hr : pr + 4 * (R * C) ≤ po ∨ po + 4 * (R * C) ≤ pr) :
    ∃ m', elementwise_loop op mem (Matrix.mk R C (some po)) (Matrix.mk Rl C (some pl))
        (Matrix.mk Rr Cr (some pr)) = some m' ∧
      (∀ r c, r < R → c < C →
        m' (cell po C r c) = op (mem (cell pl C r c)) (mem (cell pr C r c))) ∧
      (∀ x, (∀ r c, r < R → c < C → x ≠ cell po C r c) → m' x = mem x) := by
  unfold elementwise_loop
  refine forLoop_fill2 R C (fun r c => cell po C r c)
    (fun r c => op (mem (cell pl C r c)) (mem (cell pr C r c)))
    (fun r c m =>
      (load m (some pl) (u64_add (u64_mul r C) c)).bind fun a =>
      (load m (some pr) (u64_add (u64_mul r C) c)).bind fun b =>
      store m (some po) (u64_add (u64_mul r C) c) (op a b)) mem
    (fun r c r' c' _ hc _ hc' h => cell_inj hc hc' h) ?_
  intro r c m hr' hc hm
  have hidx := u64_idx hr' hc hfit
  have b1 := @cell_lt pl R C r c hr' hc
  have b2 := @cell_lt pr R C r c hr' hc
  have h1 : m (cell pl C r c) = mem (cell pl C r c) := by
    apply hm
    intro r' c' hr2 hc2 hlt
    show cell pl C r c ≠ cell po C r' c'
    have b3 := @cell_lt po R C r' c' hr2 hc2
    rcases hl with h | h | h
    · subst h
      intro e
      have := cell_inj hc hc2 e
      omega
    · omega
    · omega
  have h2 : m (cell pr C r c) = mem (cell pr C r c) := by
    apply hm
    intro r' c' hr2 hc2 _
    show cell pr C r c ≠ cell po C r' c'
    have b3 := @cell_lt po R C r' c' hr2 hc2
    omega
  simp only [hidx, load_some, store_some, Option.some_bind]
  unfold cell at h1 h2 ⊢
  rw [h1, h2]

theorem Matrix_minus_Matrix_inplace_eq {α : Type} [Sub α] (mem : Mem α) (lhs rhs : Matrix) :
    Matrix_minus_Matrix_inplace mem lhs rhs =
      if lhs.cols ≠ rhs.cols then some (LnaOpStatus.INVALID_DIMENSIONS, mem)
      else if lhs.rows ≠ rhs.rows then some (LnaOpStatus.INVALID_DIMENSIONS, mem)
      else if lhs.data = none ∨ rhs.data = none then some (LnaOpStatus.INVALID_ALLOC, mem)
      else (elementwise_loop (fun a b => a - b) mem lhs lhs rhs).map fun m =>
        (LnaOpStatus.LNA_OK, m) := by
  unfold Matrix_minus_Matrix_inplace elementwise_loop
  rfl

/-- The in-place subtraction on stored operands of one shape that do not overlap. -/
theorem Matrix_minus_Matrix_inplace_ok {α : Type} [Sub α] (mem : Mem α) (R C pl pr : Nat)
    (hfit : R * C < 2 ^ 64) (hsep : pr + 4 * (R * C) ≤ pl ∨ pl + 4 * (R * C) ≤ pr) :
    ∃ m', Matrix_minus_Matrix_inplace mem (Matrix.mk R C (some pl)) (Matrix.mk R C (some pr)) =
        some (LnaOpStatus.LNA_OK, m') ∧
      (∀ r c, r < R → c < C →
        m' (cell pl C r c) = mem (cell pl C r c) - mem (cell pr C r c)) ∧
      (∀ x, (∀ r c, r < R → c < C → x ≠ cell pl C r c) → m' x = mem x) := by
  obtain ⟨m', hm', h1, h2⟩ := elementwise_loop_spec (fun a b : α => a - b) mem R C R R C
    pl pl pr hfit (Or.inl rfl) hsep
  refine ⟨m', ?_, h1, h2⟩
  rw [Matrix_minus_Matrix_inplace_eq, if_neg (fun h => h rfl), if_neg (fun h => h rfl),
    if_neg (by simp), hm']
  rfl

/-- The allocating subtraction on stored operands of one shape, with room in the arena
for the output and operands that lie outside the region handed out. -/
theorem Matrix_minus_Matrix_ok {α : Type} [Sub α] (k : Nat) (hk : k < 64) (arena : ml_arena)
    (mem : Mem α) (out : Matrix) (R C pl pr : Nat)
    (hpos : arena.pos ≤ arena.capacity) (hcap : arena.capacity + 2 ^ k ≤ 2 ^ 64)
    (hroom : align_up arena.pos (2 ^ k) + 4 * (R * C) ≤ arena.capacity)
    (hl : pl + 4 * (R * C) ≤ arena.base + align_up arena.pos (2 ^ k) ∨
      arena.base + align_up arena.pos (2 ^ k) + 4 * (R * C) ≤ pl)
    (hr : pr + 4 * (R * C) ≤ arena.base + align_up arena.pos (2 ^ k) ∨
      arena.base + align_up arena.pos (2 ^ k) + 4 * (R * C) ≤ pr) :
    ∃ m', Matrix_minus_Matrix (2 ^ k) arena mem out (Matrix.mk R C (some pl))
          (Matrix.mk R C (some pr)) =
        some ⟨LnaOpStatus.LNA_OK,
          { arena with pos := align_up arena.pos (2 ^ k) + 4 * (R * C) },
          Matrix.mk R C (some (arena.base + align_up arena.pos (2 ^ k))), m'⟩ ∧
      (∀ r c, r < R → c < C →
        m' (cell (arena.base + align_up arena.pos (2 ^ k)) C r c) =
          mem (cell pl C r c) - mem (cell pr C r c)) ∧
      (∀ x, (∀ r c, r < R → c < C →
        x ≠ cell (arena.base + align_up arena.pos (2 ^ k)) C r c) → m' x = mem x) := by
  have hp : 0 < 2 ^ k := Nat.two_pow_pos k
  obtain ⟨m', hm', h1, h2⟩ := elementwise_loop_spec (fun a b : α => a - b) mem R C R R C
    (arena.base + align_up arena.pos (2 ^ k)) pl pr (by omega) (Or.inr hl) hr
  refine ⟨m', ?_, h1, h2⟩
  unfold Matrix_minus_Matrix
  rw [if_neg (fun h => h rfl), if_neg (fun h => h rfl), if_neg (by simp)]
  show (elementwise_loop (fun a b => a - b) mem (create_Matrix (2 ^ k) arena R C).2 _ _).map _ = _
  rw [create_Matrix_ok k hk arena R C hpos hcap hroom, hm']
  rfl

/-- The allocating addition, under the same conditions. -/
theorem Matrix_plus_Matrix_ok {α : Type} [Add α] (k : Nat) (hk : k < 64) (arena : ml_arena)
    (mem : Mem α) (out : Matrix) (R C pl pr : Nat)
    (hpos : arena.pos ≤ arena.capacity) (hcap : arena.capacity + 2 ^ k ≤ 2 ^ 64)
    (hroom : align_up arena.pos (2 ^ k) + 4 * (R * C) ≤ arena.capacity)
    (hl : pl + 4 * (R * C) ≤ arena.base + align_up arena.pos (2 ^ k) ∨
      arena.base + align_up arena.pos (2 ^ k) + 4 * (R * C) ≤ pl)
    (hr : pr + 4 * (R * C) ≤ arena.base + align_up arena.pos (2 ^ k) ∨
      arena.base + align_up arena.pos (2 ^ k) + 4 * (R * C) ≤ pr) :
    ∃ m', Matrix_plus_Matrix (2 ^ k) arena mem out (Matrix.mk R C (some pl))
          (Matrix.mk R C (some pr)) =
        some ⟨LnaOpStatus.LNA_OK,
          { arena with pos := align_up arena.pos (2 ^ k) + 4 * (R * C) },
          Matrix.mk R C (some (arena.base + align_up arena.pos (2 ^ k))), m'⟩ ∧
      (∀ r c, r < R → c < C →
        m' (cell (arena.base + align_up arena.pos (2 ^ k)) C r c) =
          mem (cell pl C r c) + mem (cell pr C r c)) ∧
      (∀ x, (∀ r c, r < R → c < C →
        x ≠ cell (arena.base + align_up arena.pos (2 ^ k)) C r c) → m' x = mem x) := by
  have hp : 0 < 2 ^ k := Nat.two_pow_pos k
  obtain ⟨m', hm', h1, h2⟩ := elementwise_loop_spec (fun a b : α => a + b) mem R C R R C
    (arena.base + align_up arena.pos (2 ^ k)) pl pr (by omega) (Or.inr hl) hr
  refine ⟨m', ?_, h1, h2⟩
  unfold Matrix_plus_Matrix
  rw [if_neg (fun h => h rfl), if_neg (fun h => h rfl), if_neg (by simp)]
  show (elementwise_loop (fun a b => a + b) mem (create_Matrix (2 ^ k) arena R C).2 _ _).map _ = _
  rw [create_Matrix_ok k hk arena R C hpos hcap hroom, hm']
  rfl

/-! ## In-place and allocating subtraction -/

/-- C20 (counterexample): subtracting a stored 1 x 1 matrix holding 5 from itself in
place returns `LNA_OK` and leaves 0 in the cell, so the contents of `rhs` (the same
storage) are not what they were before the call. -/
theorem minus_inplace_changes_aliased_rhs :
    ∃ m1, Matrix_minus_Matrix_inplace (fun _ => (5 : Int)) (Matrix.mk 1 1 (some 8192))
        (Matrix.mk 1 1 (some 8192)) = some (LnaOpStatus.LNA_OK, m1) ∧
      mget (fun _ => (5 : Int)) (Matrix.mk 1 1 (some 8192)) 0 0 = some 5 ∧
      mget m1 (Matrix.mk 1 1 (some 8192)) 0 0 = some 0 := by
  have hidx : u64_add (u64_mul 0 1) 0 = 0 := by
    unfold u64_add u64_mul
    decide
  refine ⟨Function.update (fun _ => (5 : Int)) 8192 0, ?_, ?_, ?_⟩
  · unfold Matrix_minus_Matrix_inplace
    rw [if_neg (fun h => h rfl), if_neg (fun h => h rfl), if_neg (by simp)]
    simp only [forLoop_succ, forLoop_zero, Option.some_bind, hidx, load_some, store_some,
      Option.map_some']
    rfl
  · unfold mget
    simp only [hidx, load_some]
  · unfold mget
    simp only [hidx, load_some]
    simp

/-- C20 (amended): for operands whose storages do not overlap each other and lie outside
the region the arena hands out, and an arena with room, `Matrix_minus_Matrix_inplace`
returns the same status as `Matrix_minus_Matrix`; on `LNA_OK` every element of `lhs`
afterwards is `lhs(r,c) - rhs(r,c)`, equal to the corresponding element of `out`, and
`rhs` is unchanged.  (The in-place call has no access to the arena and does not write
the `lhs` struct, so the arena and the shape of `lhs` cannot change.) -/
theorem minus_inplace_agrees_with_minus {α : Type} [Sub α] (k : Nat) (hk : k < 64)
    (arena : ml_arena) (mem : Mem α) (out lhs rhs : Matrix)
    (hpos : arena.pos ≤ arena.capacity) (hcap : arena.capacity + 2 ^ k ≤ 2 ^ 64)
    (hroom : align_up arena.pos (2 ^ k) + 4 * (lhs.rows * lhs.cols) ≤ arena.capacity)
    (hsep : lhs.apart rhs)
    (hlo : lhs.outside (arena.base + align_up arena.pos (2 ^ k)) (4 * (lhs.rows * lhs.cols)))
    (hro : rhs.outside (arena.base + align_up arena.pos (2 ^ k))
      (4 * (rhs.rows * rhs.cols))) :
    ∃ st m1 o2, Matrix_minus_Matrix_inplace mem lhs rhs = some (st, m1) ∧
      Matrix_minus_Matrix (2 ^ k) arena mem out lhs rhs = some o2 ∧
      o2.status = st ∧
      (st = LnaOpStatus.LNA_OK →
        o2.out.rows = lhs.rows ∧ o2.out.cols = lhs.cols ∧
        ∀ r c, r < lhs.rows → c < lhs.cols →
          ∃ a b, mget mem lhs r c = some a ∧ mget mem rhs r c = some b ∧
            mget m1 lhs r c = some (a - b) ∧
            mget o2.mem o2.out r c = some (a - b) ∧
            mget m1 rhs r c = some b) := by
  obtain ⟨Rl, Cl, dl⟩ := lhs
  obtain ⟨Rr, Cr, dr⟩ := rhs
  have hp : 0 < 2 ^ k := Nat.two_pow_pos k
  by_cases hc : Cl = Cr
  swap
  · refine ⟨LnaOpStatus.INVALID_DIMENSIONS, mem,
      ⟨LnaOpStatus.INVALID_DIMENSIONS, arena, out, mem⟩, ?_, ?_, rfl, fun h => by cases h⟩
    · unfold Matrix_minus_Matrix_inplace
      exact if_pos hc
    · unfold Matrix_minus_Matrix
      exact if_pos hc
  by_cases hr : Rl = Rr
  swap
  · refine ⟨LnaOpStatus.INVALID_DIMENSIONS, mem,
      ⟨LnaOpStatus.INVALID_DIMENSIONS, arena, out, mem⟩, ?_, ?_, rfl, fun h => by cases h⟩
    · unfold Matrix_minus_Matrix_inplace
      exact (if_neg (not_not.mpr hc)).trans (if_pos hr)
    · unfold Matrix_minus_Matrix
      exact (if_neg (not_not.mpr hc)).trans (if_pos hr)
  by_cases hn : dl = none ∨ dr = none
  · refine ⟨LnaOpStatus.INVALID_ALLOC, mem,
      ⟨LnaOpStatus.INVALID_ALLOC, arena, out, mem⟩, ?_, ?_, rfl, fun h => by cases h⟩
    · unfold Matrix_minus_Matrix_inplace
      exact (if_neg (not_not.mpr hc)).trans ((if_neg (not_not.mpr hr)).trans (if_pos hn))
    · unfold Matrix_minus_Matrix
      exact (if_neg (not_not.mpr hc)).trans ((if_neg (not_not.mpr hr)).trans (if_pos hn))
  subst hc
  subst hr
  rcases dl with _ | pl
  · exact absurd (Or.inl rfl) hn
  rcases dr with _ | pr
  · exact absurd (Or.inr rfl) hn
  simp only [Matrix.apart, Matrix.outside] at hsep hlo hro
  simp only at hroom
  have hfit : Rl * Cl < 2 ^ 64 := by omega
  obtain ⟨m1, e1, a1, f1⟩ := Matrix_minus_Matrix_inplace_ok mem Rl Cl pl pr hfit
    (by omega)
  obtain ⟨m2, e2, a2, _⟩ := Matrix_minus_Matrix_ok k hk arena mem out Rl Cl pl pr hpos hcap
    hroom hlo hro
  refine ⟨LnaOpStatus.LNA_OK, m1, _, e1, e2, rfl, fun _ => ⟨rfl, rfl, ?_⟩⟩
  intro r c hr hc
  simp only at hr hc
  refine ⟨mem (cell pl Cl r c), mem (cell pr Cl r c), mget_cell mem hr hc hfit,
    mget_cell mem hr hc hfit, ?_, ?_, ?_⟩
  · rw [mget_cell m1 hr hc hfit, a1 r c hr hc]
  · show mget m2 (Matrix.mk Rl Cl (some (arena.base + align_up arena.pos (2 ^ k)))) r c = _
    rw [mget_cell m2 hr hc hfit, a2 r c hr hc]
  · rw [mget_cell m1 hr hc hfit, f1]
    intro r' c' hr' hc'
    show cell pr Cl r c ≠ cell pl Cl r' c'
    have b1 := @cell_lt pr Rl Cl r c hr hc
    have b2 := @cell_lt pl Rl Cl r' c' hr' hc'
    omega

/-- C20 (witness): two stored 2 x 2 integer matrices at 8192 and 8300, and the empty
arena of capacity 1024 at 4096 with `ARENA_ALIGN = 8`. -/
theorem minus_inplace_agrees_with_minus_witness :
    ∃ st m1 o2,
      Matrix_minus_Matrix_inplace (fun a => (a : Int)) (Matrix.mk 2 2 (some 8192))
        (Matrix.mk 2 2 (some 8300)) = some (st, m1) ∧
      Matrix_minus_Matrix (2 ^ 3) (ml_arena.mk 4096 1024 0) (fun a => (a : Int))
        (Matrix.mk 0 0 none) (Matrix.mk 2 2 (some 8192)) (Matrix.mk 2 2 (some 8300)) =
          some o2 ∧
      o2.status = st ∧
      (st = LnaOpStatus.LNA_OK →
        o2.out.rows = 2 ∧ o2.out.cols = 2 ∧
        ∀ r c, r < 2 → c < 2 →
          ∃ a b, mget (fun a => (a : Int)) (Matrix.mk 2 2 (some 8192)) r c = some a ∧
            mget (fun a => (a : Int)) (Matrix.mk 2 2 (some 8300)) r c = some b ∧
            mget m1 (Matrix.mk 2 2 (some 8192)) r c = some (a - b) ∧
            mget o2.mem o2.out r c = some (a - b) ∧
            mget m1 (Matrix.mk 2 2 (some 8300)) r c = some b) :=
  minus_inplace_agrees_with_minus 3 (by decide) (ml_arena.mk 4096 1024 0)
    (fun a => (a : Int)) (Matrix.mk 0 0 none) (Matrix.mk 2 2 (some 8192))
    (Matrix.mk 2 2 (some 8300)) (by decide) (by decide) (by decide)
    (by unfold Matrix.apart Matrix.outside; decide)
    (by unfold Matrix.outside; decide) (by unfold Matrix.outside; decide)

/-! ## softmax_xent_backward_inplace -/

theorem backward_onehot_step_done {α : Type} [One α] [Sub α] (probs : Matrix)
    (labels : Nat → Nat) (i : Nat) (s : LnaOpStatus) (m : Mem α) :
    backward_onehot_step probs labels i (some s, m) = some (some s, m) := by
  unfold backward_onehot_step
  exact if_pos (by simp)

theorem backward_onehot_step_bad {α : Type} [One α] [Sub α] (probs : Matrix)
    (labels : Nat → Nat) (i : Nat) (m : Mem α) (h : labels i ≥ probs.cols) :
    backward_onehot_step probs labels i (none, m) =
      some (some LnaOpStatus.INVALID_ELEMENT_TYPES, m) := by
  unfold backward_onehot_step
  exact (if_neg (fun h => h rfl)).trans (if_pos h)

theorem backward_onehot_step_good {α : Type} [One α] [Sub α] (probs : Matrix)
    (labels : Nat → Nat) (i : Nat) (m : Mem α) (h : labels i < probs.cols) :
    backward_onehot_step probs labels i (none, m) =
      ((mget m probs i (labels i)).bind fun v =>
        mset m probs i (labels i) (v - 1)).map fun m' => (none, m') := by
  unfold backward_onehot_step
  refine (if_neg (fun h => h rfl)).trans ((if_neg (Nat.not_le.mpr h)).trans ?_)
  show ((mget m probs i (labels i)).bind fun v =>
    (mset m probs i (labels i) (v - 1)).bind fun m' => some (none, m')) = _
  cases mget m probs i (labels i) with
  | none => rfl
  | some v =>
    show ((mset m probs i (labels i) (v - 1)).bind fun m' => some (none, m')) =
      (mset m probs i (labels i) (v - 1)).map fun m' => (none, m')
    cases mset m probs i (labels i) (v - 1) <;> rfl

/-- With every label in range, the first loop of the backward pass is a plain loop over
memory that never returns early. -/
theorem backward_onehot_loop_eq {α : Type} [One α] [Sub α] (probs : Matrix)
    (labels : Nat → Nat) (mem : Mem α) (n : Nat)
    (hlab : ∀ i, i < n → labels i < probs.cols) :
    forLoop n (backward_onehot_step probs labels) (none, mem) =
      (forLoop n (fun i m => (mget m probs i (labels i)).bind fun v =>
        mset m probs i (labels i) (v - 1)) mem).map fun m' => (none, m') := by
  induction n with
  | zero => rfl
  | succ k ih =>
    rw [forLoop_succ, forLoop_succ, ih (fun i hi => hlab i (Nat.lt_succ_of_lt hi))]
    cases forLoop k (fun i m => (mget m probs i (labels i)).bind fun v =>
        mset m probs i (labels i) (v - 1)) mem with
    | none => rfl
    | some m =>
      show backward_onehot_step probs labels k (none, m) = _
      rw [backward_onehot_step_good probs labels k m (hlab k (Nat.lt_succ_self k))]
      rfl

/-- On stored data the scaling loop of the backward pass cannot fault. -/
theorem backward_scale_loop_some {α : Type} [Mul α] (R C p : Nat) (invN : α) (mem : Mem α) :
    ∃ m', backward_scale_loop (Matrix.mk R C (some p)) invN mem = some m' := by
  unfold backward_scale_loop
  obtain ⟨m', h, _⟩ := forLoop_inv (fun _ (_ : Mem α) => True) R
    (fun i m => forLoop C (fun j m =>
      (mget m (Matrix.mk R C (some p)) i j).bind fun v =>
      mset m (Matrix.mk R C (some p)) i j (v * invN)) m) mem trivial
    (by
      intro i m _ _
      obtain ⟨m', h, _⟩ := forLoop_inv (fun _ (_ : Mem α) => True) C
        (fun j m => (mget m (Matrix.mk R C (some p)) i j).bind fun v =>
          mset m (Matrix.mk R C (some p)) i j (v * invN)) m trivial
        (fun j m _ _ => ⟨_, rfl, trivial⟩)
      exact ⟨m', h, trivial⟩)
  exact ⟨m', h⟩

/-- The status of the first loop of the backward pass on stored data: it ends without a
fault, having returned `INVALID_ELEMENT_TYPES` exactly when some label is out of range. -/
theorem backward_onehot_loop_status {α : Type} [One α] [Sub α] (R C p : Nat)
    (labels : Nat → Nat) (mem : Mem α) :
    ∃ st, forLoop R (backward_onehot_step (Matrix.mk R C (some p)) labels)
        ((none : Option LnaOpStatus), mem) = some st ∧
      ((st.1 = none ∧ ∀ j, j < R → labels j < C) ∨
        (st.1 = some LnaOpStatus.INVALID_ELEMENT_TYPES ∧ ∃ j, j < R ∧ C ≤ labels j)) := by
  refine forLoop_inv
    (fun i (st : Option LnaOpStatus × Mem α) =>
      (st.1 = none ∧ ∀ j, j < i → labels j < C) ∨
        (st.1 = some LnaOpStatus.INVALID_ELEMENT_TYPES ∧ ∃ j, j < i ∧ C ≤ labels j))
    R _ _ (Or.inl ⟨rfl, fun j hj => absurd hj (Nat.not_lt_zero j)⟩) ?_
  intro i st _ hP
  obtain ⟨s, m⟩ := st
  rcases hP with ⟨hs, hall⟩ | ⟨hs, j, hj, hbad⟩
  · simp only at hs
    subst hs
    by_cases hl : labels i < C
    · refine ⟨(none, Function.update m (p + 4 * u64_add (u64_mul i C) (labels i))
          (m (p + 4 * u64_add (u64_mul i C) (labels i)) - 1)), ?_, Or.inl ⟨rfl, ?_⟩⟩
      · rw [backward_onehot_step_good _ labels i m hl]
        rfl
      · intro j hj
        by_cases hji : j = i
        · subst hji
          exact hl
        · exact hall j (by omega)
    · refine ⟨(some LnaOpStatus.INVALID_ELEMENT_TYPES, m), ?_, Or.inr ⟨rfl, i, ?_, ?_⟩⟩
      · exact backward_onehot_step_bad _ labels i m (Nat.le_of_not_lt hl)
      · exact Nat.lt_succ_self i
      · exact Nat.le_of_not_lt hl
  · simp only at hs
    subst hs
    exact ⟨_, backward_onehot_step_done _ labels i _ m,
      Or.inr ⟨rfl, j, Nat.lt_succ_of_lt hj, hbad⟩⟩

/-- C12: on a stored `N x C` matrix `softmax_xent_backward_inplace` returns (it does not
fault), with `INVALID_ELEMENT_TYPES` if and only if some `labels[i]`, `i < N`, is `≥ C`,
and with `LNA_OK` otherwise. -/
theorem backward_fails_exactly_on_bad_labels {α : Type} [LinearOrderedField α]
    (mem : Mem α) (probs : Matrix) (labels : Nat → Nat) (hdata : probs.data ≠ none) :
    ∃ st m', softmax_xent_backward_inplace mem probs labels = some (st, m') ∧
      (st = LnaOpStatus.INVALID_ELEMENT_TYPES ↔
        ∃ i, i < probs.rows ∧ labels i ≥ probs.cols) ∧
      (st = LnaOpStatus.LNA_OK ↔ ¬ ∃ i, i < probs.rows ∧ labels i ≥ probs.cols) := by
  obtain ⟨R, C, d⟩ := probs
  rcases d with _ | p
  · exact absurd rfl hdata
  obtain ⟨st, hst, hcase⟩ := backward_onehot_loop_status R C p labels mem
  obtain ⟨s, m⟩ := st
  unfold softmax_xent_backward_inplace
  rw [hst, Option.some_bind]
  rcases hcase with ⟨hs, hall⟩ | ⟨hs, j, hj, hbad⟩
  · simp only at hs
    subst hs
    obtain ⟨m', hm'⟩ := backward_scale_loop_some R C p (1 / (R : α)) m
    refine ⟨LnaOpStatus.LNA_OK, m', ?_, ?_, ?_⟩
    · show (backward_scale_loop _ _ m).map _ = _
      rw [hm']
      rfl
    · constructor
      · intro h
        cases h
      · rintro ⟨i, hi, hb⟩
        have := hall i hi
        simp only at hb
        omega
    · constructor
      · rintro - ⟨i, hi, hb⟩
        have := hall i hi
        simp only at hb
        omega
      · intro _
        rfl
  · simp only at hs
    subst hs
    refine ⟨LnaOpStatus.INVALID_ELEMENT_TYPES, m, rfl, ?_, ?_⟩
    · exact ⟨fun _ => ⟨j, hj, hbad⟩, fun _ => rfl⟩
    · constructor
      · intro h
        cases h
      · intro h
        exact absurd ⟨j, hj, hbad⟩ h

/-- C12 (witness): a stored 2 x 2 matrix of rationals with labels 0 and 5. -/
theorem backward_fails_exactly_on_bad_labels_witness :
    ∃ st m', softmax_xent_backward_inplace (fun _ => (0 : ℚ)) (Matrix.mk 2 2 (some 8192))
        (fun i => if i = 0 then 0 else 5) = some (st, m') ∧
      (st = LnaOpStatus.INVALID_ELEMENT_TYPES ↔
        ∃ i, i < 2 ∧ (fun i => if i = 0 then 0 else 5) i ≥ 2) ∧
      (st = LnaOpStatus.LNA_OK ↔ ¬ ∃ i, i < 2 ∧ (fun i => if i = 0 then 0 else 5) i ≥ 2) :=
  backward_fails_exactly_on_bad_labels (fun _ => (0 : ℚ)) (Matrix.mk 2 2 (some 8192))
    (fun i => if i = 0 then 0 else 5) (by decide)

/-- The in-place scaling loop multiplies every cell of a stored matrix by `invN` and
touches nothing else. -/
theorem backward_scale_loop_spec {α : Type} [Mul α] (R C p : Nat) (invN : α) (mem : Mem α)
    (hfit : R * C < 2 ^ 64) :
    ∃ m', backward_scale_loop (Matrix.mk R C (some p)) invN mem = some m' ∧
      (∀ r c, r < R → c < C → m' (cell p C r c) = mem (cell p C r c) * invN) ∧
      (∀ x, (∀ r c, r < R → c < C → x ≠ cell p C r c) → m' x = mem x) := by
  unfold backward_scale_loop
  refine forLoop_fill2 R C (fun r c => cell p C r c) (fun r c => mem (cell p C r c) * invN)
    (fun i j m => (mget m (Matrix.mk R C (some p)) i j).bind fun v =>
      mset m (Matrix.mk R C (some p)) i j (v * invN)) mem
    (fun r c r' c' _ hc _ hc' h => cell_inj hc hc' h) ?_
  intro r c m hr hc hm
  have h1 : m (cell p C r c) = mem (cell p C r c) := by
    apply hm
    intro r' c' _ hc2 hlt
    show cell p C r c ≠ cell p C r' c'
    intro e
    have := cell_inj hc hc2 e
    omega
  show (mget m (Matrix.mk R C (some p)) r c).bind _ = _
  rw [mget_cell m hr hc hfit, Option.some_bind, mset_cell m _ hr hc hfit, h1]

/-- The whole backward pass on a stored matrix with every label in range. -/
theorem backward_ok {α : Type} [LinearOrderedField α] (mem : Mem α) (N C p : Nat)
    (labels : Nat → Nat) (hfit : N * C < 2 ^ 64) (hlab : ∀ i, i < N → labels i < C) :
    ∃ m', softmax_xent_backward_inplace mem (Matrix.mk N C (some p)) labels =
        some (LnaOpStatus.LNA_OK, m') ∧
      (∀ i j, i < N → j < C →
        m' (cell p C i j) =
          (mem (cell p C i j) - (if j = labels i then 1 else 0)) / (N : α)) ∧
      (∀ x, (∀ i j, i < N → j < C → x ≠ cell p C i j) → m' x = mem x) := by
  obtain ⟨m1, hm1, a1, f1⟩ := forLoop_fill N (fun i => cell p C i (labels i))
    (fun i => mem (cell p C i (labels i)) - 1)
    (fun i m => (mget m (Matrix.mk N C (some p)) i (labels i)).bind fun v =>
      mset m (Matrix.mk N C (some p)) i (labels i) (v - 1)) mem
    (fun i j hi hj h => (cell_inj (hlab i hi) (hlab j hj) h).1)
    (by
      intro i m hi hm
      have h1 : m (cell p C i (labels i)) = mem (cell p C i (labels i)) := by
        apply hm
        intro j hj
        show cell p C i (labels i) ≠ cell p C j (labels j)
        intro e
        have := cell_inj (hlab i hi) (hlab j (by omega)) e
        omega
      show (mget m (Matrix.mk N C (some p)) i (labels i)).bind _ = _
      rw [mget_cell m hi (hlab i hi) hfit, Option.some_bind,
        mset_cell m _ hi (hlab i hi) hfit, h1])
  obtain ⟨m2, hm2, a2, f2⟩ := backward_scale_loop_spec N C p (1 / (N : α)) m1 hfit
  refine ⟨m2, ?_, ?_, ?_⟩
  · unfold softmax_xent_backward_inplace
    rw [backward_onehot_loop_eq _ labels mem N hlab, hm1]
    show (backward_scale_loop _ _ m1).map _ = _
    rw [hm2]
    rfl
  · intro i j hi hj
    rw [a2 i j hi hj]
    by_cases hjl : j = labels i
    · subst hjl
      rw [a1 i hi, if_pos rfl, mul_one_div]
    · rw [f1, if_neg hjl, sub_zero, mul_one_div]
      intro i' hi'
      show cell p C i j ≠ cell p C i' (labels i')
      intro e
      obtain ⟨e1, e2⟩ := cell_inj hj (hlab i' hi') e
      subst e1
      exact hjl e2
  · intro x hx
    rw [f2 x hx, f1 x (fun i hi => hx i (labels i) hi (hlab i hi))]

/-- C11: on a stored `N x C` matrix `P` (`N ≥ 1`) with every `labels[i] < C`,
`softmax_xent_backward_inplace` returns `LNA_OK` and every entry `(i, j)` becomes
`(P(i,j) - Y(i,j)) / N` with `Y(i,j) = 1` when `j = labels[i]` and `0` otherwise (`f32`
read as exact arithmetic); no other memory changes, and the shape is not written. -/
theorem backward_overwrites_with_gradient {α : Type} [LinearOrderedField α] (mem : Mem α)
    (N C p : Nat) (labels : Nat → Nat) (_hN : 1 ≤ N) (hfit : p + 4 * (N * C) ≤ 2 ^ 64)
    (hlab : ∀ i, i < N → labels i < C) :
    ∃ m', softmax_xent_backward_inplace mem (Matrix.mk N C (some p)) labels =
        some (LnaOpStatus.LNA_OK, m') ∧
      (∀ i j, i < N → j < C →
        ∃ v, mget mem (Matrix.mk N C (some p)) i j = some v ∧
          mget m' (Matrix.mk N C (some p)) i j =
            some ((v - (if j = labels i then 1 else 0)) / (N : α))) ∧
      (∀ x, (∀ i j, i < N → j < C → x ≠ cell p C i j) → m' x = mem x) := by
  have hfit' : N * C < 2 ^ 64 := by omega
  obtain ⟨m', hm', h1, h2⟩ := backward_ok mem N C p labels hfit' hlab
  refine ⟨m', hm', ?_, h2⟩
  intro i j hi hj
  exact ⟨mem (cell p C i j), mget_cell mem hi hj hfit', by
    rw [mget_cell m' hi hj hfit', h1 i j hi hj]⟩

/-- C11 (witness): a stored 2 x 2 matrix of rationals with labels 0 and 1. -/
theorem backward_overwrites_with_gradient_witness :
    ∃ m', softmax_xent_backward_inplace (fun _ => (1 / 2 : ℚ)) (Matrix.mk 2 2 (some 8192))
        (fun i => i) = some (LnaOpStatus.LNA_OK, m') ∧
      (∀ i j, i < 2 → j < 2 →
        ∃ v, mget (fun _ => (1 / 2 : ℚ)) (Matrix.mk 2 2 (some 8192)) i j = some v ∧
          mget m' (Matrix.mk 2 2 (some 8192)) i j =
            some ((v - (if j = (fun i => i) i then 1 else 0)) / ((2 : Nat) : ℚ))) ∧
      (∀ x, (∀ i j, i < 2 → j < 2 → x ≠ cell 8192 2 i j) → m' x = (fun _ => (1 / 2 : ℚ)) x) :=
  backward_overwrites_with_gradient (fun _ => (1 / 2 : ℚ)) 2 2 8192 (fun i => i)
    (by decide) (by decide) (fun i hi => hi)

/-! ## Matrix product and transpose -/

/-- The accumulation loop of `Matrix_mut_Matrix` for one output cell. -/
theorem dot_loop_spec {α : Type} [Zero α] [Add α] [Mul α] (mem m : Mem α)
    (R K C pl pr r c : Nat) (hr : r < R) (hc : c < C)
    (hfl : R * K < 2 ^ 64) (hfr : K * C < 2 ^ 64)
    (hl : ∀ i, i < K → m (cell pl K r i) = mem (cell pl K r i))
    (hrr : ∀ i, i < K → m (cell pr C i c) = mem (cell pr C i c)) :
    forLoop K (fun i acc =>
      (load m (some pl) (u64_add (u64_mul r K) i)).bind fun a =>
      (load m (some pr) (u64_add (u64_mul i C) c)).bind fun b =>
      some (acc + a * b)) (0 : α) = some (dot_acc mem pl pr K C r c) := by
  obtain ⟨acc, hacc, _, hP⟩ := forLoop_inv
    (fun i (acc : α) => i ≤ K ∧
      acc = (List.range i).foldl
        (fun acc i => acc + mem (cell pl K r i) * mem (cell pr C i c)) 0)
    K (fun i acc =>
      (load m (some pl) (u64_add (u64_mul r K) i)).bind fun a =>
      (load m (some pr) (u64_add (u64_mul i C) c)).bind fun b =>
      some (acc + a * b)) (0 : α) ⟨Nat.zero_le _, rfl⟩
    (by
      intro i acc hi hP
      obtain ⟨_, hP⟩ := hP
      refine ⟨acc + mem (cell pl K r i) * mem (cell pr C i c), ?_, hi, ?_⟩
      · have h1 := hl i hi
        have h2 := hrr i hi
        unfold cell at h1 h2
        simp only [u64_idx hr hi hfl, u64_idx hi hc hfr, load_some, Option.some_bind, h1, h2]
        rfl
      · rw [List.range_succ, List.foldl_append, ← hP]
        rfl)
  rw [hacc, hP]
  rfl

/-- The product on stored operands, with room in the arena and operands outside the
region handed out. -/
theorem Matrix_mut_Matrix_ok {α : Type} [Zero α] [Add α] [Mul α] (k : Nat) (hk : k < 64)
    (arena : ml_arena) (mem : Mem α) (out : Matrix) (R K C pl pr : Nat)
    (hpos : arena.pos ≤ arena.capacity) (hcap : arena.capacity + 2 ^ k ≤ 2 ^ 64)
    (hroom : align_up arena.pos (2 ^ k) + 4 * (R * C) ≤ arena.capacity)
    (hfl : R * K < 2 ^ 64) (hfr : K * C < 2 ^ 64)
    (hl : pl + 4 * (R * K) ≤ arena.base + align_up arena.pos (2 ^ k) ∨
      arena.base + align_up arena.pos (2 ^ k) + 4 * (R * C) ≤ pl)
    (hr : pr + 4 * (K * C) ≤ arena.base + align_up arena.pos (2 ^ k) ∨
      arena.base + align_up arena.pos (2 ^ k) + 4 * (R * C) ≤ pr) :
    ∃ m', Matrix_mut_Matrix (2 ^ k) arena mem out (Matrix.mk R K (some pl))
          (Matrix.mk K C (some pr)) =
        some ⟨LnaOpStatus.LNA_OK,
          { arena with pos := align_up arena.pos (2 ^ k) + 4 * (R * C) },
          Matrix.mk R C (some (arena.base + align_up arena.pos (2 ^ k))), m'⟩ ∧
      (∀ r c, r < R → c < C →
        m' (cell (arena.base + align_up arena.pos (2 ^ k)) C r c) =
          dot_acc mem pl pr K C r c) ∧
      (∀ x, (∀ r c, r < R → c < C →
        x ≠ cell (arena.base + align_up arena.pos (2 ^ k)) C r c) → m' x = mem x) := by
  have hp : 0 < 2 ^ k := Nat.two_pow_pos k
  have hfo : R * C < 2 ^ 64 := by omega
  obtain ⟨m', hm', h1, h2⟩ := forLoop_fill2 R C
    (fun r c => cell (arena.base + align_up arena.pos (2 ^ k)) C r c)
    (fun r c => dot_acc mem pl pr K C r c)
    (fun r c m =>
      (forLoop K (fun i acc =>
        (load m (some pl) (u64_add (u64_mul r K) i)).bind fun a =>
        (load m (some pr) (u64_add (u64_mul i C) c)).bind fun b =>
        some (acc + a * b)) (0 : α)).bind fun acc =>
      store m (some (arena.base + align_up arena.pos (2 ^ k))) (u64_add (u64_mul r C) c) acc)
    mem (fun r c r' c' _ hc _ hc' h => cell_inj hc hc' h)
    (by
      intro r c m hr' hc hm
      have hdot := dot_loop_spec mem m R K C pl pr r c hr' hc hfl hfr
        (by
          intro i hi
          apply hm
          intro r' c' hr2 hc2 _
          show cell pl K r i ≠ cell (arena.base + align_up arena.pos (2 ^ k)) C r' c'
          have b1 := @cell_lt pl R K r i hr' hi
          have b2 := @cell_lt (arena.base + align_up arena.pos (2 ^ k)) R C r' c' hr2 hc2
          omega)
        (by
          intro i hi
          apply hm
          intro r' c' hr2 hc2 _
          show cell pr C i c ≠ cell (arena.base + align_up arena.pos (2 ^ k)) C r' c'
          have b1 := @cell_lt pr K C i c hi hc
          have b2 := @cell_lt (arena.base + align_up arena.pos (2 ^ k)) R C r' c' hr2 hc2
          omega)
      simp only [hdot, Option.some_bind, u64_idx hr' hc hfo, store_some]
      rfl)
  refine ⟨m', ?_, h1, h2⟩
  unfold Matrix_mut_Matrix
  rw [if_neg (fun h => h rfl), if_neg (by simp)]
  simp only [create_Matrix_ok k hk arena R C hpos hcap hroom]
  rw [hm']
  rfl

/-- The transpose loop writes `target(r,c)` to cell `(c, r)` of `out` and nothing else. -/
theorem transpose_loop_spec {α : Type} (mem : Mem α) (R C po pt : Nat)
    (hfit : R * C < 2 ^ 64)
    (hsep : pt + 4 * (R * C) ≤ po ∨ po + 4 * (R * C) ≤ pt) :
    ∃ m', transpose_loop mem (Matrix.mk C R (some po)) (Matrix.mk R C (some pt)) = some m' ∧
      (∀ r c, r < R → c < C → m' (cell po R c r) = mem (cell pt C r c)) ∧
      (∀ x, (∀ r c, r < R → c < C → x ≠ cell po R c r) → m' x = mem x) := by
  have hfit2 : C * R < 2 ^ 64 := by rw [Nat.mul_comm]; exact hfit
  unfold transpose_loop
  refine forLoop_fill2 R C (fun r c => cell po R c r) (fun r c => mem (cell pt C r c))
    (fun r c m =>
      (load m (some pt) (u64_add (u64_mul r C) c)).bind fun a =>
      store m (some po) (u64_add (u64_mul c R) r) a) mem
    (fun r c r' c' hr _ hr' _ h => (cell_inj hr hr' h).symm) ?_
  intro r c m hr hc hm
  have h1 : m (cell pt C r c) = mem (cell pt C r c) := by
    apply hm
    intro r' c' hr2 hc2 _
    show cell pt C r c ≠ cell po R c' r'
    have b1 := @cell_lt pt R C r c hr hc
    have b2 := @cell_lt po C R c' r' hc2 hr2
    have e : C * R = R * C := Nat.mul_comm _ _
    omega
  unfold cell at h1
  simp only [u64_idx hr hc hfit, u64_idx hc hr hfit2, load_some, store_some,
    Option.some_bind, h1]
  rfl

/-- The transpose of a stored matrix, with room in the arena and the operand outside
the region handed out. -/
theorem Matrix_transpose_ok {α : Type} (k : Nat) (hk : k < 64)
    (arena : ml_arena) (mem : Mem α) (out : Matrix) (R C pt : Nat)
    (hpos : arena.pos ≤ arena.capacity) (hcap : arena.capacity + 2 ^ k ≤ 2 ^ 64)
    (hroom : align_up arena.pos (2 ^ k) + 4 * (C * R) ≤ arena.capacity)
    (hsep : pt + 4 * (R * C) ≤ arena.base + align_up arena.pos (2 ^ k) ∨
      arena.base + align_up arena.pos (2 ^ k) + 4 * (R * C) ≤ pt) :
    ∃ m', Matrix_transpose (2 ^ k) (some arena) mem out (Matrix.mk R C (some pt)) =
        some ⟨LnaOpStatus.LNA_OK,
          some { arena with pos := align_up arena.pos (2 ^ k) + 4 * (C * R) },
          Matrix.mk C R (some (arena.base + align_up arena.pos (2 ^ k))), m'⟩ ∧
      (∀ r c, r < R → c < C →
        m' (cell (arena.base + align_up arena.pos (2 ^ k)) R c r) = mem (cell pt C r c)) ∧
      (∀ x, (∀ r c, r < R → c < C →
        x ≠ cell (arena.base + align_up arena.pos (2 ^ k)) R c r) → m' x = mem x) := by
  have hp : 0 < 2 ^ k := Nat.two_pow_pos k
  have e : C * R = R * C := Nat.mul_comm _ _
  obtain ⟨m', hm', h1, h2⟩ := transpose_loop_spec mem R C
    (arena.base + align_up arena.pos (2 ^ k)) pt (by omega) hsep
  refine ⟨m', ?_, h1, h2⟩
  unfold Matrix_transpose
  simp only
  rw [if_neg (by simp)]
  simp only [create_Matrix_ok k hk arena C R hpos hcap hroom]
  rw [hm']
  rfl

/-- C5: on stored operands `lhs` (`R x K`) and `rhs` (`K x C`) that lie outside the region
handed out, and an arena with room for the output, `Matrix_mut_Matrix` returns `LNA_OK`,
`out` has shape `R x C`, every `out(r,c)` is the sum over `i = 0 .. K-1`, accumulated left
to right from 0, of `lhs(r,i) * rhs(i,c)` at the row-major offsets `r*cols + c`, and `lhs`
and `rhs` are unchanged.  The element type and its `0`, `+`, `*` are arbitrary, so the
statement holds for `f32` arithmetic as it is. -/
theorem Matrix_mut_Matrix_computes_product {α : Type} [Zero α] [Add α] [Mul α] (k : Nat)
    (hk : k < 64) (arena : ml_arena) (mem : Mem α) (out : Matrix) (R K C pl pr : Nat)
    (hpos : arena.pos ≤ arena.capacity) (hcap : arena.capacity + 2 ^ k ≤ 2 ^ 64)
    (hroom : align_up arena.pos (2 ^ k) + 4 * (R * C) ≤ arena.capacity)
    (hfl : pl + 4 * (R * K) ≤ 2 ^ 64) (hfr : pr + 4 * (K * C) ≤ 2 ^ 64)
    (hl : pl + 4 * (R * K) ≤ arena.base + align_up arena.pos (2 ^ k) ∨
      arena.base + align_up arena.pos (2 ^ k) + 4 * (R * C) ≤ pl)
    (hr : pr + 4 * (K * C) ≤ arena.base + align_up arena.pos (2 ^ k) ∨
      arena.base + align_up arena.pos (2 ^ k) + 4 * (R * C) ≤ pr) :
    ∃ o, Matrix_mut_Matrix (2 ^ k) arena mem out (Matrix.mk R K (some pl))
        (Matrix.mk K C (some pr)) = some o ∧
      o.status = LnaOpStatus.LNA_OK ∧ o.out.rows = R ∧ o.out.cols = C ∧
      (∀ r c, r < R → c < C →
        mget o.mem o.out r c = some (dot_acc mem pl pr K C r c)) ∧
      (∀ r i, r < R → i < K →
        mget o.mem (Matrix.mk R K (some pl)) r i =
          mget mem (Matrix.mk R K (some pl)) r i) ∧
      (∀ i c, i < K → c < C →
        mget o.mem (Matrix.mk K C (some pr)) i c =
          mget mem (Matrix.mk K C (some pr)) i c) := by
  have hp : 0 < 2 ^ k := Nat.two_pow_pos k
  have hfl' : R * K < 2 ^ 64 := by omega
  have hfr' : K * C < 2 ^ 64 := by omega
  have hfo : R * C < 2 ^ 64 := by omega
  obtain ⟨m', hm', h1, h2⟩ := Matrix_mut_Matrix_ok k hk arena mem out R K C pl pr hpos hcap
    hroom hfl' hfr' hl hr
  refine ⟨_, hm', rfl, rfl, rfl, ?_, ?_, ?_⟩
  · intro r c hr' hc
    show mget m' (Matrix.mk R C (some (arena.base + align_up arena.pos (2 ^ k)))) r c = _
    rw [mget_cell m' hr' hc hfo, h1 r c hr' hc]
  · intro r i hr' hi
    show mget m' _ r i = _
    rw [mget_cell m' hr' hi hfl', mget_cell mem hr' hi hfl', h2]
    intro r' c' hr2 hc2
    have b1 := @cell_lt pl R K r i hr' hi
    have b2 := @cell_lt (arena.base + align_up arena.pos (2 ^ k)) R C r' c' hr2 hc2
    omega
  · intro i c hi hc
    show mget m' _ i c = _
    rw [mget_cell m' hi hc hfr', mget_cell mem hi hc hfr', h2]
    intro r' c' hr2 hc2
    have b1 := @cell_lt pr K C i c hi hc
    have b2 := @cell_lt (arena.base + align_up arena.pos (2 ^ k)) R C r' c' hr2 hc2
    omega

/-- C5 (witness): a stored 2 x 3 and a stored 3 x 2 integer matrix at 8192 and 8300, and
the empty arena of capacity 1024 at 4096 with `ARENA_ALIGN = 8`. -/
theorem Matrix_mut_Matrix_computes_product_witness :
    ∃ o, Matrix_mut_Matrix (2 ^ 3) (ml_arena.mk 4096 1024 0) (fun a => (a : Int)) (Matrix.mk 0 0 none) (Matrix.mk 2 3 (some 8192))
        (Matrix.mk 3 2 (some 8300)) = some o ∧
      o.status = LnaOpStatus.LNA_OK ∧ o.out.rows = 2 ∧ o.out.cols = 2 ∧
      (∀ r c, r < 2 → c < 2 →
        mget o.mem o.out r c = some (dot_acc (fun a => (a : Int)) 8192 8300 3 2 r c)) ∧
      (∀ r i, r < 2 → i < 3 →
        mget o.mem (Matrix.mk 2 3 (some 8192)) r i =
          mget (fun a => (a : Int)) (Matrix.mk 2 3 (some 8192)) r i) ∧
      (∀ i c, i < 3 → c < 2 →
        mget o.mem (Matrix.mk 3 2 (some 8300)) i c =
          mget (fun a => (a : Int)) (Matrix.mk 3 2 (some 8300)) i c) :=
  Matrix_mut_Matrix_computes_product 3 (by decide) (ml_arena.mk 4096 1024 0)
    (fun a => (a : Int)) (Matrix.mk 0 0 none) 2 3 2 8192 8300 (by decide) (by decide)
    (by decide) (by decide) (by decide) (by decide) (by decide)

/-- C7: for a stored matrix `A` (`R x C`) that lies outside the free part of the arena, and
an arena with room for both outputs, `Matrix_transpose` yields `B` of shape `C x R` with
`B(c,r) = A(r,c)`, and `Matrix_transpose` applied to `B` yields a matrix of shape `R x C`
whose every element equals the corresponding element of `A`, which is itself unchanged. -/
theorem transpose_is_involution {α : Type} (k : Nat) (hk : k < 64) (arena : ml_arena)
    (mem : Mem α) (out1 out2 : Matrix) (R C pt : Nat)
    (hpos : arena.pos ≤ arena.capacity) (hcap : arena.capacity + 2 ^ k ≤ 2 ^ 64)
    (hroom1 : align_up arena.pos (2 ^ k) + 4 * (C * R) ≤ arena.capacity)
    (hroom2 : align_up (align_up arena.pos (2 ^ k) + 4 * (C * R)) (2 ^ k) + 4 * (R * C) ≤
      arena.capacity)
    (hA : pt + 4 * (R * C) ≤ arena.base + arena.pos ∨ arena.base + arena.capacity ≤ pt) :
    ∃ o1 o2, Matrix_transpose (2 ^ k) (some arena) mem out1 (Matrix.mk R C (some pt)) =
        some o1 ∧
      o1.status = LnaOpStatus.LNA_OK ∧ o1.out.rows = C ∧ o1.out.cols = R ∧
      (∀ r c, r < R → c < C →
        mget o1.mem o1.out c r = mget mem (Matrix.mk R C (some pt)) r c) ∧
      Matrix_transpose (2 ^ k) o1.arena o1.mem out2 o1.out = some o2 ∧
      o2.status = LnaOpStatus.LNA_OK ∧ o2.out.rows = R ∧ o2.out.cols = C ∧
      (∀ r c, r < R → c < C →
        mget o2.mem o2.out r c = mget mem (Matrix.mk R C (some pt)) r c ∧
        mget o2.mem (Matrix.mk R C (some pt)) r c =
          mget mem (Matrix.mk R C (some pt)) r c) := by
  have hp : 0 < 2 ^ k := Nat.two_pow_pos k
  have e : C * R = R * C := Nat.mul_comm _ _
  have hfit : R * C < 2 ^ 64 := by omega
  have hfit2 : C * R < 2 ^ 64 := by omega
  have ha1 := le_align_up arena.pos (2 ^ k) hp
  have ha2 := le_align_up (align_up arena.pos (2 ^ k) + 4 * (C * R)) (2 ^ k) hp
  obtain ⟨m1, hm1, a1, f1⟩ := Matrix_transpose_ok k hk arena mem out1 R C pt hpos hcap
    hroom1 (by omega)
  obtain ⟨m2, hm2, a2, f2⟩ := Matrix_transpose_ok k hk
    { arena with pos := align_up arena.pos (2 ^ k) + 4 * (C * R) } m1 out2 C R
    (arena.base + align_up arena.pos (2 ^ k)) hroom1 hcap hroom2
    (Or.inl (by
      show arena.base + align_up arena.pos (2 ^ k) + 4 * (C * R) ≤
        arena.base + align_up (align_up arena.pos (2 ^ k) + 4 * (C * R)) (2 ^ k)
      omega))
  have hA1 : ∀ r c, r < R → c < C → m1 (cell pt C r c) = mem (cell pt C r c) := by
    intro r c hr hc
    apply f1
    intro r' c' hr' hc'
    have b1 := @cell_lt pt R C r c hr hc
    have b2 := @cell_lt (arena.base + align_up arena.pos (2 ^ k)) C R c' r' hc' hr'
    omega
  refine ⟨_, _, hm1, rfl, rfl, rfl, ?_, hm2, rfl, rfl, rfl, ?_⟩
  · intro r c hr hc
    show mget m1 (Matrix.mk C R (some (arena.base + align_up arena.pos (2 ^ k)))) c r = _
    rw [mget_cell m1 hc hr hfit2, mget_cell mem hr hc hfit, a1 r c hr hc]
  · intro r c hr hc
    constructor
    · show mget m2 (Matrix.mk R C (some (arena.base +
        align_up (align_up arena.pos (2 ^ k) + 4 * (C * R)) (2 ^ k)))) r c = _
      rw [mget_cell m2 hr hc hfit, mget_cell mem hr hc hfit]
      have h := a2 c r hc hr
      simp only at h
      rw [h, a1 r c hr hc]
    · rw [mget_cell m2 hr hc hfit, mget_cell mem hr hc hfit, f2, hA1 r c hr hc]
      intro r' c' hr' hc'
      show cell pt C r c ≠ cell (arena.base +
        align_up (align_up arena.pos (2 ^ k) + 4 * (C * R)) (2 ^ k)) C c' r'
      have b1 := @cell_lt pt R C r c hr hc
      have b2 := @cell_lt (arena.base +
        align_up (align_up arena.pos (2 ^ k) + 4 * (C * R)) (2 ^ k)) R C c' r' hc' hr'
      omega

/-- C7 (witness): a stored 2 x 3 integer matrix at 8192 and the empty arena of capacity
1024 at 4096 with `ARENA_ALIGN = 8`. -/
theorem transpose_is_involution_witness :
    ∃ o1 o2, Matrix_transpose (2 ^ 3) (some (ml_arena.mk 4096 1024 0)) (fun a => (a : Int)) (Matrix.mk 0 0 none) (Matrix.mk 2 3 (some 8192)) =
        some o1 ∧
      o1.status = LnaOpStatus.LNA_OK ∧ o1.out.rows = 3 ∧ o1.out.cols = 2 ∧
      (∀ r c, r < 2 → c < 3 →
        mget o1.mem o1.out c r = mget (fun a => (a : Int)) (Matrix.mk 2 3 (some 8192)) r c) ∧
      Matrix_transpose (2 ^ 3) o1.arena o1.mem (Matrix.mk 0 0 none) o1.out = some o2 ∧
      o2.status = LnaOpStatus.LNA_OK ∧ o2.out.rows = 2 ∧ o2.out.cols = 3 ∧
      (∀ r c, r < 2 → c < 3 →
        mget o2.mem o2.out r c = mget (fun a => (a : Int)) (Matrix.mk 2 3 (some 8192)) r c ∧
        mget o2.mem (Matrix.mk 2 3 (some 8192)) r c =
          mget (fun a => (a : Int)) (Matrix.mk 2 3 (some 8192)) r c) :=
  transpose_is_involution 3 (by decide) (ml_arena.mk 4096 1024 0) (fun a => (a : Int))
    (Matrix.mk 0 0 none) (Matrix.mk 0 0 none) 2 3 8192 (by decide) (by decide) (by decide)
    (by decide) (by decide)

/-! ## cross_entropy -/

theorem foldl_add_eq_sum {α : Type} [LinearOrderedField α] (f : Nat → α) (n : Nat) :
    (List.range n).foldl (fun s j => s + f j) 0 = ∑ j in Finset.range n, f j := by
  induction n with
  | zero => rfl
  | succ k ih => rw [List.range_succ, List.foldl_append, ih, Finset.sum_range_succ]; rfl

theorem floor_eq_max {α : Type} [LinearOrderedField α] (v e : α) :
    (if v < e then e else v) = max v e := by
  by_cases h : v < e
  · rw [if_pos h, max_eq_right (le_of_lt h)]
  · rw [if_neg h, max_eq_left (not_lt.mp h)]

theorem eps_pos {α : Type} [LinearOrderedField α] : (0 : α) < eps := by
  unfold eps
  positivity

theorem eps_le_one {α : Type} [LinearOrderedField α] : (eps : α) ≤ 1 := by
  unfold eps
  rw [div_le_one (by norm_num)]
  norm_num

/-- The value `cross_entropy` returns on a stored matrix with every label in range. -/
theorem cross_entropy_spec {α : Type} [LinearOrderedField α] (logf : α → α) (mem : Mem α)
    (N C p : Nat) (labels : Nat → Nat) (hfit : N * C < 2 ^ 64)
    (hlab : ∀ i, i < N → labels i < C) :
    cross_entropy logf mem (Matrix.mk N C (some p)) labels =
      some ((∑ i in Finset.range N, -logf (max (mem (cell p C i (labels i))) eps)) /
        (N : α)) := by
  obtain ⟨loss, hloss, _, hP⟩ := forLoop_inv
    (fun i (loss : α) => i ≤ N ∧
      loss = ∑ j in Finset.range i, -logf (max (mem (cell p C j (labels j))) eps))
    N (fun cur_class loss =>
      (mget mem (Matrix.mk N C (some p)) cur_class (labels cur_class)).bind
        fun correct_prob =>
      some (loss + -logf (if correct_prob < eps then eps else correct_prob)))
    (0 : α) ⟨Nat.zero_le _, by simp⟩
    (by
      intro i loss hi hP
      obtain ⟨_, hP⟩ := hP
      refine ⟨loss + -logf (max (mem (cell p C i (labels i))) eps), ?_, hi, ?_⟩
      · show (mget mem (Matrix.mk N C (some p)) i (labels i)).bind _ = _
        rw [mget_cell mem hi (hlab i hi) hfit, Option.some_bind, floor_eq_max]
      · rw [Finset.sum_range_succ, hP])
  unfold cross_entropy
  rw [hloss, hP]
  rfl

/-- C10: for a stored probabilities matrix `P` with at least one row, entries in `[0,1]`
and `labels[i] < cols`, `cross_entropy` returns the mean over the rows of
`-ln(max(P(i, labels[i]), eps))` with `eps = 10^-12`; the value is non-negative, and it is
0 when `P(i, labels[i]) = 1` for every row (`f32` read as exact real arithmetic). -/
theorem cross_entropy_is_mean_nll (mem : Mem ℝ) (N C p : Nat) (labels : Nat → Nat)
    (hN : 1 ≤ N) (hfit : p + 4 * (N * C) ≤ 2 ^ 64)
    (hlab : ∀ i, i < N → labels i < C)
    (hP : ∀ i j, i < N → j < C → 0 ≤ mem (cell p C i j) ∧ mem (cell p C i j) ≤ 1) :
    ∃ loss, cross_entropy Real.log mem (Matrix.mk N C (some p)) labels = some loss ∧
      loss = (∑ i in Finset.range N,
        -Real.log (max (mem (cell p C i (labels i))) eps)) / (N : ℝ) ∧
      0 ≤ loss ∧
      ((∀ i, i < N → mem (cell p C i (labels i)) = 1) → loss = 0) := by
  have _h := hN
  refine ⟨_, cross_entropy_spec Real.log mem N C p labels (by omega) hlab, rfl, ?_, ?_⟩
  · apply div_nonneg _ (Nat.cast_nonneg N)
    apply Finset.sum_nonneg
    intro i hi
    have hi' : i < N := Finset.mem_range.mp hi
    have h1 := (hP i (labels i) hi' (hlab i hi')).2
    have h2 : max (mem (cell p C i (labels i))) eps ≤ 1 := max_le h1 eps_le_one
    have h3 : 0 ≤ max (mem (cell p C i (labels i))) (eps : ℝ) :=
      le_trans (le_of_lt eps_pos) (le_max_right _ _)
    have := Real.log_nonpos h3 h2
    linarith
  · intro hall
    have hz : ∑ i in Finset.range N,
        -Real.log (max (mem (cell p C i (labels i))) eps) = 0 := by
      apply Finset.sum_eq_zero
      intro i hi
      rw [hall i (Finset.mem_range.mp hi), max_eq_left eps_le_one, Real.log_one, neg_zero]
    rw [hz, zero_div]

/-- C10 (witness): one sample, one class, the stored probability 1. -/
theorem cross_entropy_is_mean_nll_witness :
    ∃ loss, cross_entropy Real.log (fun _ => (1 : ℝ)) (Matrix.mk 1 1 (some 8192))
        (fun _ => 0) = some loss ∧
      loss = (∑ i in Finset.range 1,
        -Real.log (max ((fun _ => (1 : ℝ)) (cell 8192 1 i ((fun _ => 0) i))) eps)) /
          ((1 : Nat) : ℝ) ∧
      0 ≤ loss ∧
      ((∀ i, i < 1 → (fun _ => (1 : ℝ)) (cell 8192 1 i ((fun _ => 0) i)) = 1) → loss = 0) :=
  cross_entropy_is_mean_nll (fun _ => (1 : ℝ)) 1 1 8192 (fun _ => 0) (by decide) (by decide)
    (fun _ _ => Nat.zero_lt_one) (fun _ _ _ _ => ⟨zero_le_one, le_refl _⟩)

/-! ## softmax -/

/-- One row of `softmax`: the row of `out` receives the softmax values of the row of
`logits`, and nothing else changes. -/
theorem softmax_row_spec {α : Type} [LinearOrderedField α] (expf : α → α) (mem m : Mem α)
    (R C po pl r : Nat) (hr : r < R) (hC : 1 ≤ C) (hfit : R * C < 2 ^ 64)
    (hsep : pl + 4 * (R * C) ≤ po ∨ po + 4 * (R * C) ≤ pl)
    (hm : ∀ j, j < C → m (cell pl C r j) = mem (cell pl C r j)) :
    ∃ m', softmax_row expf (Matrix.mk R C (some po)) (Matrix.mk R C (some pl)) r m = some m' ∧
      (∀ j, j < C →
        m' (cell po C r j) = softmax_val expf (fun j => mem (cell pl C r j)) C j) ∧
      (∀ x, (∀ j, j < C → x ≠ cell po C r j) → m' x = m x) := by
  have hsepc : ∀ j j', j < C → j' < C → cell pl C r j ≠ cell po C r j' := by
    intro j j' hj hj'
    have b1 := @cell_lt pl R C r j hr hj
    have b2 := @cell_lt po R C r j' hr hj'
    omega
  -- first pass: the running maximum
  obtain ⟨M, hM, _, hMv⟩ := forLoop_inv
    (fun i (acc : α) => i ≤ C ∧
      acc = (List.range i).foldl
        (fun a j => if mem (cell pl C r j) > a then mem (cell pl C r j) else a)
        (mem (cell pl C r 0)))
    C (fun cur_score row_max =>
      (mget m (Matrix.mk R C (some pl)) r cur_score).bind fun v =>
      some (if v > row_max then v else row_max))
    (mem (cell pl C r 0)) ⟨Nat.zero_le _, rfl⟩
    (by
      intro i acc hi hP
      obtain ⟨_, hP⟩ := hP
      refine ⟨if mem (cell pl C r i) > acc then mem (cell pl C r i) else acc, ?_, hi, ?_⟩
      · show (mget m (Matrix.mk R C (some pl)) r i).bind _ = _
        rw [mget_cell m hr hi hfit, Option.some_bind, hm i hi]
      · rw [List.range_succ, List.foldl_append, ← hP]
        rfl)
  have hMv' : M = row_max_acc (fun j => mem (cell pl C r j)) C := hMv
  -- second pass: exponentials and their sum
  obtain ⟨st, hst, _, hS, hE, hF⟩ := forLoop_inv
    (fun i (st : Mem α × α) => i ≤ C ∧
      st.2 = (List.range i).foldl (fun s j => s + expf (mem (cell pl C r j) - M)) 0 ∧
      (∀ j, j < i → st.1 (cell po C r j) = expf (mem (cell pl C r j) - M)) ∧
      (∀ x, (∀ j, j < i → x ≠ cell po C r j) → st.1 x = m x))
    C (fun cur_score (st : Mem α × α) =>
      (mget st.1 (Matrix.mk R C (some pl)) r cur_score).bind fun x =>
      (mset st.1 (Matrix.mk R C (some po)) r cur_score (expf (x - M))).bind fun m' =>
      some (m', st.2 + expf (x - M)))
    (m, (0 : α)) ⟨Nat.zero_le _, rfl, fun j hj => absurd hj (Nat.not_lt_zero j), fun _ _ => rfl⟩
    (by
      intro i st hi hP
      obtain ⟨_, hS, hE, hF⟩ := hP
      have hz : st.1 (cell pl C r i) = mem (cell pl C r i) := by
        rw [hF _ (fun j hj => hsepc i j hi (by omega)), hm i hi]
      refine ⟨(Function.update st.1 (cell po C r i) (expf (mem (cell pl C r i) - M)),
        st.2 + expf (mem (cell pl C r i) - M)), ?_, hi, ?_, ?_, ?_⟩
      · show (mget st.1 (Matrix.mk R C (some pl)) r i).bind _ = _
        rw [mget_cell st.1 hr hi hfit, Option.some_bind, mset_cell st.1 _ hr hi hfit,
          Option.some_bind, hz]
      · show st.2 + _ = _
        rw [List.range_succ, List.foldl_append, ← hS]
        rfl
      · intro j hj
        show Function.update st.1 _ _ _ = _
        by_cases hji : j = i
        · subst hji
          simp
        · have hne : cell po C r j ≠ cell po C r i := fun e =>
            hji (cell_inj (by omega) hi e).2
          rw [Function.update_noteq hne]
          exact hE j (by omega)
      · intro x hx
        show Function.update st.1 _ _ _ = _
        rw [Function.update_noteq (hx i (Nat.lt_succ_self i))]
        exact hF x (fun j hj => hx j (Nat.lt_succ_of_lt hj)))
  -- third pass: normalisation
  obtain ⟨m3, hm3, hV, hF3⟩ := forLoop_fill C (fun j => cell po C r j)
    (fun j => expf (mem (cell pl C r j) - M) * (1 / st.2))
    (fun cur_score mm =>
      (mget mm (Matrix.mk R C (some po)) r cur_score).bind fun e =>
      mset mm (Matrix.mk R C (some po)) r cur_score (e * (1 / st.2)))
    st.1 (fun i j hi hj e => (cell_inj hi hj e).2)
    (by
      intro i mm hi hmm
      have h1 : mm (cell po C r i) = expf (mem (cell pl C r i) - M) := by
        rw [hmm _ (fun j hj e => by
          have := (cell_inj hi (show j < C by omega) e).2
          omega)]
        exact hE i hi
      show (mget mm (Matrix.mk R C (some po)) r i).bind _ = _
      rw [mget_cell mm hr hi hfit, Option.some_bind, mset_cell mm _ hr hi hfit, h1])
  refine ⟨m3, ?_, ?_, ?_⟩
  · unfold softmax_row
    rw [mget_cell m hr (show 0 < C by omega) hfit, Option.some_bind, hm 0 (by omega)]
    show (forLoop C _ (mem (cell pl C r 0))).bind _ = _
    rw [hM, Option.some_bind]
    show (forLoop C _ (m, (0 : α))).bind _ = _
    rw [hst, Option.some_bind]
    exact hm3
  · intro j hj
    rw [hV j hj]
    unfold softmax_val row_sum_acc
    rw [← hMv', ← hS]
  · intro x hx
    rw [hF3 x hx, hF x hx]

/-- The function `softmax` on a stored matrix with at least one column, with room in the
arena and `logits` outside the region handed out: every row of the output holds the
softmax values of the row of `logits`, and nothing else changes. -/
theorem softmax_ok {α : Type} [LinearOrderedField α] (expf : α → α) (k : Nat) (hk : k < 64)
    (arena : ml_arena) (mem : Mem α) (R C pl : Nat) (hC : 1 ≤ C)
    (hpos : arena.pos ≤ arena.capacity) (hcap : arena.capacity + 2 ^ k ≤ 2 ^ 64)
    (hroom : align_up arena.pos (2 ^ k) + 4 * (R * C) ≤ arena.capacity)
    (hsep : pl + 4 * (R * C) ≤ arena.base + align_up arena.pos (2 ^ k) ∨
      arena.base + align_up arena.pos (2 ^ k) + 4 * (R * C) ≤ pl) :
    ∃ m', softmax expf (2 ^ k) arena mem (Matrix.mk R C (some pl)) =
        some ⟨LnaOpStatus.LNA_OK,
          { arena with pos := align_up arena.pos (2 ^ k) + 4 * (R * C) },
          Matrix.mk R C (some (arena.base + align_up arena.pos (2 ^ k))), m'⟩ ∧
      (∀ r j, r < R → j < C →
        m' (cell (arena.base + align_up arena.pos (2 ^ k)) C r j) =
          softmax_val expf (fun j => mem (cell pl C r j)) C j) ∧
      (∀ x, (∀ r j, r < R → j < C →
        x ≠ cell (arena.base + align_up arena.pos (2 ^ k)) C r j) → m' x = mem x) := by
  have hp : 0 < 2 ^ k := Nat.two_pow_pos k
  have hfit : R * C < 2 ^ 64 := by omega
  obtain ⟨m', hm', _, hV, hF⟩ := forLoop_inv
    (fun r (m : Mem α) => r ≤ R ∧
      (∀ r' j, r' < r → j < C →
        m (cell (arena.base + align_up arena.pos (2 ^ k)) C r' j) =
          softmax_val expf (fun j => mem (cell pl C r' j)) C j) ∧
      (∀ x, (∀ r' j, r' < r → j < C →
        x ≠ cell (arena.base + align_up arena.pos (2 ^ k)) C r' j) → m x = mem x))
    R (softmax_row expf (Matrix.mk R C (some (arena.base + align_up arena.pos (2 ^ k))))
      (Matrix.mk R C (some pl))) mem
    ⟨Nat.zero_le _, fun r' j h => absurd h (Nat.not_lt_zero r'), fun _ _ => rfl⟩
    (by
      intro r m hr hP
      obtain ⟨_, hV, hF⟩ := hP
      obtain ⟨m', hm', hV', hF'⟩ := softmax_row_spec expf mem m R C
        (arena.base + align_up arena.pos (2 ^ k)) pl r hr hC hfit hsep
        (by
          intro j hj
          apply hF
          intro r' j' hr' hj'
          have b1 := @cell_lt pl R C r j hr hj
          have b2 := @cell_lt (arena.base + align_up arena.pos (2 ^ k)) R C r' j'
            (by omega) hj'
          omega)
      refine ⟨m', hm', hr, ?_, ?_⟩
      · intro r' j hr' hj
        by_cases hrr : r' = r
        · subst hrr
          exact hV' j hj
        · rw [hF' _ (fun j' hj' e => hrr (cell_inj hj hj' e).1)]
          exact hV r' j (by omega) hj
      · intro x hx
        rw [hF' x (fun j hj => hx r j (Nat.lt_succ_self r) hj)]
        exact hF x (fun r' j hr' hj => hx r' j (Nat.lt_succ_of_lt hr') hj))
  refine ⟨m', ?_, hV, hF⟩
  unfold softmax
  simp only [create_Matrix_ok k hk arena R C hpos hcap hroom]
  rw [hm']
  rfl

theorem row_sum_acc_eq_sum {α : Type} [LinearOrderedField α] (expf : α → α) (z : Nat → α)
    (M : α) (C : Nat) :
    row_sum_acc expf z M C = ∑ j in Finset.range C, expf (z j - M) := by
  unfold row_sum_acc
  exact foldl_add_eq_sum (fun j => expf (z j - M)) C

/-- With a positive `expf`, the values `softmax` stores for a non-empty row sum to 1. -/
theorem softmax_val_sum {α : Type} [LinearOrderedField α] (expf : α → α)
    (hexp : ∀ x, 0 < expf x) (z : Nat → α) (C : Nat) (hC : 1 ≤ C) :
    ∑ j in Finset.range C, softmax_val expf z C j = 1 := by
  unfold softmax_val
  rw [← Finset.sum_mul, row_sum_acc_eq_sum]
  have hpos : 0 < ∑ j in Finset.range C, expf (z j - row_max_acc z C) := by
    apply Finset.sum_pos
    · intro j _
      exact hexp _
    · exact ⟨0, Finset.mem_range.mpr (by omega)⟩
  rw [mul_one_div, div_self (ne_of_gt hpos)]

theorem row_max_foldl_shift {α : Type} [LinearOrderedField α] (z : Nat → α) (c : α) (n : Nat)
    (a : α) :
    (List.range n).foldl (fun m j => if z j + c > m then z j + c else m) (a + c) =
      (List.range n).foldl (fun m j => if z j > m then z j else m) a + c := by
  induction n with
  | zero => rfl
  | succ k ih =>
    rw [List.range_succ, List.foldl_append, List.foldl_append, ih]
    show (if z k + c > _ + c then z k + c else _ + c) = (if z k > _ then z k else _) + c
    by_cases h : z k > (List.range k).foldl (fun m j => if z j > m then z j else m) a
    · rw [if_pos h, if_pos (add_lt_add_right h c)]
    · rw [if_neg h, if_neg (fun h' => h (lt_of_add_lt_add_right h'))]

theorem row_max_acc_shift {α : Type} [LinearOrderedField α] (z : Nat → α) (c : α) (C : Nat) :
    row_max_acc (fun j => z j + c) C = row_max_acc z C + c := by
  unfold row_max_acc
  exact row_max_foldl_shift z c C (z 0)

theorem row_max_foldl_bounds {α : Type} [LinearOrderedField α] (z : Nat → α) (n : Nat)
    (a : α) :
    a ≤ (List.range n).foldl (fun m j => if z j > m then z j else m) a ∧
      (∀ j, j < n → z j ≤ (List.range n).foldl (fun m j => if z j > m then z j else m) a) ∧
      ((List.range n).foldl (fun m j => if z j > m then z j else m) a = a ∨
        ∃ j, j < n ∧ (List.range n).foldl (fun m j => if z j > m then z j else m) a = z j) := by
  induction n with
  | zero => exact ⟨le_refl _, fun j hj => absurd hj (Nat.not_lt_zero j), Or.inl rfl⟩
  | succ k ih =>
    obtain ⟨h1, h2, h3⟩ := ih
    rw [List.range_succ, List.foldl_append]
    show a ≤ (if z k > _ then z k else _) ∧ (∀ j, j < k + 1 → z j ≤ (if z k > _ then z k else _)) ∧
      ((if z k > _ then z k else _) = a ∨ ∃ j, j < k + 1 ∧ (if z k > _ then z k else _) = z j)
    by_cases h : z k > (List.range k).foldl (fun m j => if z j > m then z j else m) a
    · simp only [if_pos h]
      refine ⟨le_trans h1 (le_of_lt h), ?_, Or.inr ⟨k, Nat.lt_succ_self k, rfl⟩⟩
      intro j hj
      by_cases hjk : j = k
      · subst hjk
        exact le_refl _
      · exact le_trans (h2 j (by omega)) (le_of_lt h)
    · simp only [if_neg h]
      refine ⟨h1, ?_, ?_⟩
      · intro j hj
        by_cases hjk : j = k
        · subst hjk
          exact not_lt.mp h
        · exact h2 j (by omega)
      · rcases h3 with h3 | ⟨j, hj, h3⟩
        · exact Or.inl h3
        · exact Or.inr ⟨j, Nat.lt_succ_of_lt hj, h3⟩

/-- The running maximum of a non-empty row is the greatest entry of the row. -/
theorem row_max_acc_is_max {α : Type} [LinearOrderedField α] (z : Nat → α) (C : Nat)
    (hC : 1 ≤ C) :
    (∀ j, j < C → z j ≤ row_max_acc z C) ∧ ∃ j, j < C ∧ row_max_acc z C = z j := by
  obtain ⟨_, h2, h3⟩ := row_max_foldl_bounds z C (z 0)
  refine ⟨h2, ?_⟩
  rcases h3 with h3 | h3
  · exact ⟨0, by omega, h3⟩
  · exact h3

/-- Shifting a row by a constant does not change the values `softmax` stores for it. -/
theorem softmax_val_shift {α : Type} [LinearOrderedField α] (expf : α → α) (z : Nat → α)
    (c : α) (C j : Nat) :
    softmax_val expf (fun j => z j + c) C j = softmax_val expf z C j := by
  unfold softmax_val
  rw [row_sum_acc_eq_sum, row_sum_acc_eq_sum, row_max_acc_shift]
  simp only [add_sub_add_right_eq_sub]

/-- C8: for a stored logits matrix with at least one column, an arena with room and
`logits` outside the region handed out, `softmax` returns `LNA_OK`, the output has the
shape of `logits`, every row of the output sums to exactly 1 when `f32` arithmetic is
read as exact real arithmetic, and `logits` is not modified. -/
theorem softmax_rows_sum_to_one (k : Nat) (hk : k < 64) (arena : ml_arena) (mem : Mem ℝ)
    (R C pl : Nat) (hC : 1 ≤ C)
    (hpos : arena.pos ≤ arena.capacity) (hcap : arena.capacity + 2 ^ k ≤ 2 ^ 64)
    (hroom : align_up arena.pos (2 ^ k) + 4 * (R * C) ≤ arena.capacity)
    (hsep : pl + 4 * (R * C) ≤ arena.base + align_up arena.pos (2 ^ k) ∨
      arena.base + align_up arena.pos (2 ^ k) + 4 * (R * C) ≤ pl) :
    ∃ o, softmax Real.exp (2 ^ k) arena mem (Matrix.mk R C (some pl)) = some o ∧
      o.status = LnaOpStatus.LNA_OK ∧
      o.out = Matrix.mk R C (some (arena.base + align_up arena.pos (2 ^ k))) ∧
      (∀ r j, r < R → j < C →
        mget o.mem o.out r j =
          some (o.mem (cell (arena.base + align_up arena.pos (2 ^ k)) C r j))) ∧
      (∀ r, r < R →
        ∑ j in Finset.range C,
          o.mem (cell (arena.base + align_up arena.pos (2 ^ k)) C r j) = 1) ∧
      (∀ r j, r < R → j < C →
        mget o.mem (Matrix.mk R C (some pl)) r j =
          mget mem (Matrix.mk R C (some pl)) r j) := by
  have hp : 0 < 2 ^ k := Nat.two_pow_pos k
  have hfit : R * C < 2 ^ 64 := by omega
  obtain ⟨m', hm', hV, hF⟩ := softmax_ok Real.exp k hk arena mem R C pl hC hpos hcap hroom
    hsep
  refine ⟨_, hm', rfl, rfl, ?_, ?_, ?_⟩
  · intro r j hr hj
    exact mget_cell m' hr hj hfit
  · intro r hr
    show ∑ j in Finset.range C, m' _ = 1
    rw [Finset.sum_congr rfl (fun j hj => hV r j hr (Finset.mem_range.mp hj))]
    exact softmax_val_sum Real.exp Real.exp_pos _ C hC
  · intro r j hr hj
    show mget m' _ r j = _
    rw [mget_cell m' hr hj hfit, mget_cell mem hr hj hfit, hF]
    intro r' j' hr' hj'
    have b1 := @cell_lt pl R C r j hr hj
    have b2 := @cell_lt (arena.base + align_up arena.pos (2 ^ k)) R C r' j' hr' hj'
    omega

/-- C8 (witness): a stored 2 x 2 matrix of zeros at 8192 and the empty arena of capacity
1024 at 4096 with `ARENA_ALIGN = 8`. -/
theorem softmax_rows_sum_to_one_witness :
    ∃ o, softmax Real.exp (2 ^ 3) (ml_arena.mk 4096 1024 0) (fun _ => (0 : ℝ))
        (Matrix.mk 2 2 (some 8192)) = some o ∧
      o.status = LnaOpStatus.LNA_OK ∧
      o.out = Matrix.mk 2 2 (some ((ml_arena.mk 4096 1024 0).base +
        align_up (ml_arena.mk 4096 1024 0).pos (2 ^ 3))) ∧
      (∀ r j, r < 2 → j < 2 →
        mget o.mem o.out r j =
          some (o.mem (cell ((ml_arena.mk 4096 1024 0).base +
            align_up (ml_arena.mk 4096 1024 0).pos (2 ^ 3)) 2 r j))) ∧
      (∀ r, r < 2 →
        ∑ j in Finset.range 2,
          o.mem (cell ((ml_arena.mk 4096 1024 0).base +
            align_up (ml_arena.mk 4096 1024 0).pos (2 ^ 3)) 2 r j) = 1) ∧
      (∀ r j, r < 2 → j < 2 →
        mget o.mem (Matrix.mk 2 2 (some 8192)) r j =
          mget (fun _ => (0 : ℝ)) (Matrix.mk 2 2 (some 8192)) r j) :=
  softmax_rows_sum_to_one 3 (by decide) (ml_arena.mk 4096 1024 0) (fun _ => (0 : ℝ)) 2 2 8192
    (by decide) (by decide) (by decide) (by decide) (by decide)

/-- C9: `softmax` is shift-invariant per row.  Two memories whose row `i` of `logits`
differs by the constant `c` in every entry give the same row `i` of the output; each
entry is `exp(z_j - max) / sum_l exp(z_l - max)`, where `max` is the greatest entry of the
row (`f32` read as exact real arithmetic). -/
theorem softmax_shift_invariant (k : Nat) (hk : k < 64) (arena : ml_arena)
    (mem1 mem2 : Mem ℝ) (R C pl i : Nat) (c : ℝ) (hi : i < R) (hC : 1 ≤ C)
    (hpos : arena.pos ≤ arena.capacity) (hcap : arena.capacity + 2 ^ k ≤ 2 ^ 64)
    (hroom : align_up arena.pos (2 ^ k) + 4 * (R * C) ≤ arena.capacity)
    (hsep : pl + 4 * (R * C) ≤ arena.base + align_up arena.pos (2 ^ k) ∨
      arena.base + align_up arena.pos (2 ^ k) + 4 * (R * C) ≤ pl)
    (hshift : ∀ j, j < C → mem2 (cell pl C i j) = mem1 (cell pl C i j) + c) :
    ∃ o1 o2, softmax Real.exp (2 ^ k) arena mem1 (Matrix.mk R C (some pl)) = some o1 ∧
      softmax Real.exp (2 ^ k) arena mem2 (Matrix.mk R C (some pl)) = some o2 ∧
      o1.out = o2.out ∧
      (∀ j, j < C → mget o2.mem o2.out i j = mget o1.mem o1.out i j) ∧
      (∀ j, j < C →
        mget o1.mem o1.out i j =
          some (Real.exp (mem1 (cell pl C i j) -
              row_max_acc (fun j => mem1 (cell pl C i j)) C) /
            ∑ l in Finset.range C, Real.exp (mem1 (cell pl C i l) -
              row_max_acc (fun j => mem1 (cell pl C i j)) C))) ∧
      (∀ j, j < C →
        mem1 (cell pl C i j) ≤ row_max_acc (fun j => mem1 (cell pl C i j)) C) ∧
      (∃ j, j < C ∧ row_max_acc (fun j => mem1 (cell pl C i j)) C = mem1 (cell pl C i j)) := by
  have hp : 0 < 2 ^ k := Nat.two_pow_pos k
  have hfit : R * C < 2 ^ 64 := by omega
  obtain ⟨m1, hm1, hV1, _⟩ := softmax_ok Real.exp k hk arena mem1 R C pl hC hpos hcap hroom
    hsep
  obtain ⟨m2, hm2, hV2, _⟩ := softmax_ok Real.exp k hk arena mem2 R C pl hC hpos hcap hroom
    hsep
  have hz : (fun j => mem2 (cell pl C i j)) = fun j => (if j < C then mem1 (cell pl C i j)
      else mem2 (cell pl C i j) - c) + c := by
    funext j
    by_cases hj : j < C
    · rw [if_pos hj, hshift j hj]
    · rw [if_neg hj, sub_add_cancel]
  have hmax := row_max_acc_is_max (fun j => mem1 (cell pl C i j)) C hC
  have hcongr : ∀ (z z' : Nat → ℝ), (∀ j, j < C → z j = z' j) →
      ∀ j, j < C → softmax_val Real.exp z C j = softmax_val Real.exp z' C j := by
    intro z z' hzz j hj
    have hM : row_max_acc z C = row_max_acc z' C := by
      unfold row_max_acc
      rw [hzz 0 (by omega)]
      apply List.foldl_ext
      intro a b hb
      rw [hzz b (List.mem_range.mp hb)]
    unfold softmax_val
    rw [row_sum_acc_eq_sum, row_sum_acc_eq_sum, hM, hzz j hj]
    congr 2
    apply Finset.sum_congr rfl
    intro l hl
    rw [hzz l (Finset.mem_range.mp hl)]
  refine ⟨_, _, hm1, hm2, rfl, ?_, ?_, hmax.1, hmax.2⟩
  · intro j hj
    show mget m2 (Matrix.mk R C _) i j = mget m1 (Matrix.mk R C _) i j
    rw [mget_cell m2 hi hj hfit, mget_cell m1 hi hj hfit, hV1 i j hi hj, hV2 i j hi hj, hz,
      softmax_val_shift]
    rw [hcongr _ (fun j => mem1 (cell pl C i j)) (fun l hl => if_pos hl) j hj]
  · intro j hj
    show mget m1 (Matrix.mk R C _) i j = _
    rw [mget_cell m1 hi hj hfit, hV1 i j hi hj]
    unfold softmax_val
    rw [row_sum_acc_eq_sum, mul_one_div]

/-- C9 (witness): a stored 1 x 2 matrix whose row is `(0, 0)` in one memory and `(5, 5)` in
the other. -/
theorem softmax_shift_invariant_witness :
    ∃ o1 o2, softmax Real.exp (2 ^ 3) (ml_arena.mk 4096 1024 0) (fun _ => (0 : ℝ))
        (Matrix.mk 1 2 (some 8192)) = some o1 ∧
      softmax Real.exp (2 ^ 3) (ml_arena.mk 4096 1024 0) (fun _ => (5 : ℝ))
        (Matrix.mk 1 2 (some 8192)) = some o2 ∧
      o1.out = o2.out ∧
      (∀ j, j < 2 → mget o2.mem o2.out 0 j = mget o1.mem o1.out 0 j) := by
  obtain ⟨o1, o2, h1, h2, h3, h4, _⟩ := softmax_shift_invariant 3 (by decide)
    (ml_arena.mk 4096 1024 0) (fun _ => (0 : ℝ)) (fun _ => (5 : ℝ)) 1 2 8192 0 5
    (by decide) (by decide) (by decide) (by decide) (by decide) (by decide)
    (fun _ _ => by norm_num)
  exact ⟨o1, o2, h1, h2, h3, h4⟩

/-! ## Bias broadcast, row sums and scalar product -/

/-- The broadcast addition on a stored matrix and a stored one-row bias that do not overlap. -/
theorem add_bias_rowwise_inplace_ok {α : Type} [Add α] (mem : Mem α) (N C pl pb : Nat)
    (hfit : N * C < 2 ^ 64) (hfitb : C < 2 ^ 64)
    (hsep : pb + 4 * C ≤ pl ∨ pl + 4 * (N * C) ≤ pb) :
    ∃ m', add_bias_rowwise_inplace mem (Matrix.mk N C (some pl)) (Matrix.mk 1 C (some pb)) =
        some (LnaOpStatus.LNA_OK, m') ∧
      (∀ i j, i < N → j < C →
        m' (cell pl C i j) = mem (cell pl C i j) + mem (cell pb C 0 j)) ∧
      (∀ x, (∀ i j, i < N → j < C → x ≠ cell pl C i j) → m' x = mem x) := by
  have hfb : 1 * C < 2 ^ 64 := by omega
  obtain ⟨m', hm', h1, h2⟩ := forLoop_fill2 N C (fun i j => cell pl C i j)
    (fun i j => mem (cell pl C i j) + mem (cell pb C 0 j))
    (fun i j m =>
      (mget m (Matrix.mk N C (some pl)) i j).bind fun a =>
      (mget m (Matrix.mk 1 C (some pb)) 0 j).bind fun b =>
      mset m (Matrix.mk N C (some pl)) i j (a + b)) mem
    (fun r c r' c' _ hc _ hc' h => cell_inj hc hc' h)
    (by
      intro i j m hi hj hm
      have e1 : m (cell pl C i j) = mem (cell pl C i j) := by
        apply hm
        intro r' c' _ hc2 hlt
        show cell pl C i j ≠ cell pl C r' c'
        intro e
        have := cell_inj hj hc2 e
        omega
      have e2 : m (cell pb C 0 j) = mem (cell pb C 0 j) := by
        apply hm
        intro r' c' hr2 hc2 _
        show cell pb C 0 j ≠ cell pl C r' c'
        have b1 := @cell_lt pb 1 C 0 j Nat.zero_lt_one hj
        have b2 := @cell_lt pl N C r' c' hr2 hc2
        omega
      show (mget m (Matrix.mk N C (some pl)) i j).bind _ = _
      rw [mget_cell m hi hj hfit, Option.some_bind, mget_cell m Nat.zero_lt_one hj hfb,
        Option.some_bind, mset_cell m _ hi hj hfit, e1, e2])
  refine ⟨m', ?_, h1, h2⟩
  unfold add_bias_rowwise_inplace
  rw [if_neg (by simp)]
  show (forLoop N _ mem).map _ = _
  rw [hm']
  rfl

/-- The in-place product with a scalar on a stored matrix. -/
theorem Matrix_mut_Scalar_ok {α : Type} [Mul α] (mem : Mem α) (R C p : Nat) (s : α)
    (hfit : R * C < 2 ^ 64) :
    ∃ m', Matrix_mut_Scalar mem (Matrix.mk R C (some p)) s = some (LnaOpStatus.LNA_OK, m') ∧
      (∀ r c, r < R → c < C → m' (cell p C r c) = mem (cell p C r c) * s) ∧
      (∀ x, (∀ r c, r < R → c < C → x ≠ cell p C r c) → m' x = mem x) := by
  obtain ⟨m', hm', h1, h2⟩ := forLoop_fill2 R C (fun r c => cell p C r c)
    (fun r c => mem (cell p C r c) * s)
    (fun r c m =>
      (load m (some p) (u64_add (u64_mul r C) c)).bind fun a =>
      store m (some p) (u64_add (u64_mul r C) c) (a * s)) mem
    (fun r c r' c' _ hc _ hc' h => cell_inj hc hc' h)
    (by
      intro r c m hr hc hm
      have e1 : m (cell p C r c) = mem (cell p C r c) := by
        apply hm
        intro r' c' _ hc2 hlt
        show cell p C r c ≠ cell p C r' c'
        intro e
        have := cell_inj hc hc2 e
        omega
      unfold cell at e1
      simp only [u64_idx hr hc hfit, load_some, store_some, Option.some_bind, e1]
      rfl)
  refine ⟨m', ?_, h1, h2⟩
  unfold Matrix_mut_Scalar scalar_loop
  rw [if_neg (by simp)]
  show (forLoop R _ mem).map _ = _
  rw [hm']
  rfl

/-- The function `sum_rows` on a stored matrix, with room in the arena and the operand
outside the region handed out: the one-row output holds, for each column, the sum of the
column accumulated from 0 down the rows. -/
theorem sum_rows_ok {α : Type} [Zero α] [Add α] (k : Nat) (hk : k < 64) (arena : ml_arena)
    (mem : Mem α) (N C pm : Nat)
    (hpos : arena.pos ≤ arena.capacity) (hcap : arena.capacity + 2 ^ k ≤ 2 ^ 64)
    (hroom : align_up arena.pos (2 ^ k) + 4 * (1 * C) ≤ arena.capacity)
    (hfit : N * C < 2 ^ 64)
    (hsep : pm + 4 * (N * C) ≤ arena.base + align_up arena.pos (2 ^ k) ∨
      arena.base + align_up arena.pos (2 ^ k) + 4 * (1 * C) ≤ pm) :
    ∃ m', sum_rows (2 ^ k) arena mem (Matrix.mk N C (some pm)) =
        some ⟨LnaOpStatus.LNA_OK,
          { arena with pos := align_up arena.pos (2 ^ k) + 4 * (1 * C) },
          Matrix.mk 1 C (some (arena.base + align_up arena.pos (2 ^ k))), m'⟩ ∧
      (∀ j, j < C →
        m' (cell (arena.base + align_up arena.pos (2 ^ k)) C 0 j) =
          (List.range N).foldl (fun acc i => acc + mem (cell pm C i j)) 0) ∧
      (∀ x, (∀ j, j < C → x ≠ cell (arena.base + align_up arena.pos (2 ^ k)) C 0 j) →
        m' x = mem x) := by
  have hp : 0 < 2 ^ k := Nat.two_pow_pos k
  have hfo : 1 * C < 2 ^ 64 := by omega
  have hinj : ∀ i j, i < C → j < C →
      cell (arena.base + align_up arena.pos (2 ^ k)) C 0 i =
        cell (arena.base + align_up arena.pos (2 ^ k)) C 0 j → i = j :=
    fun i j hi hj e => (cell_inj hi hj e).2
  have hout : ∀ i j j', i < N → j < C → j' < C →
      cell pm C i j ≠ cell (arena.base + align_up arena.pos (2 ^ k)) C 0 j' := by
    intro i j j' hi hj hj'
    have b1 := @cell_lt pm N C i j hi hj
    have b2 := @cell_lt (arena.base + align_up arena.pos (2 ^ k)) 1 C 0 j' Nat.zero_lt_one hj'
    omega
  obtain ⟨mz, hmz, hz1, hz2⟩ := forLoop_fill C
    (fun j => cell (arena.base + align_up arena.pos (2 ^ k)) C 0 j) (fun _ => (0 : α))
    (fun j mm => mset mm (Matrix.mk 1 C (some (arena.base + align_up arena.pos (2 ^ k)))) 0 j
      (0 : α)) mem hinj
    (fun j mm hj _ => mset_cell mm _ Nat.zero_lt_one hj hfo)
  obtain ⟨m', hm', _, hV, hF⟩ := forLoop_inv
    (fun i (mm : Mem α) => i ≤ N ∧
      (∀ j, j < C → mm (cell (arena.base + align_up arena.pos (2 ^ k)) C 0 j) =
        (List.range i).foldl (fun acc i => acc + mem (cell pm C i j)) 0) ∧
      (∀ x, (∀ j, j < C → x ≠ cell (arena.base + align_up arena.pos (2 ^ k)) C 0 j) →
        mm x = mem x))
    N (fun i mm =>
      forLoop C (fun j mm =>
        (mget mm (Matrix.mk 1 C (some (arena.base + align_up arena.pos (2 ^ k)))) 0 j).bind
          fun a =>
        (mget mm (Matrix.mk N C (some pm)) i j).bind fun b =>
        mset mm (Matrix.mk 1 C (some (arena.base + align_up arena.pos (2 ^ k)))) 0 j
          (a + b)) mm) mz
    ⟨Nat.zero_le _, fun j hj => hz1 j hj, hz2⟩
    (by
      intro i mm hi hP
      obtain ⟨_, hV, hF⟩ := hP
      obtain ⟨m2, hm2, hV2, hF2⟩ := forLoop_fill C
        (fun j => cell (arena.base + align_up arena.pos (2 ^ k)) C 0 j)
        (fun j => mm (cell (arena.base + align_up arena.pos (2 ^ k)) C 0 j) +
          mem (cell pm C i j))
        (fun j m2 =>
          (mget m2 (Matrix.mk 1 C (some (arena.base + align_up arena.pos (2 ^ k)))) 0 j).bind
            fun a =>
          (mget m2 (Matrix.mk N C (some pm)) i j).bind fun b =>
          mset m2 (Matrix.mk 1 C (some (arena.base + align_up arena.pos (2 ^ k)))) 0 j
            (a + b)) mm hinj
        (by
          intro j m2 hj hm2
          have e1 : m2 (cell (arena.base + align_up arena.pos (2 ^ k)) C 0 j) =
              mm (cell (arena.base + align_up arena.pos (2 ^ k)) C 0 j) :=
            hm2 _ (fun j' hj' e => by
              have := hinj j j' hj (by omega) e
              omega)
          have e2 : m2 (cell pm C i j) = mem (cell pm C i j) := by
            rw [hm2 _ (fun j' hj' => hout i j j' hi hj (by omega)),
              hF _ (fun j' hj' => hout i j j' hi hj hj')]
          show (mget m2 _ 0 j).bind _ = _
          rw [mget_cell m2 Nat.zero_lt_one hj hfo, Option.some_bind,
            mget_cell m2 hi hj hfit, Option.some_bind,
            mset_cell m2 _ Nat.zero_lt_one hj hfo, e1, e2])
      refine ⟨m2, hm2, hi, ?_, ?_⟩
      · intro j hj
        rw [hV2 j hj, hV j hj, List.range_succ, List.foldl_append]
        rfl
      · intro x hx
        rw [hF2 x hx, hF x hx])
  refine ⟨m', ?_, hV, hF⟩
  unfold sum_rows
  simp only [create_Matrix_ok k hk arena 1 C hpos hcap hroom]
  rw [hmz, Option.some_bind, hm']
  rfl

/-! ## softmax_regression_train_step -/

theorem foldl_range_congr {β : Type} (f g : β → Nat → β) (a : β) (n : Nat)
    (h : ∀ acc i, i < n → f acc i = g acc i) :
    (List.range n).foldl f a = (List.range n).foldl g a := by
  induction n with
  | zero => rfl
  | succ m ih =>
    rw [List.range_succ, List.foldl_append, List.foldl_append,
      ih (fun acc i hi => h acc i (by omega))]
    exact h _ m (Nat.lt_succ_self m)

theorem softmax_val_congr {α : Type} [LinearOrderedField α] (expf : α → α) (z z' : Nat → α)
    (C j : Nat) (hC : 1 ≤ C) (hj : j < C) (h : ∀ i, i < C → z i = z' i) :
    softmax_val expf z C j = softmax_val expf z' C j := by
  have hM : row_max_acc z C = row_max_acc z' C := by
    unfold row_max_acc
    rw [h 0 (by omega)]
    exact foldl_range_congr _ _ _ _ (fun acc i hi => by simp only [h i hi])
  have hS : row_sum_acc expf z (row_max_acc z' C) C =
      row_sum_acc expf z' (row_max_acc z' C) C := by
    unfold row_sum_acc
    exact foldl_range_congr _ _ _ _ (fun acc i hi => by simp only [h i hi])
  unfold softmax_val
  rw [hM, h j hj, hS]

theorem frame_region {α : Type} (m m' : Mem α) (p R C : Nat)
    (h : ∀ x, (∀ r c, r < R → c < C → x ≠ cell p C r c) → m' x = m x) (x : Nat)
    (hx : x < p ∨ p + 4 * (R * C) ≤ x) : m' x = m x := by
  apply h
  intro r c hr hc e
  have := @cell_lt p R C r c hr hc
  omega

theorem frame_region_transposed {α : Type} (m m' : Mem α) (p R C : Nat)
    (h : ∀ x, (∀ r c, r < R → c < C → x ≠ cell p R c r) → m' x = m x) (x : Nat)
    (hx : x < p ∨ p + 4 * (C * R) ≤ x) : m' x = m x := by
  apply h
  intro r c hr hc e
  have := @cell_lt p C R c r hc hr
  omega

theorem frame_region_row {α : Type} (m m' : Mem α) (p C : Nat)
    (h : ∀ x, (∀ j, j < C → x ≠ cell p C 0 j) → m' x = m x) (x : Nat)
    (hx : x < p ∨ p + 4 * (1 * C) ≤ x) : m' x = m x := by
  apply h
  intro j hj e
  have := @cell_lt p 1 C 0 j Nat.zero_lt_one hj
  omega

/-- The forward half of a training step: the product `X * W` into a second `logits`
buffer, the bias broadcast, `softmax`, `cross_entropy` and the backward overwrite.  The
positions `A1`, `A2`, `A3` are the aligned starts of the three `N x C` allocations. -/
theorem forward_ok {α : Type} [LinearOrderedField α] (expf logf : α → α) (k : Nat)
    (hk : k < 64) (base cap pos : Nat) (mem : Mem α) (N D C px pw pb : Nat)
    (labels : Nat → Nat) (A1 A2 A3 : Nat)
    (e1 : A1 = align_up pos (2 ^ k)) (e2 : A2 = align_up (A1 + 4 * (N * C)) (2 ^ k))
    (e3 : A3 = align_up (A2 + 4 * (N * C)) (2 ^ k))
    (hC : 1 ≤ C) (hlab : ∀ i, i < N → labels i < C)
    (hcap : cap + 2 ^ k ≤ 2 ^ 64) (hroom : A3 + 4 * (N * C) ≤ cap)
    (hfX : N * D < 2 ^ 64) (hfW : D * C < 2 ^ 64) (hfC : C < 2 ^ 64)
    (hX : px + 4 * (N * D) ≤ base + pos ∨ base + cap ≤ px)
    (hW : pw + 4 * (D * C) ≤ base + pos ∨ base + cap ≤ pw)
    (hb : pb + 4 * (1 * C) ≤ base + pos ∨ base + cap ≤ pb) :
    ∃ m1 m2 m3 m5,
      Matrix_mut_Matrix (2 ^ k) (ml_arena.mk base cap (A1 + 4 * (N * C))) mem
          (Matrix.mk N C (some (base + A1))) (Matrix.mk N D (some px))
          (Matrix.mk D C (some pw)) =
        some ⟨LnaOpStatus.LNA_OK, ml_arena.mk base cap (A2 + 4 * (N * C)),
          Matrix.mk N C (some (base + A2)), m1⟩ ∧
      add_bias_rowwise_inplace m1 (Matrix.mk N C (some (base + A2)))
          (Matrix.mk 1 C (some pb)) = some (LnaOpStatus.LNA_OK, m2) ∧
      softmax expf (2 ^ k) (ml_arena.mk base cap (A2 + 4 * (N * C))) m2
          (Matrix.mk N C (some (base + A2))) =
        some ⟨LnaOpStatus.LNA_OK, ml_arena.mk base cap (A3 + 4 * (N * C)),
          Matrix.mk N C (some (base + A3)), m3⟩ ∧
      cross_entropy logf m3 (Matrix.mk N C (some (base + A3))) labels =
        some (loss_val expf logf mem px pw pb N D C labels) ∧
      softmax_xent_backward_inplace m3 (Matrix.mk N C (some (base + A3))) labels =
        some (LnaOpStatus.LNA_OK, m5) ∧
      (∀ i j, i < N → j < C →
        m5 (cell (base + A3) C i j) = dZ_val expf mem px pw pb N D C labels i j) ∧
      (∀ x, x < base + pos ∨ base + cap ≤ x → m5 x = mem x) := by
  have hp : 0 < 2 ^ k := Nat.two_pow_pos k
  have kX : Fact _ := ⟨hX⟩
  have kW : Fact _ := ⟨hW⟩
  have kb : Fact _ := ⟨hb⟩
  clear hX hW hb
  have l1 : pos ≤ A1 := by rw [e1]; exact le_align_up _ _ hp
  have l2 : A1 + 4 * (N * C) ≤ A2 := by rw [e2]; exact le_align_up _ _ hp
  have l3 : A2 + 4 * (N * C) ≤ A3 := by rw [e3]; exact le_align_up _ _ hp
  have hfNC : N * C < 2 ^ 64 := by omega
  have h := Matrix_mut_Matrix_ok k hk (ml_arena.mk base cap (A1 + 4 * (N * C))) mem
    (Matrix.mk N C (some (base + A1))) N D C px pw (by dsimp only; omega) hcap
    (by simp only [← e2]; omega) hfX hfW
    (by have h := kX.out; simp only [← e2]; omega)
    (by have h := kW.out; simp only [← e2]; omega)
  simp only [← e2] at h
  obtain ⟨m1, h1, v1, f1⟩ := h
  obtain ⟨m2, h2, v2, f2⟩ := add_bias_rowwise_inplace_ok m1 N C (base + A2) pb hfNC
    hfC (by have h := kb.out; omega)
  have h := softmax_ok expf k hk (ml_arena.mk base cap (A2 + 4 * (N * C))) m2 N C (base + A2)
    hC (by dsimp only; omega) hcap (by simp only [← e3]; omega) (by simp only [← e3]; omega)
  simp only [← e3] at h
  obtain ⟨m3, h3, v3, f3⟩ := h
  have hloss := cross_entropy_spec logf m3 N C (base + A3) labels hfNC hlab
  obtain ⟨m5, h5, v5, f5⟩ := backward_ok m3 N C (base + A3) labels hfNC hlab
  have F1 := frame_region mem m1 (base + A2) N C f1
  have F2 := frame_region m1 m2 (base + A2) N C f2
  have F3 := frame_region m2 m3 (base + A3) N C f3
  have F5 := frame_region m3 m5 (base + A3) N C f5
  have V2 : ∀ i j, i < N → j < C →
      m2 (cell (base + A2) C i j) = affine_val mem px pw pb D C i j := by
    intro i j hi hj
    have b := @cell_lt pb 1 C 0 j Nat.zero_lt_one hj
    rw [v2 i j hi hj, v1 i j hi hj, F1 (cell pb C 0 j) (by have h := kb.out; omega)]
    exact congrArg (fun t => t + mem (cell pb C 0 j))
      (foldl_add_eq_sum (fun t => mem (cell px D i t) * mem (cell pw C t j)) D)
  have V3 : ∀ i j, i < N → j < C →
      m3 (cell (base + A3) C i j) = prob_val expf mem px pw pb D C i j := by
    intro i j hi hj
    rw [v3 i j hi hj]
    exact softmax_val_congr expf _ _ C j hC hj (fun t ht => V2 i t hi ht)
  have hL : (∑ i in Finset.range N,
        -logf (max (m3 (cell (base + A3) C i (labels i))) eps)) / (N : α) =
      loss_val expf logf mem px pw pb N D C labels := by
    unfold loss_val
    rw [Finset.sum_congr rfl (fun i hi => by
      rw [V3 i (labels i) (Finset.mem_range.mp hi) (hlab i (Finset.mem_range.mp hi))])]
  rw [hL] at hloss
  refine ⟨m1, m2, m3, m5, h1, h2, h3, hloss, h5, ?_, ?_⟩
  · intro i j hi hj
    rw [v5 i j hi hj, V3 i j hi hj]
    rfl
  · intro x hx
    rw [F5 x (by omega), F3 x (by omega), F2 x (by omega), F1 x (by omega)]

/-- The gradient half of a training step on a stored `X` (`N x D`), a stored `dZ`
(`N x C`, at `pz`), `W` and `b`: the transpose, the product into a second `dW` buffer,
`sum_rows`, and the two scaled in-place subtractions.  The positions `A4` .. `A7` are the
aligned starts of the four allocations. -/
theorem gradient_ok {α : Type} [LinearOrderedField α] (k : Nat) (hk : k < 64)
    (base cap pos : Nat) (mem : Mem α) (N D C px pz pw pb : Nat) (lr : α)
    (A4 A5 A6 A7 : Nat)
    (e4 : A4 = align_up pos (2 ^ k)) (e5 : A5 = align_up (A4 + 4 * (D * N)) (2 ^ k))
    (e6 : A6 = align_up (A5 + 4 * (D * C)) (2 ^ k))
    (e7 : A7 = align_up (A6 + 4 * (D * C)) (2 ^ k))
    (hpos : pos ≤ cap) (hcap : cap + 2 ^ k ≤ 2 ^ 64) (hroom : A7 + 4 * (1 * C) ≤ cap)
    (hfNC : N * C < 2 ^ 64)
    (hX : px + 4 * (N * D) ≤ base + pos ∨ base + cap ≤ px)
    (hZ : pz + 4 * (N * C) ≤ base + pos ∨ base + cap ≤ pz)
    (hW : pw + 4 * (D * C) ≤ base + pos ∨ base + cap ≤ pw)
    (hb : pb + 4 * (1 * C) ≤ base + pos ∨ base + cap ≤ pb)
    (hXW : px + 4 * (N * D) ≤ pw ∨ pw + 4 * (D * C) ≤ px)
    (hXb : px + 4 * (N * D) ≤ pb ∨ pb + 4 * (1 * C) ≤ px)
    (hWb : pw + 4 * (D * C) ≤ pb ∨ pb + 4 * (1 * C) ≤ pw) :
    ∃ m6 m8 m9 m10 m11 m12 m13,
      Matrix_transpose (2 ^ k) (some (ml_arena.mk base cap pos)) mem (Matrix.mk 0 0 none)
          (Matrix.mk N D (some px)) =
        some ⟨LnaOpStatus.LNA_OK, some (ml_arena.mk base cap (A4 + 4 * (D * N))),
          Matrix.mk D N (some (base + A4)), m6⟩ ∧
      Matrix_mut_Matrix (2 ^ k) (ml_arena.mk base cap (A5 + 4 * (D * C))) m6
          (Matrix.mk D C (some (base + A5))) (Matrix.mk D N (some (base + A4)))
          (Matrix.mk N C (some pz)) =
        some ⟨LnaOpStatus.LNA_OK, ml_arena.mk base cap (A6 + 4 * (D * C)),
          Matrix.mk D C (some (base + A6)), m8⟩ ∧
      sum_rows (2 ^ k) (ml_arena.mk base cap (A6 + 4 * (D * C))) m8
          (Matrix.mk N C (some pz)) =
        some ⟨LnaOpStatus.LNA_OK, ml_arena.mk base cap (A7 + 4 * (1 * C)),
          Matrix.mk 1 C (some (base + A7)), m9⟩ ∧
      Matrix_mut_Scalar m9 (Matrix.mk D C (some (base + A6))) lr =
        some (LnaOpStatus.LNA_OK, m10) ∧
      Matrix_minus_Matrix_inplace m10 (Matrix.mk D C (some pw))
          (Matrix.mk D C (some (base + A6))) = some (LnaOpStatus.LNA_OK, m11) ∧
      Matrix_mut_Scalar m11 (Matrix.mk 1 C (some (base + A7))) lr =
        some (LnaOpStatus.LNA_OK, m12) ∧
      Matrix_minus_Matrix_inplace m12 (Matrix.mk 1 C (some pb))
          (Matrix.mk 1 C (some (base + A7))) = some (LnaOpStatus.LNA_OK, m13) ∧
      (∀ d c, d < D → c < C →
        m13 (cell pw C d c) = mem (cell pw C d c) -
          lr * ∑ i in Finset.range N, mem (cell px D i d) * mem (cell pz C i c)) ∧
      (∀ c, c < C →
        m13 (cell pb C 0 c) = mem (cell pb C 0 c) -
          lr * ∑ i in Finset.range N, mem (cell pz C i c)) ∧
      (∀ i d, i < N → d < D → m13 (cell px D i d) = mem (cell px D i d)) := by
  have hp : 0 < 2 ^ k := Nat.two_pow_pos k
  have kX : Fact _ := ⟨hX⟩
  have kZ : Fact _ := ⟨hZ⟩
  have kW : Fact _ := ⟨hW⟩
  have kb : Fact _ := ⟨hb⟩
  have kXW : Fact _ := ⟨hXW⟩
  have kXb : Fact _ := ⟨hXb⟩
  have kWb : Fact _ := ⟨hWb⟩
  clear hX hZ hW hb hXW hXb hWb
  have hND : N * D = D * N := Nat.mul_comm _ _
  have l4 : pos ≤ A4 := by rw [e4]; exact le_align_up _ _ hp
  have l5 : A4 + 4 * (D * N) ≤ A5 := by rw [e5]; exact le_align_up _ _ hp
  have l6 : A5 + 4 * (D * C) ≤ A6 := by rw [e6]; exact le_align_up _ _ hp
  have l7 : A6 + 4 * (D * C) ≤ A7 := by rw [e7]; exact le_align_up _ _ hp
  have h := Matrix_transpose_ok k hk (ml_arena.mk base cap pos) mem
    (Matrix.mk 0 0 none) N D px hpos hcap (by simp only [← e4]; omega)
    (by have h := kX.out; simp only [← e4]; omega)
  simp only [← e4] at h
  obtain ⟨m6, h6, v6, f6⟩ := h
  have h := Matrix_mut_Matrix_ok k hk (ml_arena.mk base cap (A5 + 4 * (D * C))) m6
    (Matrix.mk D C (some (base + A5))) D N C (base + A4) pz (by dsimp only; omega)
    hcap (by simp only [← e6]; omega) (by omega) hfNC
    (by simp only [← e6]; omega) (by have h := kZ.out; simp only [← e6]; omega)
  simp only [← e6] at h
  obtain ⟨m8, h8, v8, f8⟩ := h
  have h := sum_rows_ok k hk (ml_arena.mk base cap (A6 + 4 * (D * C))) m8 N C pz
    (by dsimp only; omega) hcap (by simp only [← e7]; omega) hfNC
    (by have h := kZ.out; simp only [← e7]; omega)
  simp only [← e7] at h
  obtain ⟨m9, h9, v9, f9⟩ := h
  obtain ⟨m10, h10, v10, f10⟩ := Matrix_mut_Scalar_ok m9 D C (base + A6) lr (by omega)
  obtain ⟨m11, h11, v11, f11⟩ := Matrix_minus_Matrix_inplace_ok m10 D C pw (base + A6)
    (by omega) (by have h := kW.out; omega)
  obtain ⟨m12, h12, v12, f12⟩ := Matrix_mut_Scalar_ok m11 1 C (base + A7) lr (by omega)
  obtain ⟨m13, h13, v13, f13⟩ := Matrix_minus_Matrix_inplace_ok m12 1 C pb (base + A7)
    (by omega) (by have h := kb.out; omega)
  have F6 := frame_region_transposed mem m6 (base + A4) N D f6
  have F8 := frame_region m6 m8 (base + A6) D C f8
  have F9 := frame_region_row m8 m9 (base + A7) C f9
  have F10 := frame_region m9 m10 (base + A6) D C f10
  have F11 := frame_region m10 m11 pw D C f11
  have F12 := frame_region m11 m12 (base + A7) 1 C f12
  have F13 := frame_region m12 m13 pb 1 C f13
  have E10 : ∀ x, x < base + pos ∨ base + cap ≤ x → m10 x = mem x := by
    intro x hx
    rw [F10 x (by omega), F9 x (by omega), F8 x (by omega), F6 x (by omega)]
  have V8 : ∀ d c, d < D → c < C →
      m8 (cell (base + A6) C d c) =
        ∑ i in Finset.range N, mem (cell px D i d) * mem (cell pz C i c) := by
    intro d c hd hc
    rw [v8 d c hd hc]
    unfold dot_acc
    rw [foldl_add_eq_sum (fun i => m6 (cell (base + A4) N d i) * m6 (cell pz C i c)) N]
    refine Finset.sum_congr rfl (fun i hi => ?_)
    have hi' := Finset.mem_range.mp hi
    have b := @cell_lt pz N C i c hi' hc
    rw [v6 i d hi' hd, F6 (cell pz C i c) (by have h := kZ.out; omega)]
  have V9 : ∀ c, c < C →
      m9 (cell (base + A7) C 0 c) = ∑ i in Finset.range N, mem (cell pz C i c) := by
    intro c hc
    rw [v9 c hc, foldl_add_eq_sum (fun i => m8 (cell pz C i c)) N]
    refine Finset.sum_congr rfl (fun i hi => ?_)
    have hi' := Finset.mem_range.mp hi
    have b := @cell_lt pz N C i c hi' hc
    rw [F8 (cell pz C i c) (by have h := kZ.out; omega),
      F6 (cell pz C i c) (by have h := kZ.out; omega)]
  refine ⟨m6, m8, m9, m10, m11, m12, m13, h6, h8, h9, h10, h11, h12, h13, ?_, ?_, ?_⟩
  · intro d c hd hc
    have bw := @cell_lt pw D C d c hd hc
    have b6 := @cell_lt (base + A6) D C d c hd hc
    rw [F13 (cell pw C d c) (by have h := kWb.out; omega),
      F12 (cell pw C d c) (by have h := kW.out; omega), v11 d c hd hc,
      E10 (cell pw C d c) (by have h := kW.out; omega), v10 d c hd hc,
      F9 (cell (base + A6) C d c) (by omega), V8 d c hd hc, mul_comm lr]
  · intro c hc
    have bb := @cell_lt pb 1 C 0 c Nat.zero_lt_one hc
    have b7 := @cell_lt (base + A7) 1 C 0 c Nat.zero_lt_one hc
    rw [v13 0 c Nat.zero_lt_one hc, F12 (cell pb C 0 c) (by have h := kb.out; omega),
      F11 (cell pb C 0 c) (by have h := kWb.out; omega),
      E10 (cell pb C 0 c) (by have h := kb.out; omega),
      v12 0 c Nat.zero_lt_one hc,
      F11 (cell (base + A7) C 0 c) (by have h := kW.out; omega),
      F10 (cell (base + A7) C 0 c) (by omega), V9 c hc, mul_comm lr]
  · intro i d hi hd
    have bx := @cell_lt px N D i d hi hd
    rw [F13 (cell px D i d) (by have h := kXb.out; omega),
      F12 (cell px D i d) (by have h := kX.out; omega),
      F11 (cell px D i d) (by have h := kXW.out; omega),
      E10 (cell px D i d) (by have h := kX.out; omega)]

/-- One training step on stored `X` (`N x D`), `W` (`D x C`) and `b` (`1 x C`) that lie
outside the free part of the arena and do not overlap each other, with room in the arena
for the seven allocations: the loss returned, the arena, and the new contents of `W`, `b`
and `X`. -/
theorem train_step_ok {α : Type} [LinearOrderedField α] (expf logf : α → α) (k : Nat)
    (hk : k < 64) (arena : ml_arena) (mem : Mem α) (N D C px pw pb : Nat)
    (labels : Nat → Nat) (lr : α) (hC : 1 ≤ C) (hlab : ∀ i, i < N → labels i < C)
    (hpos : arena.pos ≤ arena.capacity) (hcap : arena.capacity + 2 ^ k ≤ 2 ^ 64)
    (hroom : train_step_pos (2 ^ k) arena.pos N D C ≤ arena.capacity)
    (hX : px + 4 * (N * D) ≤ arena.base + arena.pos ∨ arena.base + arena.capacity ≤ px)
    (hW : pw + 4 * (D * C) ≤ arena.base + arena.pos ∨ arena.base + arena.capacity ≤ pw)
    (hb : pb + 4 * (1 * C) ≤ arena.base + arena.pos ∨ arena.base + arena.capacity ≤ pb)
    (hXW : px + 4 * (N * D) ≤ pw ∨ pw + 4 * (D * C) ≤ px)
    (hXb : px + 4 * (N * D) ≤ pb ∨ pb + 4 * (1 * C) ≤ px)
    (hWb : pw + 4 * (D * C) ≤ pb ∨ pb + 4 * (1 * C) ≤ pw) :
    ∃ m', softmax_regression_train_step expf logf (2 ^ k) arena mem (Matrix.mk N D (some px))
          labels (Matrix.mk D C (some pw)) (Matrix.mk 1 C (some pb)) lr =
        some (loss_val expf logf mem px pw pb N D C labels,
          { arena with pos := train_step_pos (2 ^ k) arena.pos N D C }, m') ∧
      (∀ d c, d < D → c < C →
        m' (cell pw C d c) = mem (cell pw C d c) -
          lr * ∑ i in Finset.range N,
            mem (cell px D i d) * dZ_val expf mem px pw pb N D C labels i c) ∧
      (∀ c, c < C →
        m' (cell pb C 0 c) = mem (cell pb C 0 c) -
          lr * ∑ i in Finset.range N, dZ_val expf mem px pw pb N D C labels i c) ∧
      (∀ i d, i < N → d < D → m' (cell px D i d) = mem (cell px D i d)) := by
  obtain ⟨base, cap, pos⟩ := arena
  dsimp only at hpos hcap hroom hX hW hb ⊢
  unfold train_step_pos pos_after at hroom ⊢
  have hp : 0 < 2 ^ k := Nat.two_pow_pos k
  have kX : Fact _ := ⟨hX⟩
  have kW : Fact _ := ⟨hW⟩
  have kb : Fact _ := ⟨hb⟩
  clear hX hW hb
  have hND : N * D = D * N := Nat.mul_comm _ _
  obtain ⟨A1, e1⟩ : ∃ A, A = align_up pos (2 ^ k) := ⟨_, rfl⟩
  rw [← e1] at hroom ⊢
  have l1 : pos ≤ A1 := by rw [e1]; exact le_align_up _ _ hp
  obtain ⟨A2, e2⟩ : ∃ A, A = align_up (A1 + 4 * (N * C)) (2 ^ k) := ⟨_, rfl⟩
  rw [← e2] at hroom ⊢
  have l2 : A1 + 4 * (N * C) ≤ A2 := by rw [e2]; exact le_align_up _ _ hp
  obtain ⟨A3, e3⟩ : ∃ A, A = align_up (A2 + 4 * (N * C)) (2 ^ k) := ⟨_, rfl⟩
  rw [← e3] at hroom ⊢
  have l3 : A2 + 4 * (N * C) ≤ A3 := by rw [e3]; exact le_align_up _ _ hp
  obtain ⟨A4, e4⟩ : ∃ A, A = align_up (A3 + 4 * (N * C)) (2 ^ k) := ⟨_, rfl⟩
  rw [← e4] at hroom ⊢
  have l4 : A3 + 4 * (N * C) ≤ A4 := by rw [e4]; exact le_align_up _ _ hp
  obtain ⟨A5, e5⟩ : ∃ A, A = align_up (A4 + 4 * (D * N)) (2 ^ k) := ⟨_, rfl⟩
  rw [← e5] at hroom ⊢
  have l5 : A4 + 4 * (D * N) ≤ A5 := by rw [e5]; exact le_align_up _ _ hp
  obtain ⟨A6, e6⟩ : ∃ A, A = align_up (A5 + 4 * (D * C)) (2 ^ k) := ⟨_, rfl⟩
  rw [← e6] at hroom ⊢
  have l6 : A5 + 4 * (D * C) ≤ A6 := by rw [e6]; exact le_align_up _ _ hp
  obtain ⟨A7, e7⟩ : ∃ A, A = align_up (A6 + 4 * (D * C)) (2 ^ k) := ⟨_, rfl⟩
  rw [← e7] at hroom ⊢
  have l7 : A6 + 4 * (D * C) ≤ A7 := by rw [e7]; exact le_align_up _ _ hp
  have hc1 := create_Matrix_ok k hk (ml_arena.mk base cap pos) N C hpos hcap
    (by simp only [← e1]; omega)
  simp only [← e1] at hc1
  have hc7 := create_Matrix_ok k hk (ml_arena.mk base cap (A4 + 4 * (D * N))) D C
    (by dsimp only; omega) hcap (by simp only [← e5]; omega)
  simp only [← e5] at hc7
  obtain ⟨m1, m2, m3, m5, h1, h2, h3, hloss, h5, V5, E5⟩ := forward_ok expf logf k hk base cap
    pos mem N D C px pw pb labels A1 A2 A3 e1 e2 e3 hC hlab hcap (by omega) (by omega)
    (by omega) (by omega) kX.out kW.out kb.out
  obtain ⟨m6, m8, m9, m10, m11, m12, m13, h6, h8, h9, h10, h11, h12, h13, VW, Vb, VX⟩ :=
    gradient_ok k hk base cap (A3 + 4 * (N * C)) m5 N D C px (base + A3) pw pb lr
      A4 A5 A6 A7 e4 e5 e6 e7 (by omega) hcap hroom (by omega)
      (by have h := kX.out; omega) (by omega) (by have h := kW.out; omega)
      (by have h := kb.out; omega) hXW hXb hWb
  refine ⟨m13, ?_, ?_, ?_, ?_⟩
  · unfold softmax_regression_train_step
    simp only [hc1, h1, h2, h3, hloss, h5, h6, hc7, h8, h9, h10, h11, h12, h13,
      Option.some_bind, ne_eq, not_true_eq_false, if_false]
  · intro d c hd hc
    have bw := @cell_lt pw D C d c hd hc
    rw [VW d c hd hc, E5 (cell pw C d c) (by have h := kW.out; omega)]
    congr 2
    refine Finset.sum_congr rfl (fun i hi => ?_)
    have hi' := Finset.mem_range.mp hi
    have bx := @cell_lt px N D i d hi' hd
    rw [E5 (cell px D i d) (by have h := kX.out; omega), V5 i c hi' hc]
  · intro c hc
    have bb := @cell_lt pb 1 C 0 c Nat.zero_lt_one hc
    rw [Vb c hc, E5 (cell pb C 0 c) (by have h := kb.out; omega)]
    congr 2
    exact Finset.sum_congr rfl (fun i hi => V5 i c (Finset.mem_range.mp hi) hc)
  · intro i d hi hd
    have bx := @cell_lt px N D i d hi hd
    rw [VX i d hi hd, E5 (cell px D i d) (by have h := kX.out; omega)]

/-! ## Two training steps on the two-sample instance -/

theorem le_train_step_pos (al pos N D C : Nat) (h : 0 < al) :
    pos ≤ train_step_pos al pos N D C := by
  unfold train_step_pos pos_after
  have l1 := le_align_up pos al h
  have l2 := le_align_up (align_up pos al + 4 * (N * C)) al h
  have l3 := le_align_up (align_up (align_up pos al + 4 * (N * C)) al + 4 * (N * C)) al h
  have l4 := le_align_up (align_up (align_up (align_up pos al + 4 * (N * C)) al +
    4 * (N * C)) al + 4 * (N * C)) al h
  have l5 := le_align_up (align_up (align_up (align_up (align_up pos al + 4 * (N * C)) al +
    4 * (N * C)) al + 4 * (N * C)) al + 4 * (D * N)) al h
  have l6 := le_align_up (align_up (align_up (align_up (align_up (align_up pos al +
    4 * (N * C)) al + 4 * (N * C)) al + 4 * (N * C)) al + 4 * (D * N)) al +
    4 * (D * C)) al h
  have l7 := le_align_up (align_up (align_up (align_up (align_up (align_up (align_up pos al +
    4 * (N * C)) al + 4 * (N * C)) al + 4 * (N * C)) al + 4 * (D * N)) al +
    4 * (D * C)) al + 4 * (D * C)) al h
  omega

theorem softmax_val_two (z : Nat → ℝ) (j : Nat) :
    softmax_val Real.exp z 2 j =
      Real.exp (z j - row_max_acc z 2) /
        (Real.exp (z 0 - row_max_acc z 2) + Real.exp (z 1 - row_max_acc z 2)) := by
  unfold softmax_val
  rw [row_sum_acc_eq_sum, Finset.sum_range_succ, Finset.sum_range_one, mul_one_div]

theorem softmax_val_two_const (z : Nat → ℝ) (h : z 1 = z 0) (j : Nat) (hj : j < 2) :
    softmax_val Real.exp z 2 j = 1 / 2 := by
  have hz : z j = z 0 := by
    interval_cases j
    · rfl
    · exact h
  rw [softmax_val_two, hz, h]
  have := Real.exp_pos (z 0 - row_max_acc z 2)
  field_simp
  ring

theorem softmax_val_two_gt (z : Nat → ℝ) (j j' : Nat)
    (hj : (j = 0 ∧ j' = 1) ∨ (j = 1 ∧ j' = 0)) (h : z j' < z j) :
    1 / 2 < softmax_val Real.exp z 2 j := by
  have hlt := Real.exp_lt_exp.mpr (sub_lt_sub_right h (row_max_acc z 2))
  have p0 := Real.exp_pos (z 0 - row_max_acc z 2)
  have p1 := Real.exp_pos (z 1 - row_max_acc z 2)
  rw [softmax_val_two, lt_div_iff₀ (by linarith)]
  rcases hj with ⟨rfl, rfl⟩ | ⟨rfl, rfl⟩ <;> linarith

theorem eps_le_half : (eps : ℝ) ≤ 1 / 2 := by
  unfold eps
  norm_num

/-- Two training steps in a row on the instance `X = [[1,0,0],[0,1,0]]`, labels `[0,1]`,
zero `W` and `b`, learning rate `1/10`: the first loss is `ln 2` and the second is smaller. -/
theorem two_steps_ok (k : Nat) (hk : k < 64) (arena : ml_arena) (mem : Mem ℝ)
    (px pw pb : Nat) (labels : Nat → Nat) (hl0 : labels 0 = 0) (hl1 : labels 1 = 1)
    (hXv : ∀ i d, i < 2 → d < 3 → mem (cell px 3 i d) = if i = d then 1 else 0)
    (hWv : ∀ d c, d < 3 → c < 2 → mem (cell pw 2 d c) = 0)
    (hbv : ∀ c, c < 2 → mem (cell pb 2 0 c) = 0)
    (hpos : arena.pos ≤ arena.capacity) (hcap : arena.capacity + 2 ^ k ≤ 2 ^ 64)
    (hroom : train_step_pos (2 ^ k) (train_step_pos (2 ^ k) arena.pos 2 3 2) 2 3 2 ≤
      arena.capacity)
    (hX : px + 4 * (2 * 3) ≤ arena.base + arena.pos ∨ arena.base + arena.capacity ≤ px)
    (hW : pw + 4 * (3 * 2) ≤ arena.base + arena.pos ∨ arena.base + arena.capacity ≤ pw)
    (hb : pb + 4 * (1 * 2) ≤ arena.base + arena.pos ∨ arena.base + arena.capacity ≤ pb)
    (hXW : px + 4 * (2 * 3) ≤ pw ∨ pw + 4 * (3 * 2) ≤ px)
    (hXb : px + 4 * (2 * 3) ≤ pb ∨ pb + 4 * (1 * 2) ≤ px)
    (hWb : pw + 4 * (3 * 2) ≤ pb ∨ pb + 4 * (1 * 2) ≤ pw) :
    ∃ m1 m2,
      softmax_regression_train_step Real.exp Real.log (2 ^ k) arena mem
          (Matrix.mk 2 3 (some px)) labels (Matrix.mk 3 2 (some pw)) (Matrix.mk 1 2 (some pb))
          (1 / 10) =
        some (Real.log 2, { arena with pos := train_step_pos (2 ^ k) arena.pos 2 3 2 }, m1) ∧
      softmax_regression_train_step Real.exp Real.log (2 ^ k)
          { arena with pos := train_step_pos (2 ^ k) arena.pos 2 3 2 } m1
          (Matrix.mk 2 3 (some px)) labels (Matrix.mk 3 2 (some pw)) (Matrix.mk 1 2 (some pb))
          (1 / 10) =
        some (loss_val Real.exp Real.log m1 px pw pb 2 3 2 labels,
          { arena with pos :=
            train_step_pos (2 ^ k) (train_step_pos (2 ^ k) arena.pos 2 3 2) 2 3 2 }, m2) ∧
      loss_val Real.exp Real.log m1 px pw pb 2 3 2 labels < Real.log 2 := by
  have hp : 0 < 2 ^ k := Nat.two_pow_pos k
  have hlab : ∀ i, i < 2 → labels i < 2 := by
    intro i hi
    interval_cases i
    · rw [hl0]; decide
    · rw [hl1]; decide
  have mono1 := le_train_step_pos (2 ^ k) arena.pos 2 3 2 hp
  have mono2 := le_train_step_pos (2 ^ k) (train_step_pos (2 ^ k) arena.pos 2 3 2) 2 3 2 hp
  obtain ⟨m1, r1, w1, b1, x1⟩ := train_step_ok Real.exp Real.log k hk arena mem 2 3 2
    px pw pb labels (1 / 10) (by decide) hlab hpos hcap (le_trans mono2 hroom)
    hX hW hb hXW hXb hWb
  obtain ⟨m2, r2, _, _, _⟩ := train_step_ok Real.exp Real.log k hk
    { arena with pos := train_step_pos (2 ^ k) arena.pos 2 3 2 } m1 2 3 2
    px pw pb labels (1 / 10) (by decide) hlab (le_trans mono2 hroom) hcap hroom
    (by dsimp only; omega) (by dsimp only; omega) (by dsimp only; omega) hXW hXb hWb
  -- the first step
  have A0 : ∀ i j, i < 2 → j < 2 → affine_val mem px pw pb 3 2 i j = 0 := by
    intro i j _ hj
    unfold affine_val
    rw [Finset.sum_range_succ, Finset.sum_range_succ, Finset.sum_range_one,
      hWv 0 j (by decide) hj, hWv 1 j (by decide) hj, hWv 2 j (by decide) hj, hbv j hj]
    ring
  have P0 : ∀ i j, i < 2 → j < 2 → prob_val Real.exp mem px pw pb 3 2 i j = 1 / 2 := by
    intro i j hi hj
    unfold prob_val
    apply softmax_val_two_const _ _ j hj
    show affine_val mem px pw pb 3 2 i 1 = affine_val mem px pw pb 3 2 i 0
    rw [A0 i 1 hi (by decide), A0 i 0 hi (by decide)]
  have L1 : loss_val Real.exp Real.log mem px pw pb 2 3 2 labels = Real.log 2 := by
    unfold loss_val
    rw [Finset.sum_range_succ, Finset.sum_range_one,
      P0 0 (labels 0) (by decide) (hlab 0 (by decide)),
      P0 1 (labels 1) (by decide) (hlab 1 (by decide)), max_eq_left eps_le_half, one_div,
      Real.log_inv]
    push_cast
    ring
  have Z0 : ∀ i j, i < 2 → j < 2 →
      dZ_val Real.exp mem px pw pb 2 3 2 labels i j =
        (1 / 2 - (if j = labels i then 1 else 0)) / 2 := by
    intro i j hi hj
    unfold dZ_val
    rw [P0 i j hi hj]
    push_cast
    rfl
  -- the second step
  have A1 : ∀ i j, i < 2 → j < 2 →
      affine_val m1 px pw pb 3 2 i j = if j = i then 1 / 40 else -(1 / 40) := by
    intro i j hi hj
    unfold affine_val
    rw [Finset.sum_range_succ, Finset.sum_range_succ, Finset.sum_range_one,
      x1 i 0 hi (by decide), x1 i 1 hi (by decide), x1 i 2 hi (by decide),
      hXv i 0 hi (by decide), hXv i 1 hi (by decide), hXv i 2 hi (by decide),
      w1 0 j (by decide) hj, w1 1 j (by decide) hj, w1 2 j (by decide) hj, b1 j hj,
      Finset.sum_range_succ, Finset.sum_range_one, Finset.sum_range_succ,
      Finset.sum_range_one, Finset.sum_range_succ, Finset.sum_range_one,
      Finset.sum_range_succ, Finset.sum_range_one,
      Z0 0 j (by decide) hj, Z0 1 j (by decide) hj, hl0, hl1,
      hXv 0 0 (by decide) (by decide), hXv 0 1 (by decide) (by decide),
      hXv 0 2 (by decide) (by decide), hXv 1 0 (by decide) (by decide),
      hXv 1 1 (by decide) (by decide), hXv 1 2 (by decide) (by decide),
      hWv 0 j (by decide) hj, hWv 1 j (by decide) hj, hWv 2 j (by decide) hj, hbv j hj]
    interval_cases i <;> interval_cases j <;> norm_num
  have P1 : ∀ i, i < 2 → 1 / 2 < prob_val Real.exp m1 px pw pb 3 2 i (labels i) := by
    intro i hi
    unfold prob_val
    interval_cases i
    · rw [hl0]
      apply softmax_val_two_gt _ 0 1 (Or.inl ⟨rfl, rfl⟩)
      show affine_val m1 px pw pb 3 2 0 1 < affine_val m1 px pw pb 3 2 0 0
      rw [A1 0 1 (by decide) (by decide), A1 0 0 (by decide) (by decide)]
      norm_num
    · rw [hl1]
      apply softmax_val_two_gt _ 1 0 (Or.inr ⟨rfl, rfl⟩)
      show affine_val m1 px pw pb 3 2 1 0 < affine_val m1 px pw pb 3 2 1 1
      rw [A1 1 0 (by decide) (by decide), A1 1 1 (by decide) (by decide)]
      norm_num
  have T : ∀ i, i < 2 →
      -Real.log (max (prob_val Real.exp m1 px pw pb 3 2 i (labels i)) eps) < Real.log 2 := by
    intro i hi
    have h1 : (1 : ℝ) / 2 < max (prob_val Real.exp m1 px pw pb 3 2 i (labels i)) eps :=
      lt_of_lt_of_le (P1 i hi) (le_max_left _ _)
    have h2 := Real.log_lt_log (by norm_num) h1
    rw [one_div, Real.log_inv] at h2
    linarith
  have L2 : loss_val Real.exp Real.log m1 px pw pb 2 3 2 labels < Real.log 2 := by
    unfold loss_val
    rw [Finset.sum_range_succ, Finset.sum_range_one]
    have t0 := T 0 (by decide)
    have t1 := T 1 (by decide)
    push_cast
    linarith
  rw [L1] at r1
  exact ⟨m1, m2, r1, r2, L2⟩

/-! ## The training step when `W` and `b` share their storage -/

/-- The gradient half of a training step when `W` and `b` are the same `1 x C` buffer at
`pw` (one feature): both in-place subtractions land on the same cells. -/
theorem gradient_shared_ok {α : Type} [LinearOrderedField α] (k : Nat) (hk : k < 64)
    (base cap pos : Nat) (mem : Mem α) (N C px pz pw : Nat) (lr : α)
    (A4 A5 A6 A7 : Nat)
    (e4 : A4 = align_up pos (2 ^ k)) (e5 : A5 = align_up (A4 + 4 * (1 * N)) (2 ^ k))
    (e6 : A6 = align_up (A5 + 4 * (1 * C)) (2 ^ k))
    (e7 : A7 = align_up (A6 + 4 * (1 * C)) (2 ^ k))
    (hpos : pos ≤ cap) (hcap : cap + 2 ^ k ≤ 2 ^ 64) (hroom : A7 + 4 * (1 * C) ≤ cap)
    (hfNC : N * C < 2 ^ 64)
    (hX : px + 4 * (N * 1) ≤ base + pos ∨ base + cap ≤ px)
    (hZ : pz + 4 * (N * C) ≤ base + pos ∨ base + cap ≤ pz)
    (hW : pw + 4 * (1 * C) ≤ base + pos ∨ base + cap ≤ pw) :
    ∃ m6 m8 m9 m10 m11 m12 m13,
      Matrix_transpose (2 ^ k) (some (ml_arena.mk base cap pos)) mem (Matrix.mk 0 0 none)
          (Matrix.mk N 1 (some px)) =
        some ⟨LnaOpStatus.LNA_OK, some (ml_arena.mk base cap (A4 + 4 * (1 * N))),
          Matrix.mk 1 N (some (base + A4)), m6⟩ ∧
      Matrix_mut_Matrix (2 ^ k) (ml_arena.mk base cap (A5 + 4 * (1 * C))) m6
          (Matrix.mk 1 C (some (base + A5))) (Matrix.mk 1 N (some (base + A4)))
          (Matrix.mk N C (some pz)) =
        some ⟨LnaOpStatus.LNA_OK, ml_arena.mk base cap (A6 + 4 * (1 * C)),
          Matrix.mk 1 C (some (base + A6)), m8⟩ ∧
      sum_rows (2 ^ k) (ml_arena.mk base cap (A6 + 4 * (1 * C))) m8
          (Matrix.mk N C (some pz)) =
        some ⟨LnaOpStatus.LNA_OK, ml_arena.mk base cap (A7 + 4 * (1 * C)),
          Matrix.mk 1 C (some (base + A7)), m9⟩ ∧
      Matrix_mut_Scalar m9 (Matrix.mk 1 C (some (base + A6))) lr =
        some (LnaOpStatus.LNA_OK, m10) ∧
      Matrix_minus_Matrix_inplace m10 (Matrix.mk 1 C (some pw))
          (Matrix.mk 1 C (some (base + A6))) = some (LnaOpStatus.LNA_OK, m11) ∧
      Matrix_mut_Scalar m11 (Matrix.mk 1 C (some (base + A7))) lr =
        some (LnaOpStatus.LNA_OK, m12) ∧
      Matrix_minus_Matrix_inplace m12 (Matrix.mk 1 C (some pw))
          (Matrix.mk 1 C (some (base + A7))) = some (LnaOpStatus.LNA_OK, m13) ∧
      (∀ c, c < C →
        m13 (cell pw C 0 c) = mem (cell pw C 0 c) -
          lr * (∑ i in Finset.range N, mem (cell px 1 i 0) * mem (cell pz C i c)) -
          lr * ∑ i in Finset.range N, mem (cell pz C i c)) := by
  have hp : 0 < 2 ^ k := Nat.two_pow_pos k
  have kX : Fact _ := ⟨hX⟩
  have kZ : Fact _ := ⟨hZ⟩
  have kW : Fact _ := ⟨hW⟩
  clear hX hZ hW
  have l4 : pos ≤ A4 := by rw [e4]; exact le_align_up _ _ hp
  have l5 : A4 + 4 * (1 * N) ≤ A5 := by rw [e5]; exact le_align_up _ _ hp
  have l6 : A5 + 4 * (1 * C) ≤ A6 := by rw [e6]; exact le_align_up _ _ hp
  have l7 : A6 + 4 * (1 * C) ≤ A7 := by rw [e7]; exact le_align_up _ _ hp
  have h := Matrix_transpose_ok k hk (ml_arena.mk base cap pos) mem
    (Matrix.mk 0 0 none) N 1 px hpos hcap (by simp only [← e4]; omega)
    (by have h := kX.out; simp only [← e4]; omega)
  simp only [← e4] at h
  obtain ⟨m6, h6, v6, f6⟩ := h
  have h := Matrix_mut_Matrix_ok k hk (ml_arena.mk base cap (A5 + 4 * (1 * C))) m6
    (Matrix.mk 1 C (some (base + A5))) 1 N C (base + A4) pz (by dsimp only; omega)
    hcap (by simp only [← e6]; omega) (by omega) hfNC
    (by simp only [← e6]; omega) (by have h := kZ.out; simp only [← e6]; omega)
  simp only [← e6] at h
  obtain ⟨m8, h8, v8, f8⟩ := h
  have h := sum_rows_ok k hk (ml_arena.mk base cap (A6 + 4 * (1 * C))) m8 N C pz
    (by dsimp only; omega) hcap (by simp only [← e7]; omega) hfNC
    (by have h := kZ.out; simp only [← e7]; omega)
  simp only [← e7] at h
  obtain ⟨m9, h9, v9, f9⟩ := h
  obtain ⟨m10, h10, v10, f10⟩ := Matrix_mut_Scalar_ok m9 1 C (base + A6) lr (by omega)
  obtain ⟨m11, h11, v11, f11⟩ := Matrix_minus_Matrix_inplace_ok m10 1 C pw (base + A6)
    (by omega) (by have h := kW.out; omega)
  obtain ⟨m12, h12, v12, f12⟩ := Matrix_mut_Scalar_ok m11 1 C (base + A7) lr (by omega)
  obtain ⟨m13, h13, v13, f13⟩ := Matrix_minus_Matrix_inplace_ok m12 1 C pw (base + A7)
    (by omega) (by have h := kW.out; omega)
  have F6 := frame_region_transposed mem m6 (base + A4) N 1 f6
  have F8 := frame_region m6 m8 (base + A6) 1 C f8
  have F9 := frame_region_row m8 m9 (base + A7) C f9
  have F10 := frame_region m9 m10 (base + A6) 1 C f10
  have F11 := frame_region m10 m11 pw 1 C f11
  have F12 := frame_region m11 m12 (base + A7) 1 C f12
  have E10 : ∀ x, x < base + pos ∨ base + cap ≤ x → m10 x = mem x := by
    intro x hx
    rw [F10 x (by omega), F9 x (by omega), F8 x (by omega), F6 x (by omega)]
  have V8 : ∀ c, c < C →
      m8 (cell (base + A6) C 0 c) =
        ∑ i in Finset.range N, mem (cell px 1 i 0) * mem (cell pz C i c) := by
    intro c hc
    rw [v8 0 c Nat.zero_lt_one hc]
    unfold dot_acc
    rw [foldl_add_eq_sum (fun i => m6 (cell (base + A4) N 0 i) * m6 (cell pz C i c)) N]
    refine Finset.sum_congr rfl (fun i hi => ?_)
    have hi' := Finset.mem_range.mp hi
    have b := @cell_lt pz N C i c hi' hc
    rw [v6 i 0 hi' Nat.zero_lt_one, F6 (cell pz C i c) (by have h := kZ.out; omega)]
  have V9 : ∀ c, c < C →
      m9 (cell (base + A7) C 0 c) = ∑ i in Finset.range N, mem (cell pz C i c) := by
    intro c hc
    rw [v9 c hc, foldl_add_eq_sum (fun i => m8 (cell pz C i c)) N]
    refine Finset.sum_congr rfl (fun i hi => ?_)
    have hi' := Finset.mem_range.mp hi
    have b := @cell_lt pz N C i c hi' hc
    rw [F8 (cell pz C i c) (by have h := kZ.out; omega),
      F6 (cell pz C i c) (by have h := kZ.out; omega)]
  refine ⟨m6, m8, m9, m10, m11, m12, m13, h6, h8, h9, h10, h11, h12, h13, ?_⟩
  intro c hc
  have bw := @cell_lt pw 1 C 0 c Nat.zero_lt_one hc
  have b6 := @cell_lt (base + A6) 1 C 0 c Nat.zero_lt_one hc
  have b7 := @cell_lt (base + A7) 1 C 0 c Nat.zero_lt_one hc
  rw [v13 0 c Nat.zero_lt_one hc, F12 (cell pw C 0 c) (by have h := kW.out; omega),
    v11 0 c Nat.zero_lt_one hc, E10 (cell pw C 0 c) (by have h := kW.out; omega),
    v10 0 c Nat.zero_lt_one hc, F9 (cell (base + A6) C 0 c) (by omega), V8 c hc,
    v12 0 c Nat.zero_lt_one hc, F11 (cell (base + A7) C 0 c) (by have h := kW.out; omega),
    F10 (cell (base + A7) C 0 c) (by omega), V9 c hc]
  ring

/-- One training step with one feature whose `W` and `b` are the same `1 x C` buffer:
the buffer ends as `W_old - lr * (transpose X * dZ) - lr * sum_rows dZ`. -/
theorem train_step_shared_ok {α : Type} [LinearOrderedField α] (expf logf : α → α) (k : Nat)
    (hk : k < 64) (arena : ml_arena) (mem : Mem α) (N C px pw : Nat)
    (labels : Nat → Nat) (lr : α) (hC : 1 ≤ C) (hlab : ∀ i, i < N → labels i < C)
    (hpos : arena.pos ≤ arena.capacity) (hcap : arena.capacity + 2 ^ k ≤ 2 ^ 64)
    (hroom : train_step_pos (2 ^ k) arena.pos N 1 C ≤ arena.capacity)
    (hX : px + 4 * (N * 1) ≤ arena.base + arena.pos ∨ arena.base + arena.capacity ≤ px)
    (hW : pw + 4 * (1 * C) ≤ arena.base + arena.pos ∨ arena.base + arena.capacity ≤ pw) :
    ∃ m', softmax_regression_train_step expf logf (2 ^ k) arena mem (Matrix.mk N 1 (some px))
          labels (Matrix.mk 1 C (some pw)) (Matrix.mk 1 C (some pw)) lr =
        some (loss_val expf logf mem px pw pw N 1 C labels,
          { arena with pos := train_step_pos (2 ^ k) arena.pos N 1 C }, m') ∧
      (∀ c, c < C →
        m' (cell pw C 0 c) = mem (cell pw C 0 c) -
          lr * (∑ i in Finset.range N,
            mem (cell px 1 i 0) * dZ_val expf mem px pw pw N 1 C labels i c) -
          lr * ∑ i in Finset.range N, dZ_val expf mem px pw pw N 1 C labels i c) := by
  obtain ⟨base, cap, pos⟩ := arena
  dsimp only at hpos hcap hroom hX hW ⊢
  unfold train_step_pos pos_after at hroom ⊢
  have hp : 0 < 2 ^ k := Nat.two_pow_pos k
  have kX : Fact _ := ⟨hX⟩
  have kW : Fact _ := ⟨hW⟩
  clear hX hW
  obtain ⟨A1, e1⟩ : ∃ A, A = align_up pos (2 ^ k) := ⟨_, rfl⟩
  rw [← e1] at hroom ⊢
  have l1 : pos ≤ A1 := by rw [e1]; exact le_align_up _ _ hp
  obtain ⟨A2, e2⟩ : ∃ A, A = align_up (A1 + 4 * (N * C)) (2 ^ k) := ⟨_, rfl⟩
  rw [← e2] at hroom ⊢
  have l2 : A1 + 4 * (N * C) ≤ A2 := by rw [e2]; exact le_align_up _ _ hp
  obtain ⟨A3, e3⟩ : ∃ A, A = align_up (A2 + 4 * (N * C)) (2 ^ k) := ⟨_, rfl⟩
  rw [← e3] at hroom ⊢
  have l3 : A2 + 4 * (N * C) ≤ A3 := by rw [e3]; exact le_align_up _ _ hp
  obtain ⟨A4, e4⟩ : ∃ A, A = align_up (A3 + 4 * (N * C)) (2 ^ k) := ⟨_, rfl⟩
  rw [← e4] at hroom ⊢
  have l4 : A3 + 4 * (N * C) ≤ A4 := by rw [e4]; exact le_align_up _ _ hp
  obtain ⟨A5, e5⟩ : ∃ A, A = align_up (A4 + 4 * (1 * N)) (2 ^ k) := ⟨_, rfl⟩
  rw [← e5] at hroom ⊢
  have l5 : A4 + 4 * (1 * N) ≤ A5 := by rw [e5]; exact le_align_up _ _ hp
  obtain ⟨A6, e6⟩ : ∃ A, A = align_up (A5 + 4 * (1 * C)) (2 ^ k) := ⟨_, rfl⟩
  rw [← e6] at hroom ⊢
  have l6 : A5 + 4 * (1 * C) ≤ A6 := by rw [e6]; exact le_align_up _ _ hp
  obtain ⟨A7, e7⟩ : ∃ A, A = align_up (A6 + 4 * (1 * C)) (2 ^ k) := ⟨_, rfl⟩
  rw [← e7] at hroom ⊢
  have l7 : A6 + 4 * (1 * C) ≤ A7 := by rw [e7]; exact le_align_up _ _ hp
  have hc1 := create_Matrix_ok k hk (ml_arena.mk base cap pos) N C hpos hcap
    (by simp only [← e1]; omega)
  simp only [← e1] at hc1
  have hc7 := create_Matrix_ok k hk (ml_arena.mk base cap (A4 + 4 * (1 * N))) 1 C
    (by dsimp only; omega) hcap (by simp only [← e5]; omega)
  simp only [← e5] at hc7
  obtain ⟨m1, m2, m3, m5, h1, h2, h3, hloss, h5, V5, E5⟩ := forward_ok expf logf k hk base cap
    pos mem N 1 C px pw pw labels A1 A2 A3 e1 e2 e3 hC hlab hcap (by omega) (by omega)
    (by omega) (by omega) kX.out kW.out kW.out
  obtain ⟨m6, m8, m9, m10, m11, m12, m13, h6, h8, h9, h10, h11, h12, h13, VW⟩ :=
    gradient_shared_ok k hk base cap (A3 + 4 * (N * C)) m5 N C px (base + A3) pw lr
      A4 A5 A6 A7 e4 e5 e6 e7 (by omega) hcap hroom (by omega)
      (by have h := kX.out; omega) (by omega) (by have h := kW.out; omega)
  refine ⟨m13, ?_, ?_⟩
  · unfold softmax_regression_train_step
    simp only [hc1, h1, h2, h3, hloss, h5, h6, hc7, h8, h9, h10, h11, h12, h13,
      Option.some_bind, ne_eq, not_true_eq_false, if_false]
  · intro c hc
    have bw := @cell_lt pw 1 C 0 c Nat.zero_lt_one hc
    rw [VW c hc, E5 (cell pw C 0 c) (by have h := kW.out; omega)]
    have s1 : ∑ i in Finset.range N, m5 (cell px 1 i 0) * m5 (cell (base + A3) C i c) =
        ∑ i in Finset.range N,
          mem (cell px 1 i 0) * dZ_val expf mem px pw pw N 1 C labels i c := by
      refine Finset.sum_congr rfl (fun i hi => ?_)
      have hi' := Finset.mem_range.mp hi
      have bx := @cell_lt px N 1 i 0 hi' Nat.zero_lt_one
      rw [E5 (cell px 1 i 0) (by have h := kX.out; omega), V5 i c hi' hc]
    have s2 : ∑ i in Finset.range N, m5 (cell (base + A3) C i c) =
        ∑ i in Finset.range N, dZ_val expf mem px pw pw N 1 C labels i c :=
      Finset.sum_congr rfl (fun i hi => V5 i c (Finset.mem_range.mp hi) hc)
    rw [s1, s2]

/-- C13 (counterexample): one sample, one feature, two classes over the reals; `X = [[0]]`
at 8192, `W` and `b` the same zero `1 x 2` buffer at 8200, label 0, learning rate 1, and
the empty arena of capacity 1024 at 4096 with `ARENA_ALIGN = 8`.  The step returns, and
afterwards `W(0,0)` is `1/2`, while `W_old - lr * (transpose X * dZ)` at `(0,0)` is 0:
the update of `b` landed on `W`. -/
theorem train_step_shared_W_b_breaks_update :
    ∃ loss arena' m',
      softmax_regression_train_step Real.exp Real.log (2 ^ 3) (ml_arena.mk 4096 1024 0)
          (fun _ => (0 : ℝ)) (Matrix.mk 1 1 (some 8192)) (fun _ => 0)
          (Matrix.mk 1 2 (some 8200)) (Matrix.mk 1 2 (some 8200)) 1 =
        some (loss, arena', m') ∧
      m' (cell 8200 2 0 0) = 1 / 2 ∧
      (fun _ => (0 : ℝ)) (cell 8200 2 0 0) -
          1 * ∑ i in Finset.range 1,
            (fun _ => (0 : ℝ)) (cell 8192 1 i 0) *
              dZ_val Real.exp (fun _ => (0 : ℝ)) 8192 8200 8200 1 1 2 (fun _ => 0) i 0 =
        0 := by
  obtain ⟨m', hrun, hW⟩ := train_step_shared_ok Real.exp Real.log 3 (by decide)
    (ml_arena.mk 4096 1024 0) (fun _ => (0 : ℝ)) 1 2 8192 8200 (fun _ => 0) 1 (by decide)
    (fun _ _ => Nat.zero_lt_two) (by decide) (by decide) (by decide) (by decide) (by decide)
  have hp : prob_val Real.exp (fun _ => (0 : ℝ)) 8192 8200 8200 1 2 0 0 = 1 / 2 := by
    unfold prob_val
    exact softmax_val_two_const
      (fun j => affine_val (fun _ => (0 : ℝ)) 8192 8200 8200 1 2 0 j) rfl 0 (by decide)
  have hz : dZ_val Real.exp (fun _ => (0 : ℝ)) 8192 8200 8200 1 1 2 (fun _ => 0) 0 0 =
      -(1 / 2) := by
    unfold dZ_val
    rw [hp, if_pos rfl]
    norm_num
  refine ⟨_, _, m', hrun, ?_, ?_⟩
  · rw [hW 0 (by decide), Finset.sum_range_one, Finset.sum_range_one, hz]
    norm_num
  · rw [Finset.sum_range_one]
    norm_num

/-! ## The training step: the claims -/

/-- C13: for `X` (`N x D`, `N ≥ 1`), `W` (`D x C`, `C ≥ 1`) and `b` (`1 x C`) stored at
non-null addresses, outside the free part of the arena and without overlapping each
other, labels below `C`, a learning rate `lr` and an arena at a non-null base with room
for the seven allocations, `softmax_regression_train_step` returns the mean over the rows
of `-logf (max p eps)` with `p` the entry of `softmax (X * W + b)` at the row's label,
computed from the contents of `W` and `b` before the call; afterwards `W` holds
`W_old - lr * (transpose X * dZ)` and `b` holds `b_old - lr * sum_rows dZ`, with
`dZ = (softmax (X * W_old + b_old) - onehot labels) / N`, and `X` is unchanged (element
arithmetic read as exact arithmetic in an ordered field). -/
theorem train_step_returns_loss_and_updates {α : Type} [LinearOrderedField α]
    (expf logf : α → α) (k : Nat) (hk : k < 64) (arena : ml_arena) (mem : Mem α)
    (N D C px pw pb : Nat) (labels : Nat → Nat) (lr : α) (hN : 1 ≤ N) (hC : 1 ≤ C)
    (hlab : ∀ i, i < N → labels i < C)
    (hbase : arena.base ≠ 0) (hpx : px ≠ 0) (hpw : pw ≠ 0) (hpb : pb ≠ 0)
    (hpos : arena.pos ≤ arena.capacity) (hcap : arena.capacity + 2 ^ k ≤ 2 ^ 64)
    (hroom : train_step_pos (2 ^ k) arena.pos N D C ≤ arena.capacity)
    (hX : px + 4 * (N * D) ≤ arena.base + arena.pos ∨ arena.base + arena.capacity ≤ px)
    (hW : pw + 4 * (D * C) ≤ arena.base + arena.pos ∨ arena.base + arena.capacity ≤ pw)
    (hb : pb + 4 * (1 * C) ≤ arena.base + arena.pos ∨ arena.base + arena.capacity ≤ pb)
    (hXW : px + 4 * (N * D) ≤ pw ∨ pw + 4 * (D * C) ≤ px)
    (hXb : px + 4 * (N * D) ≤ pb ∨ pb + 4 * (1 * C) ≤ px)
    (hWb : pw + 4 * (D * C) ≤ pb ∨ pb + 4 * (1 * C) ≤ pw) :
    ∃ loss arena' m',
      softmax_regression_train_step expf logf (2 ^ k) arena mem (Matrix.mk N D (some px))
          labels (Matrix.mk D C (some pw)) (Matrix.mk 1 C (some pb)) lr =
        some (loss, arena', m') ∧
      loss = (∑ i in Finset.range N,
        -logf (max (softmax_val expf (fun j =>
          (∑ t in Finset.range D, mem (cell px D i t) * mem (cell pw C t j)) +
            mem (cell pb C 0 j)) C (labels i)) eps)) / (N : α) ∧
      (∀ d c, d < D → c < C →
        m' (cell pw C d c) = mem (cell pw C d c) -
          lr * ∑ i in Finset.range N,
            mem (cell px D i d) * dZ_val expf mem px pw pb N D C labels i c) ∧
      (∀ c, c < C →
        m' (cell pb C 0 c) = mem (cell pb C 0 c) -
          lr * ∑ i in Finset.range N, dZ_val expf mem px pw pb N D C labels i c) ∧
      (∀ i c, i < N → c < C →
        dZ_val expf mem px pw pb N D C labels i c =
          (softmax_val expf (fun j =>
            (∑ t in Finset.range D, mem (cell px D i t) * mem (cell pw C t j)) +
              mem (cell pb C 0 j)) C c - (if c = labels i then 1 else 0)) / (N : α)) ∧
      (∀ i d, i < N → d < D → m' (cell px D i d) = mem (cell px D i d)) := by
  have _h := hN
  have _h0 := hbase
  have _h1 := hpx
  have _h2 := hpw
  have _h3 := hpb
  obtain ⟨m', hrun, hWn, hbn, hXn⟩ := train_step_ok expf logf k hk arena mem N D C px pw pb
    labels lr hC hlab hpos hcap hroom hX hW hb hXW hXb hWb
  exact ⟨_, _, m', hrun, rfl, hWn, hbn, fun _ _ _ _ => rfl, hXn⟩

/-- C13 (witness): two samples, three features, two classes over the reals;
`X = [[1,0,0],[0,1,0]]` at 8192, zero `W` at 8216 and zero `b` at 8240 (the memory
`instance_mem`), the labels `i ↦ i`, learning rate `1/10`, and the empty arena of
capacity 1024 at 4096 with `ARENA_ALIGN = 8`. -/
theorem train_step_returns_loss_and_updates_witness :
    ∃ loss arena' m',
      softmax_regression_train_step Real.exp Real.log (2 ^ 3) (ml_arena.mk 4096 1024 0)
          instance_mem (Matrix.mk 2 3 (some 8192))
          (fun i => i) (Matrix.mk 3 2 (some 8216)) (Matrix.mk 1 2 (some 8240)) (1 / 10) =
        some (loss, arena', m') ∧
      loss = (∑ i in Finset.range 2,
        -Real.log (max (softmax_val Real.exp (fun j =>
          (∑ t in Finset.range 3, instance_mem (cell 8192 3 i t) * instance_mem (cell 8216 2 t
              j)) +
            instance_mem (cell 8240 2 0 j)) 2 ((fun i => i) i)) eps)) / ((2 : Nat) : ℝ) ∧
      (∀ d c, d < 3 → c < 2 →
        m' (cell 8216 2 d c) = instance_mem (cell 8216 2 d c) -
          (1 / 10) * ∑ i in Finset.range 2,
            instance_mem (cell 8192 3 i d) * dZ_val Real.exp instance_mem 8192 8216 8240 2 3 2
                (fun i => i) i c) ∧
      (∀ c, c < 2 →
        m' (cell 8240 2 0 c) = instance_mem (cell 8240 2 0 c) -
          (1 / 10) * ∑ i in Finset.range 2, dZ_val Real.exp instance_mem 8192 8216 8240 2 3 2
              (fun i => i) i c) ∧
      (∀ i c, i < 2 → c < 2 →
        dZ_val Real.exp instance_mem 8192 8216 8240 2 3 2 (fun i => i) i c =
          (softmax_val Real.exp (fun j =>
            (∑ t in Finset.range 3, instance_mem (cell 8192 3 i t) * instance_mem (cell 8216 2 t
                j)) +
              instance_mem (cell 8240 2 0 j)) 2 c - (if c = (fun i => i) i then 1 else 0)) / ((2
                  : Nat) : ℝ)) ∧
      (∀ i d, i < 2 → d < 3 → m' (cell 8192 3 i d) = instance_mem (cell 8192 3 i d)) :=
  train_step_returns_loss_and_updates Real.exp Real.log 3 (by decide)
    (ml_arena.mk 4096 1024 0) instance_mem 2 3 2 8192 8216 8240 (fun i => i) (1 / 10)
    (by decide) (by decide) (fun _ hi => hi)
    (by decide) (by decide) (by decide) (by decide) (by decide) (by decide) (by decide)
    (by decide) (by decide) (by decide) (by decide) (by decide) (by decide)

/-- C14: the end-to-end instance.  With `X = [[1,0,0],[0,1,0]]`, labels `[0,1]`, `W` the
`3 x 2` zero matrix, `b` the `1 x 2` zero row and learning rate `1/10`, stored at non-null
addresses outside the free part of an arena (at a non-null base) with room for two steps
and without overlapping each other, the first `softmax_regression_train_step` returns
`ln 2` (between 0.6931 and 0.6932), and a second call on the arena and memory the first
one left returns a strictly smaller loss (`f32` read as exact real arithmetic). -/
theorem second_step_lowers_loss (k : Nat) (hk : k < 64) (arena : ml_arena) (mem : Mem ℝ)
    (px pw pb : Nat) (labels : Nat → Nat) (hl0 : labels 0 = 0) (hl1 : labels 1 = 1)
    (hXv : ∀ i d, i < 2 → d < 3 → mem (cell px 3 i d) = if i = d then 1 else 0)
    (hWv : ∀ d c, d < 3 → c < 2 → mem (cell pw 2 d c) = 0)
    (hbv : ∀ c, c < 2 → mem (cell pb 2 0 c) = 0)
    (hbase : arena.base ≠ 0) (hpx : px ≠ 0) (hpw : pw ≠ 0) (hpb : pb ≠ 0)
    (hpos : arena.pos ≤ arena.capacity) (hcap : arena.capacity + 2 ^ k ≤ 2 ^ 64)
    (hroom : train_step_pos (2 ^ k) (train_step_pos (2 ^ k) arena.pos 2 3 2) 2 3 2 ≤
      arena.capacity)
    (hX : px + 4 * (2 * 3) ≤ arena.base + arena.pos ∨ arena.base + arena.capacity ≤ px)
    (hW : pw + 4 * (3 * 2) ≤ arena.base + arena.pos ∨ arena.base + arena.capacity ≤ pw)
    (hb : pb + 4 * (1 * 2) ≤ arena.base + arena.pos ∨ arena.base + arena.capacity ≤ pb)
    (hXW : px + 4 * (2 * 3) ≤ pw ∨ pw + 4 * (3 * 2) ≤ px)
    (hXb : px + 4 * (2 * 3) ≤ pb ∨ pb + 4 * (1 * 2) ≤ px)
    (hWb : pw + 4 * (3 * 2) ≤ pb ∨ pb + 4 * (1 * 2) ≤ pw) :
    ∃ loss1 arena1 m1 loss2 arena2 m2,
      softmax_regression_train_step Real.exp Real.log (2 ^ k) arena mem
          (Matrix.mk 2 3 (some px)) labels (Matrix.mk 3 2 (some pw)) (Matrix.mk 1 2 (some pb))
          (1 / 10) = some (loss1, arena1, m1) ∧
      softmax_regression_train_step Real.exp Real.log (2 ^ k) arena1 m1
          (Matrix.mk 2 3 (some px)) labels (Matrix.mk 3 2 (some pw)) (Matrix.mk 1 2 (some pb))
          (1 / 10) = some (loss2, arena2, m2) ∧
      loss1 = Real.log 2 ∧ (6931 : ℝ) / 10000 < loss1 ∧ loss1 < 6932 / 10000 ∧
      loss2 < loss1 := by
  have _h0 := hbase
  have _h1 := hpx
  have _h2 := hpw
  have _h3 := hpb
  obtain ⟨m1, m2, r1, r2, hlt⟩ := two_steps_ok k hk arena mem px pw pb labels hl0 hl1 hXv hWv
    hbv hpos hcap hroom hX hW hb hXW hXb hWb
  refine ⟨_, _, m1, _, _, m2, r1, r2, rfl, ?_, ?_, hlt⟩
  · have := Real.log_two_gt_d9
    linarith
  · have := Real.log_two_lt_d9
    linarith

/-- C14 (witness): the memory `instance_mem` (`X` at 8192, its two ones at the addresses
8192 and 8208, zero `W` at 8216, zero `b` at 8240), the labels `i ↦ i`, and the empty
arena of capacity 1024 at 4096 with `ARENA_ALIGN = 8`. -/
theorem second_step_lowers_loss_witness :
    ∃ loss1 arena1 m1 loss2 arena2 m2,
      softmax_regression_train_step Real.exp Real.log (2 ^ 3) (ml_arena.mk 4096 1024 0)
          instance_mem (Matrix.mk 2 3 (some 8192)) (fun i => i) (Matrix.mk 3 2 (some 8216))
          (Matrix.mk 1 2 (some 8240)) (1 / 10) = some (loss1, arena1, m1) ∧
      softmax_regression_train_step Real.exp Real.log (2 ^ 3) arena1 m1
          (Matrix.mk 2 3 (some 8192)) (fun i => i) (Matrix.mk 3 2 (some 8216))
          (Matrix.mk 1 2 (some 8240)) (1 / 10) = some (loss2, arena2, m2) ∧
      loss1 = Real.log 2 ∧ (6931 : ℝ) / 10000 < loss1 ∧ loss1 < 6932 / 10000 ∧
      loss2 < loss1 :=
  second_step_lowers_loss 3 (by decide) (ml_arena.mk 4096 1024 0) instance_mem
    8192 8216 8240 (fun i => i) rfl rfl
    (by
      intro i d hi hd
      interval_cases i <;> interval_cases d <;> simp [instance_mem, cell])
    (by
      intro d c _ _
      simp only [instance_mem, cell]
      rw [if_neg (by omega)])
    (by
      intro c _
      simp only [instance_mem, cell]
      rw [if_neg (by omega)])
    (by decide) (by decide) (by decide) (by decide)
    (by decide) (by decide) (by decide) (by decide) (by decide) (by decide) (by decide)
    (by decide) (by decide)

/-! ## softmax_xent_backward_inplace: the rejected call -/

/-- The first loop of the backward pass on a stored matrix whose first out-of-range label
is at row `k`: it ends with `INVALID_ELEMENT_TYPES`, having subtracted 1 from the labelled
entry of every row before `k` and nothing else. -/
theorem backward_onehot_loop_stops {α : Type} [One α] [Sub α] (mem : Mem α)
    (N C p k : Nat) (labels : Nat → Nat) (hfit : N * C < 2 ^ 64) (hk : k < N)
    (hbad : C ≤ labels k) (hmin : ∀ i, i < k → labels i < C) :
    ∃ m', forLoop N (backward_onehot_step (Matrix.mk N C (some p)) labels)
        ((none : Option LnaOpStatus), mem) =
          some (some LnaOpStatus.INVALID_ELEMENT_TYPES, m') ∧
      (∀ i j, i < N → j < C →
        m' (cell p C i j) =
          if i < k ∧ j = labels i then mem (cell p C i j) - 1 else mem (cell p C i j)) ∧
      (∀ x, (∀ i j, i < N → j < C → x ≠ cell p C i j) → m' x = mem x) := by
  obtain ⟨st, hst, hP⟩ := forLoop_inv
    (fun n (st : Option LnaOpStatus × Mem α) =>
      ((n ≤ k ∧ st.1 = none) ∨ (k < n ∧ st.1 = some LnaOpStatus.INVALID_ELEMENT_TYPES)) ∧
      (∀ i j, i < N → j < C →
        st.2 (cell p C i j) =
          if (i < k ∧ i < n) ∧ j = labels i then mem (cell p C i j) - 1
          else mem (cell p C i j)) ∧
      (∀ x, (∀ i j, i < N → j < C → x ≠ cell p C i j) → st.2 x = mem x))
    N (backward_onehot_step (Matrix.mk N C (some p)) labels) (none, mem)
    ⟨Or.inl ⟨Nat.zero_le _, rfl⟩,
      fun i j _ _ => by rw [if_neg (fun h => Nat.not_lt_zero _ h.1.2)], fun _ _ => rfl⟩
    (by
      intro n st hn hP
      obtain ⟨s, m⟩ := st
      obtain ⟨hs, hV, hF⟩ := hP
      simp only at hs hV hF
      rcases hs with ⟨hle, hs⟩ | ⟨hlt, hs⟩
      · subst hs
        by_cases hnk : n = k
        · subst hnk
          refine ⟨_, backward_onehot_step_bad _ labels n m hbad,
            Or.inr ⟨Nat.lt_succ_self n, rfl⟩, ?_, hF⟩
          intro i j hi hj
          show m (cell p C i j) = _
          rw [hV i j hi hj]
          by_cases hc : (i < n ∧ i < n) ∧ j = labels i
          · rw [if_pos hc, if_pos ⟨⟨hc.1.1, by omega⟩, hc.2⟩]
          · rw [if_neg hc, if_neg (fun h => hc ⟨⟨h.1.1, h.1.1⟩, h.2⟩)]
        · have hnlt : n < k := by omega
          have hl := hmin n hnlt
          have hcur : m (cell p C n (labels n)) = mem (cell p C n (labels n)) := by
            rw [hV n (labels n) hn hl, if_neg (fun h => Nat.lt_irrefl n h.1.2)]
          refine ⟨(none, Function.update m (cell p C n (labels n))
            (m (cell p C n (labels n)) - 1)), ?_, Or.inl ⟨hnlt, rfl⟩, ?_, ?_⟩
          · rw [backward_onehot_step_good _ labels n m hl, mget_cell m hn hl hfit,
              Option.some_bind, mset_cell m _ hn hl hfit]
            rfl
          · intro i j hi hj
            show Function.update m _ _ (cell p C i j) = _
            by_cases he : cell p C i j = cell p C n (labels n)
            · obtain ⟨e1, e2⟩ := cell_inj hj hl he
              subst e1
              subst e2
              rw [he, Function.update_same, hcur,
                if_pos ⟨⟨hnlt, Nat.lt_succ_self i⟩, rfl⟩]
            · rw [Function.update_noteq he, hV i j hi hj]
              by_cases hc : (i < k ∧ i < n) ∧ j = labels i
              · rw [if_pos hc, if_pos ⟨⟨hc.1.1, Nat.lt_succ_of_lt hc.1.2⟩, hc.2⟩]
              · rw [if_neg hc, if_neg]
                rintro ⟨⟨h1, h2⟩, h3⟩
                have hin : i = n := by
                  by_contra hne
                  exact hc ⟨⟨h1, by omega⟩, h3⟩
                subst hin
                subst h3
                exact he rfl
          · intro x hx
            show Function.update m _ _ x = _
            rw [Function.update_noteq (hx n (labels n) hn hl), hF x hx]
      · subst hs
        refine ⟨_, backward_onehot_step_done _ labels n _ m,
          Or.inr ⟨Nat.lt_succ_of_lt hlt, rfl⟩, ?_, hF⟩
        intro i j hi hj
        show m (cell p C i j) = _
        rw [hV i j hi hj]
        by_cases hc : (i < k ∧ i < n) ∧ j = labels i
        · rw [if_pos hc, if_pos ⟨⟨hc.1.1, Nat.lt_succ_of_lt hc.1.2⟩, hc.2⟩]
        · rw [if_neg hc, if_neg (fun h => hc ⟨⟨h.1.1, by omega⟩, h.2⟩)])
  obtain ⟨s, m⟩ := st
  obtain ⟨hs, hV, hF⟩ := hP
  simp only at hs hV hF
  rcases hs with ⟨hle, _⟩ | ⟨_, hs⟩
  · omega
  · subst hs
    refine ⟨m, hst, ?_, hF⟩
    intro i j hi hj
    rw [hV i j hi hj]
    by_cases hc : i < k ∧ j = labels i
    · rw [if_pos hc, if_pos ⟨⟨hc.1, hi⟩, hc.2⟩]
    · rw [if_neg hc, if_neg (fun h => hc ⟨h.1.1, h.2⟩)]

/-- C21: `softmax_xent_backward_inplace` is not atomic on failure.  On a stored `N x C`
matrix, if `k < N` is the smallest index with `labels[k] ≥ C`, the call returns
`INVALID_ELEMENT_TYPES` after having replaced entry `(i, labels[i])` of every row `i < k`
by its value minus 1, in the arithmetic of the element type; no `1/N` scaling is applied,
and every other entry and all memory outside the matrix are unchanged.  The matrix is
left exactly as it was if and only if `x - 1 = x` for each of these entries `x`: always
when `k = 0`, and only when `k = 0` if `x - 1 ≠ x` for them (as in exact arithmetic). -/
theorem backward_not_atomic_on_failure {α : Type} [One α] [Sub α] [Mul α] [Div α]
    [NatCast α] (mem : Mem α) (N C p k : Nat) (labels : Nat → Nat) (hfit : N * C < 2 ^ 64)
    (hk : k < N) (hbad : labels k ≥ C) (hmin : ∀ i, i < k → labels i < C) :
    ∃ m', softmax_xent_backward_inplace mem (Matrix.mk N C (some p)) labels =
        some (LnaOpStatus.INVALID_ELEMENT_TYPES, m') ∧
      (∀ i, i < k → m' (cell p C i (labels i)) = mem (cell p C i (labels i)) - 1) ∧
      (∀ i j, i < N → j < C → ¬ (i < k ∧ j = labels i) →
        m' (cell p C i j) = mem (cell p C i j)) ∧
      (∀ x, (∀ i j, i < N → j < C → x ≠ cell p C i j) → m' x = mem x) ∧
      ((∀ i j, i < N → j < C → m' (cell p C i j) = mem (cell p C i j)) ↔
        ∀ i, i < k → mem (cell p C i (labels i)) - 1 = mem (cell p C i (labels i))) ∧
      (k = 0 → ∀ i j, i < N → j < C → m' (cell p C i j) = mem (cell p C i j)) ∧
      ((∀ i, i < k → mem (cell p C i (labels i)) - 1 ≠ mem (cell p C i (labels i))) →
        ((∀ i j, i < N → j < C → m' (cell p C i j) = mem (cell p C i j)) ↔ k = 0)) := by
  obtain ⟨m', hm', hV, hF⟩ := backward_onehot_loop_stops mem N C p k labels hfit hk hbad hmin
  have hiff : (∀ i j, i < N → j < C → m' (cell p C i j) = mem (cell p C i j)) ↔
      ∀ i, i < k → mem (cell p C i (labels i)) - 1 = mem (cell p C i (labels i)) := by
    constructor
    · intro hall i hi
      have h1 := hV i (labels i) (by omega) (hmin i hi)
      rw [if_pos ⟨hi, rfl⟩, hall i (labels i) (by omega) (hmin i hi)] at h1
      exact h1.symm
    · intro hfix i j hi hj
      rw [hV i j hi hj]
      by_cases hc : i < k ∧ j = labels i
      · rw [if_pos hc]
        obtain ⟨hik, hjl⟩ := hc
        subst hjl
        exact hfix i hik
      · rw [if_neg hc]
  refine ⟨m', ?_, ?_, ?_, hF, hiff, ?_, ?_⟩
  · unfold softmax_xent_backward_inplace
    rw [hm']
    rfl
  · intro i hi
    rw [hV i (labels i) (by omega) (hmin i hi), if_pos ⟨hi, rfl⟩]
  · intro i j hi hj hc
    rw [hV i j hi hj, if_neg hc]
  · intro hk0
    exact hiff.mpr (fun i hi => by omega)
  · intro hne
    rw [hiff]
    constructor
    · intro hfix
      by_contra hk0
      exact hne 0 (Nat.pos_of_ne_zero hk0) (hfix 0 (Nat.pos_of_ne_zero hk0))
    · intro hk0 i hi
      omega

/-- C21 (witness): a stored 3 x 2 matrix of `f32`, every entry `0.5`, with the labels
0, 5, 1: the first bad label is at row `k = 1`. -/
theorem backward_not_atomic_on_failure_witness :
    ∃ m', softmax_xent_backward_inplace (fun _ => f32.mk 1 (-1)) (Matrix.mk 3 2 (some 8192))
        (fun i => if i = 0 then 0 else if i = 1 then 5 else 1) =
        some (LnaOpStatus.INVALID_ELEMENT_TYPES, m') ∧
      (∀ i, i < 1 →
        m' (cell 8192 2 i ((fun i => if i = 0 then 0 else if i = 1 then 5 else 1) i)) =
          (fun _ => f32.mk 1 (-1))
            (cell 8192 2 i ((fun i => if i = 0 then 0 else if i = 1 then 5 else 1) i)) - 1) ∧
      (∀ i j, i < 3 → j < 2 →
        ¬ (i < 1 ∧ j = (fun i => if i = 0 then 0 else if i = 1 then 5 else 1) i) →
        m' (cell 8192 2 i j) = (fun _ => f32.mk 1 (-1)) (cell 8192 2 i j)) ∧
      (∀ x, (∀ i j, i < 3 → j < 2 → x ≠ cell 8192 2 i j) →
        m' x = (fun _ => f32.mk 1 (-1)) x) ∧
      ((∀ i j, i < 3 → j < 2 →
          m' (cell 8192 2 i j) = (fun _ => f32.mk 1 (-1)) (cell 8192 2 i j)) ↔
        ∀ i, i < 1 →
          (fun _ => f32.mk 1 (-1))
              (cell 8192 2 i ((fun i => if i = 0 then 0 else if i = 1 then 5 else 1) i)) -
            1 =
          (fun _ => f32.mk 1 (-1))
            (cell 8192 2 i ((fun i => if i = 0 then 0 else if i = 1 then 5 else 1) i))) ∧
      (1 = 0 → ∀ i j, i < 3 → j < 2 →
        m' (cell 8192 2 i j) = (fun _ => f32.mk 1 (-1)) (cell 8192 2 i j)) ∧
      ((∀ i, i < 1 →
          (fun _ => f32.mk 1 (-1))
              (cell 8192 2 i ((fun i => if i = 0 then 0 else if i = 1 then 5 else 1) i)) -
            1 ≠
          (fun _ => f32.mk 1 (-1))
            (cell 8192 2 i ((fun i => if i = 0 then 0 else if i = 1 then 5 else 1) i))) →
        ((∀ i j, i < 3 → j < 2 →
          m' (cell 8192 2 i j) = (fun _ => f32.mk 1 (-1)) (cell 8192 2 i j)) ↔ 1 = 0)) :=
  backward_not_atomic_on_failure (fun _ => f32.mk 1 (-1)) 3 2 8192 1
    (fun i => if i = 0 then 0 else if i = 1 then 5 else 1) (by decide) (by decide)
    (by decide) (by decide)

/-- C21 (counterexample): in `f32`, `2^26 - 1.0f` rounds back to `2^26`.  On the stored
2 x 2 matrix whose entry `(0, 0)` is `2^26` (every other entry `0.5`) with the labels 0
and 5, the first bad label is at row `k = 1`, not 0; the call returns
`INVALID_ELEMENT_TYPES` and every entry of the matrix is exactly what it was. -/
theorem backward_rejected_leaves_large_entry :
    (f32.mk 1 26 - 1 : f32) = f32.mk 1 26 ∧
    (fun i => if i = 0 then 0 else 5) 1 ≥ 2 ∧
    (∀ i, i < 1 → (fun i => if i = 0 then 0 else 5) i < 2) ∧
    ∃ m', softmax_xent_backward_inplace
        (fun a => if a = 8192 then f32.mk 1 26 else f32.mk 1 (-1))
        (Matrix.mk 2 2 (some 8192)) (fun i => if i = 0 then 0 else 5) =
        some (LnaOpStatus.INVALID_ELEMENT_TYPES, m') ∧
      ∀ i j, i < 2 → j < 2 →
        m' (cell 8192 2 i j) =
          (fun a => if a = 8192 then f32.mk 1 26 else f32.mk 1 (-1)) (cell 8192 2 i j) := by
  have hsub : (f32.mk 1 26 - 1 : f32) = f32.mk 1 26 := by decide
  refine ⟨hsub, by decide, by decide, ?_⟩
  obtain ⟨m', hm', hV, _⟩ := backward_onehot_loop_stops
    (fun a => if a = 8192 then f32.mk 1 26 else f32.mk 1 (-1)) 2 2 8192 1
    (fun i => if i = 0 then 0 else 5) (by decide) (by decide) (by decide) (by decide)
  refine ⟨m', ?_, ?_⟩
  · unfold softmax_xent_backward_inplace
    rw [hm']
    rfl
  · intro i j hi hj
    rw [hV i j hi hj]
    by_cases hc : i < 1 ∧ j = (fun i => if i = 0 then 0 else 5) i
    · rw [if_pos hc]
      obtain ⟨hi1, hj1⟩ := hc
      have hi0 : i = 0 := by omega
      subst hi0
      have hj0 : j = 0 := hj1
      subst hj0
      show (if cell 8192 2 0 0 = 8192 then f32.mk 1 26 else f32.mk 1 (-1)) - 1 =
        if cell 8192 2 0 0 = 8192 then f32.mk 1 26 else f32.mk 1 (-1)
      rw [if_pos (by decide)]
      exact hsub
    · rw [if_neg hc]

/-! ## Calls that cannot fault -/

theorem forLoop_total {σ : Type} (n : Nat) (body : Nat → σ → Option σ) (init : σ)
    (h : ∀ i s, ∃ s', body i s = some s') : ∃ s', forLoop n body init = some s' := by
  obtain ⟨s', hs, _⟩ := forLoop_inv (fun _ _ => True) n body init trivial
    (fun i s _ _ => (h i s).imp fun _ hs => ⟨hs, trivial⟩)
  exact ⟨s', hs⟩

theorem exists_map_some {β γ : Type} (o : Option β) (g : β → γ) (h : ∃ b, o = some b) :
    ∃ b, o.map g = some (g b) := by
  obtain ⟨b, hb⟩ := h
  exact ⟨b, by rw [hb]; rfl⟩

theorem map_total {β γ : Type} (o : Option β) (g : β → γ) (h : ∃ b, o = some b) :
    ∃ c, o.map g = some c := by
  obtain ⟨b, hb⟩ := h
  exact ⟨g b, by rw [hb]; rfl⟩

theorem exists_bind_some {β γ : Type} (o : Option β) (g : β → Option γ)
    (h1 : ∃ b, o = some b) (h2 : ∀ b, ∃ c, g b = some c) : ∃ c, o.bind g = some c := by
  obtain ⟨b, hb⟩ := h1
  obtain ⟨c, hc⟩ := h2 b
  exact ⟨c, by rw [hb]; exact hc⟩

/-- With room in the arena, `Matrix_mut_Matrix` on stored operands allocates the output
and returns `LNA_OK`, wherever the operands lie. -/
theorem Matrix_mut_Matrix_runs {α : Type} [Zero α] [Add α] [Mul α] (k : Nat) (hk : k < 64)
    (arena : ml_arena) (mem : Mem α) (out : Matrix) (R K C pl pr : Nat)
    (hpos : arena.pos ≤ arena.capacity) (hcap : arena.capacity + 2 ^ k ≤ 2 ^ 64)
    (hroom : align_up arena.pos (2 ^ k) + 4 * (R * C) ≤ arena.capacity) :
    ∃ m', Matrix_mut_Matrix (2 ^ k) arena mem out (Matrix.mk R K (some pl))
          (Matrix.mk K C (some pr)) =
        some ⟨LnaOpStatus.LNA_OK,
          { arena with pos := align_up arena.pos (2 ^ k) + 4 * (R * C) },
          Matrix.mk R C (some (arena.base + align_up arena.pos (2 ^ k))), m'⟩ := by
  unfold Matrix_mut_Matrix
  rw [if_neg (fun h => h rfl), if_neg (by simp)]
  simp only [create_Matrix_ok k hk arena R C hpos hcap hroom]
  refine exists_map_some _ _ (forLoop_total _ _ _ ?_)
  intro i m
  refine forLoop_total _ _ _ ?_
  intro j m2
  refine exists_bind_some _ _ (forLoop_total _ _ _ ?_) ?_
  · intro t acc
    exact ⟨_, rfl⟩
  · intro acc
    exact ⟨_, rfl⟩

theorem softmax_row_total {α : Type} [LinearOrderedField α] (expf : α → α)
    (Ro Co po R C pl r : Nat) (mem : Mem α) :
    ∃ m', softmax_row expf (Matrix.mk Ro Co (some po)) (Matrix.mk R C (some pl)) r mem =
      some m' := by
  unfold softmax_row
  refine exists_bind_some _ _ ⟨_, rfl⟩ ?_
  intro m0
  refine exists_bind_some _ _ (forLoop_total _ _ _ ?_) ?_
  · intro j rm
    exact ⟨_, rfl⟩
  intro rm
  refine exists_bind_some _ _ (forLoop_total _ _ _ ?_) ?_
  · intro j st
    exact ⟨_, rfl⟩
  intro st
  refine forLoop_total _ _ _ ?_
  intro j m
  exact ⟨_, rfl⟩

/-- With room in the arena, `softmax` on stored logits allocates the output and returns
`LNA_OK`. -/
theorem softmax_runs {α : Type} [LinearOrderedField α] (expf : α → α) (k : Nat) (hk : k < 64)
    (arena : ml_arena) (mem : Mem α) (R C pl : Nat)
    (hpos : arena.pos ≤ arena.capacity) (hcap : arena.capacity + 2 ^ k ≤ 2 ^ 64)
    (hroom : align_up arena.pos (2 ^ k) + 4 * (R * C) ≤ arena.capacity) :
    ∃ m', softmax expf (2 ^ k) arena mem (Matrix.mk R C (some pl)) =
        some ⟨LnaOpStatus.LNA_OK,
          { arena with pos := align_up arena.pos (2 ^ k) + 4 * (R * C) },
          Matrix.mk R C (some (arena.base + align_up arena.pos (2 ^ k))), m'⟩ := by
  unfold softmax
  simp only [create_Matrix_ok k hk arena R C hpos hcap hroom]
  refine exists_map_some _ _ (forLoop_total _ _ _ ?_)
  intro i m
  exact softmax_row_total expf _ _ _ _ _ _ i m

theorem add_bias_rowwise_inplace_total {α : Type} [Add α] (mem : Mem α)
    (R C pl rb cb pb : Nat) :
    ∃ r, add_bias_rowwise_inplace mem (Matrix.mk R C (some pl)) (Matrix.mk rb cb (some pb)) =
      some r := by
  unfold add_bias_rowwise_inplace
  by_cases h : rb ≠ 1 ∨ cb ≠ C
  · rw [if_pos h]
    exact ⟨_, rfl⟩
  · rw [if_neg h]
    refine map_total _ _ (forLoop_total _ _ _ ?_)
    intro i m
    refine forLoop_total _ _ _ ?_
    intro j m2
    exact ⟨_, rfl⟩

theorem cross_entropy_total {α : Type} [LinearOrderedField α] (logf : α → α) (mem : Mem α)
    (N C p : Nat) (labels : Nat → Nat) :
    ∃ loss, cross_entropy logf mem (Matrix.mk N C (some p)) labels = some loss := by
  unfold cross_entropy
  refine map_total _ _ (forLoop_total _ _ _ ?_)
  intro i loss
  exact ⟨_, rfl⟩

theorem softmax_xent_backward_inplace_total {α : Type} [LinearOrderedField α] (mem : Mem α)
    (N C p : Nat) (labels : Nat → Nat) :
    ∃ r, softmax_xent_backward_inplace mem (Matrix.mk N C (some p)) labels = some r := by
  obtain ⟨st, hst, _⟩ := backward_onehot_loop_status N C p labels mem
  obtain ⟨s, m⟩ := st
  unfold softmax_xent_backward_inplace
  rw [hst, Option.some_bind]
  cases s with
  | some status => exact ⟨_, rfl⟩
  | none => exact map_total _ _ (backward_scale_loop_some N C p _ m)

/-- With room in the arena, `Matrix_transpose` on a stored target allocates the output
and returns `LNA_OK`. -/
theorem Matrix_transpose_runs {α : Type} (k : Nat) (hk : k < 64) (arena : ml_arena)
    (mem : Mem α) (out : Matrix) (R C pt : Nat)
    (hpos : arena.pos ≤ arena.capacity) (hcap : arena.capacity + 2 ^ k ≤ 2 ^ 64)
    (hroom : align_up arena.pos (2 ^ k) + 4 * (C * R) ≤ arena.capacity) :
    ∃ m', Matrix_transpose (2 ^ k) (some arena) mem out (Matrix.mk R C (some pt)) =
        some ⟨LnaOpStatus.LNA_OK,
          some { arena with pos := align_up arena.pos (2 ^ k) + 4 * (C * R) },
          Matrix.mk C R (some (arena.base + align_up arena.pos (2 ^ k))), m'⟩ := by
  unfold Matrix_transpose
  simp only
  rw [if_neg (by simp)]
  simp only [create_Matrix_ok k hk arena C R hpos hcap hroom]
  unfold transpose_loop
  refine exists_map_some _ _ (forLoop_total _ _ _ ?_)
  intro i m
  refine forLoop_total _ _ _ ?_
  intro j m2
  exact ⟨_, rfl⟩

/-- With room in the arena, `sum_rows` on a stored matrix allocates the one-row output
and returns `LNA_OK`. -/
theorem sum_rows_runs {α : Type} [Zero α] [Add α] (k : Nat) (hk : k < 64) (arena : ml_arena)
    (mem : Mem α) (N C pm : Nat)
    (hpos : arena.pos ≤ arena.capacity) (hcap : arena.capacity + 2 ^ k ≤ 2 ^ 64)
    (hroom : align_up arena.pos (2 ^ k) + 4 * (1 * C) ≤ arena.capacity) :
    ∃ m', sum_rows (2 ^ k) arena mem (Matrix.mk N C (some pm)) =
        some ⟨LnaOpStatus.LNA_OK,
          { arena with pos := align_up arena.pos (2 ^ k) + 4 * (1 * C) },
          Matrix.mk 1 C (some (arena.base + align_up arena.pos (2 ^ k))), m'⟩ := by
  unfold sum_rows
  simp only [create_Matrix_ok k hk arena 1 C hpos hcap hroom]
  refine exists_map_some _ _ (exists_bind_some _ _ (forLoop_total _ _ _ ?_) ?_)
  · intro j m
    exact ⟨_, rfl⟩
  · intro z
    refine forLoop_total _ _ _ ?_
    intro i m
    refine forLoop_total _ _ _ ?_
    intro j m2
    exact ⟨_, rfl⟩

theorem Matrix_mut_Scalar_total {α : Type} [Mul α] (mem : Mem α) (R C p : Nat) (s : α) :
    ∃ r, Matrix_mut_Scalar mem (Matrix.mk R C (some p)) s = some r := by
  unfold Matrix_mut_Scalar scalar_loop
  rw [if_neg (by simp)]
  refine map_total _ _ (forLoop_total _ _ _ ?_)
  intro i m
  refine forLoop_total _ _ _ ?_
  intro j m2
  exact ⟨_, rfl⟩

theorem Matrix_minus_Matrix_inplace_total {α : Type} [Sub α] (mem : Mem α)
    (Rl Cl pl Rr Cr pr : Nat) :
    ∃ r, Matrix_minus_Matrix_inplace mem (Matrix.mk Rl Cl (some pl))
      (Matrix.mk Rr Cr (some pr)) = some r := by
  unfold Matrix_minus_Matrix_inplace
  by_cases h1 : Cl ≠ Cr
  · rw [if_pos h1]
    exact ⟨_, rfl⟩
  rw [if_neg h1]
  by_cases h2 : Rl ≠ Rr
  · rw [if_pos h2]
    exact ⟨_, rfl⟩
  rw [if_neg h2, if_neg (by simp)]
  refine map_total _ _ (forLoop_total _ _ _ ?_)
  intro i m
  refine forLoop_total _ _ _ ?_
  intro j m2
  exact ⟨_, rfl⟩

/-! ## The arena across one training step -/

theorem le_foldl_pos_after (al : Nat) (hal : 0 < al) (sizes : List Nat) :
    ∀ pos, pos ≤ sizes.foldl (pos_after al) pos := by
  induction sizes with
  | nil => intro pos; exact Nat.le_refl _
  | cons s rest ih =>
    intro pos
    have h1 := le_align_up pos al hal
    have h2 : pos_after al pos s ≤ rest.foldl (pos_after al) (pos_after al pos s) :=
      ih (pos_after al pos s)
    have h3 : pos_after al pos s = align_up pos al + s := rfl
    show pos ≤ rest.foldl (pos_after al) (pos_after al pos s)
    omega

/-- With room for all of them and no wrap-around, successive pushes each succeed at the
aligned position. -/
theorem push_all_of_room (k : Nat) (hk : k < 64) (sizes : List Nat) :
    ∀ arena : ml_arena, arena.pos ≤ arena.capacity → arena.capacity + 2 ^ k ≤ 2 ^ 64 →
      sizes.foldl (pos_after (2 ^ k)) arena.pos ≤ arena.capacity →
      push_all (2 ^ k) arena sizes =
        (aligned_regions (2 ^ k) arena.pos sizes,
          { arena with pos := sizes.foldl (pos_after (2 ^ k)) arena.pos }) := by
  induction sizes with
  | nil => intro arena _ _ _; rfl
  | cons s rest ih =>
    intro arena hpos hcap hroom
    have hp : 0 < 2 ^ k := Nat.two_pow_pos k
    have hm := le_foldl_pos_after (2 ^ k) hp rest (pos_after (2 ^ k) arena.pos s)
    have hroom' : rest.foldl (pos_after (2 ^ k)) (pos_after (2 ^ k) arena.pos s) ≤
        arena.capacity := hroom
    have h3 : pos_after (2 ^ k) arena.pos s = align_up arena.pos (2 ^ k) + s := rfl
    have hpush : push_ml_arena (2 ^ k) arena s =
        (some (arena.base + align_up arena.pos (2 ^ k)),
          { arena with pos := align_up arena.pos (2 ^ k) + s }) := by
      rw [push_ml_arena_no_wrap k hk arena s hpos hcap, if_neg (by omega)]
    have hrec := ih { arena with pos := align_up arena.pos (2 ^ k) + s }
      (show align_up arena.pos (2 ^ k) + s ≤ arena.capacity by omega) hcap hroom'
    rw [push_all, hpush, hrec]
    show ([(arena.base + align_up arena.pos (2 ^ k) - arena.base, s)] ++ _, _) = _
    rw [Nat.add_sub_cancel_left]
    rfl

/-- One training step on stored `X`, `W` and `b` with room in the arena for the seven
allocations returns, whatever the labels and wherever the operands lie, and leaves the
arena at the position of the seventh allocation. -/
theorem train_step_runs {α : Type} [LinearOrderedField α] (expf logf : α → α) (k : Nat)
    (hk : k < 64) (arena : ml_arena) (mem : Mem α) (N D C px pw rb cb pb : Nat)
    (labels : Nat → Nat) (lr : α)
    (hpos : arena.pos ≤ arena.capacity) (hcap : arena.capacity + 2 ^ k ≤ 2 ^ 64)
    (hroom : train_step_pos (2 ^ k) arena.pos N D C ≤ arena.capacity) :
    ∃ loss m', softmax_regression_train_step expf logf (2 ^ k) arena mem
          (Matrix.mk N D (some px)) labels (Matrix.mk D C (some pw))
          (Matrix.mk rb cb (some pb)) lr =
        some (loss, { arena with pos := train_step_pos (2 ^ k) arena.pos N D C }, m') := by
  obtain ⟨base, cap, pos⟩ := arena
  dsimp only at hpos hcap hroom ⊢
  unfold train_step_pos pos_after at hroom ⊢
  have hp : 0 < 2 ^ k := Nat.two_pow_pos k
  obtain ⟨A1, e1⟩ : ∃ A, A = align_up pos (2 ^ k) := ⟨_, rfl⟩
  rw [← e1] at hroom ⊢
  have l1 : pos ≤ A1 := by rw [e1]; exact le_align_up _ _ hp
  obtain ⟨A2, e2⟩ : ∃ A, A = align_up (A1 + 4 * (N * C)) (2 ^ k) := ⟨_, rfl⟩
  rw [← e2] at hroom ⊢
  have l2 : A1 + 4 * (N * C) ≤ A2 := by rw [e2]; exact le_align_up _ _ hp
  obtain ⟨A3, e3⟩ : ∃ A, A = align_up (A2 + 4 * (N * C)) (2 ^ k) := ⟨_, rfl⟩
  rw [← e3] at hroom ⊢
  have l3 : A2 + 4 * (N * C) ≤ A3 := by rw [e3]; exact le_align_up _ _ hp
  obtain ⟨A4, e4⟩ : ∃ A, A = align_up (A3 + 4 * (N * C)) (2 ^ k) := ⟨_, rfl⟩
  rw [← e4] at hroom ⊢
  have l4 : A3 + 4 * (N * C) ≤ A4 := by rw [e4]; exact le_align_up _ _ hp
  obtain ⟨A5, e5⟩ : ∃ A, A = align_up (A4 + 4 * (D * N)) (2 ^ k) := ⟨_, rfl⟩
  rw [← e5] at hroom ⊢
  have l5 : A4 + 4 * (D * N) ≤ A5 := by rw [e5]; exact le_align_up _ _ hp
  obtain ⟨A6, e6⟩ : ∃ A, A = align_up (A5 + 4 * (D * C)) (2 ^ k) := ⟨_, rfl⟩
  rw [← e6] at hroom ⊢
  have l6 : A5 + 4 * (D * C) ≤ A6 := by rw [e6]; exact le_align_up _ _ hp
  obtain ⟨A7, e7⟩ : ∃ A, A = align_up (A6 + 4 * (D * C)) (2 ^ k) := ⟨_, rfl⟩
  rw [← e7] at hroom ⊢
  have l7 : A6 + 4 * (D * C) ≤ A7 := by rw [e7]; exact le_align_up _ _ hp
  have hc1 := create_Matrix_ok k hk (ml_arena.mk base cap pos) N C hpos hcap
    (by simp only [← e1]; omega)
  simp only [← e1] at hc1
  have h := Matrix_mut_Matrix_runs k hk (ml_arena.mk base cap (A1 + 4 * (N * C))) mem
    (Matrix.mk N C (some (base + A1))) N D C px pw (by dsimp only; omega) hcap
    (by simp only [← e2]; omega)
  simp only [← e2] at h
  obtain ⟨m1, h1⟩ := h
  obtain ⟨s2, h2⟩ := add_bias_rowwise_inplace_total m1 N C (base + A2) rb cb pb
  have h := softmax_runs expf k hk (ml_arena.mk base cap (A2 + 4 * (N * C))) s2.2 N C
    (base + A2) (by dsimp only; omega) hcap (by simp only [← e3]; omega)
  simp only [← e3] at h
  obtain ⟨m3, h3⟩ := h
  obtain ⟨loss, hloss⟩ := cross_entropy_total logf m3 N C (base + A3) labels
  obtain ⟨s5, h5⟩ := softmax_xent_backward_inplace_total m3 N C (base + A3) labels
  have h := Matrix_transpose_runs k hk (ml_arena.mk base cap (A3 + 4 * (N * C))) s5.2
    (Matrix.mk 0 0 none) N D px (by dsimp only; omega) hcap (by simp only [← e4]; omega)
  simp only [← e4] at h
  obtain ⟨m6, h6⟩ := h
  have hc7 := create_Matrix_ok k hk (ml_arena.mk base cap (A4 + 4 * (D * N))) D C
    (by dsimp only; omega) hcap (by simp only [← e5]; omega)
  simp only [← e5] at hc7
  have h := Matrix_mut_Matrix_runs k hk (ml_arena.mk base cap (A5 + 4 * (D * C))) m6
    (Matrix.mk D C (some (base + A5))) D N C (base + A4) (base + A3)
    (by dsimp only; omega) hcap (by simp only [← e6]; omega)
  simp only [← e6] at h
  obtain ⟨m8, h8⟩ := h
  have h := sum_rows_runs k hk (ml_arena.mk base cap (A6 + 4 * (D * C))) m8 N C (base + A3)
    (by dsimp only; omega) hcap (by simp only [← e7]; omega)
  simp only [← e7] at h
  obtain ⟨m9, h9⟩ := h
  obtain ⟨s10, h10⟩ := Matrix_mut_Scalar_total m9 D C (base + A6) lr
  obtain ⟨s11, h11⟩ := Matrix_minus_Matrix_inplace_total s10.2 D C pw D C (base + A6)
  obtain ⟨s12, h12⟩ := Matrix_mut_Scalar_total s11.2 1 C (base + A7) lr
  obtain ⟨s13, h13⟩ := Matrix_minus_Matrix_inplace_total s12.2 rb cb pb 1 C (base + A7)
  refine ⟨loss, s13.2, ?_⟩
  unfold softmax_regression_train_step
  simp only [hc1, h1, h2, h3, hloss, h5, h6, hc7, h8, h9, h10, h11, h12, h13,
    Option.some_bind, ne_eq, not_true_eq_false, if_false]

/-! ## The record of pushes -/

theorem create_Matrix_logged_ok (k : Nat) (hk : k < 64) (la : logged_arena)
    (rows cols : Nat)
    (hpos : la.arena.pos ≤ la.arena.capacity) (hcap : la.arena.capacity + 2 ^ k ≤ 2 ^ 64)
    (hroom : align_up la.arena.pos (2 ^ k) + 4 * (rows * cols) ≤ la.arena.capacity) :
    create_Matrix_logged (2 ^ k) la rows cols =
      ({ arena := { la.arena with pos := align_up la.arena.pos (2 ^ k) + 4 * (rows * cols) },
         pushes := la.pushes ++
           [(some (la.arena.base + align_up la.arena.pos (2 ^ k)), 4 * (rows * cols))] },
        { rows := rows, cols := cols,
          data := some (la.arena.base + align_up la.arena.pos (2 ^ k)) }) := by
  have hp : 0 < 2 ^ k := Nat.two_pow_pos k
  have hsize : u64_mul (u64_mul rows cols) 4 = 4 * (rows * cols) := by
    rw [u64_mul_of_lt (show rows * cols < 2 ^ 64 by omega),
      u64_mul_of_lt (show rows * cols * 4 < 2 ^ 64 by omega), Nat.mul_comm]
  have hpush : push_ml_arena (2 ^ k) la.arena (4 * (rows * cols)) =
      (some (la.arena.base + align_up la.arena.pos (2 ^ k)),
        { la.arena with pos := align_up la.arena.pos (2 ^ k) + 4 * (rows * cols) }) := by
    rw [push_ml_arena_no_wrap k hk la.arena _ hpos hcap, if_neg (by omega)]
  unfold create_Matrix_logged push_ml_arena_logged
  rw [hsize, hpush]

/-- Forgetting the record, `Matrix_mut_Matrix_logged` is `Matrix_mut_Matrix`. -/
theorem Matrix_mut_Matrix_logged_erase {α : Type} [Zero α] [Add α] [Mul α]
    (ARENA_ALIGN : Nat) (la : logged_arena) (mem : Mem α) (out lhs rhs : Matrix) :
    (Matrix_mut_Matrix_logged ARENA_ALIGN la mem out lhs rhs).map LoggedOutcome.erase =
      Matrix_mut_Matrix ARENA_ALIGN la.arena mem out lhs rhs := by
  unfold Matrix_mut_Matrix_logged Matrix_mut_Matrix
  by_cases h1 : lhs.cols ≠ rhs.rows
  · rw [if_pos h1, if_pos h1]
    rfl
  · rw [if_neg h1, if_neg h1]
    by_cases h2 : lhs.data = none ∨ rhs.data = none
    · rw [if_pos h2, if_pos h2]
      rfl
    · rw [if_neg h2, if_neg h2, Option.map_map]
      rfl

/-- Forgetting the record, `softmax_logged` is `softmax`. -/
theorem softmax_logged_erase {α : Type} [LinearOrderedField α] (expf : α → α)
    (ARENA_ALIGN : Nat) (la : logged_arena) (mem : Mem α) (logits : Matrix) :
    (softmax_logged expf ARENA_ALIGN la mem logits).map LoggedOutcome.erase =
      softmax expf ARENA_ALIGN la.arena mem logits := by
  unfold softmax_logged softmax
  rw [Option.map_map]
  rfl

/-- Forgetting the record, `sum_rows_logged` is `sum_rows`. -/
theorem sum_rows_logged_erase {α : Type} [Zero α] [Add α] (ARENA_ALIGN : Nat)
    (la : logged_arena) (mem : Mem α) (m : Matrix) :
    (sum_rows_logged ARENA_ALIGN la mem m).map LoggedOutcome.erase =
      sum_rows ARENA_ALIGN la.arena mem m := by
  unfold sum_rows_logged sum_rows
  rw [Option.map_map]
  rfl

/-- Forgetting the record, `Matrix_transpose_logged` is `Matrix_transpose`. -/
theorem Matrix_transpose_logged_erase {α : Type} (ARENA_ALIGN : Nat)
    (la : Option logged_arena) (mem : Mem α) (out target : Matrix) :
    (Matrix_transpose_logged ARENA_ALIGN la mem out target).map
        LoggedTransposeOutcome.erase =
      Matrix_transpose ARENA_ALIGN (la.map fun a => a.arena) mem out target := by
  unfold Matrix_transpose_logged Matrix_transpose
  cases la with
  | none => rfl
  | some a =>
    simp only [Option.map_some']
    by_cases h : target.data = none
    · rw [if_pos h, if_pos h]
      rfl
    · rw [if_neg h, if_neg h, Option.map_map]
      rfl

theorem bind_map_erase {β β' γ γ' : Type} (o : Option β) (o' : Option β') (e : β → β')
    (f : β → Option γ) (f' : β' → Option γ') (g : γ → γ') (ho : o.map e = o')
    (h : ∀ x, (f x).map g = f' (e x)) : (o.bind f).map g = o'.bind f' := by
  subst ho
  cases o with
  | none => rfl
  | some x => exact h x

theorem bind_map_same {β γ γ' : Type} (o : Option β) (f : β → Option γ)
    (f' : β → Option γ') (g : γ → γ') (h : ∀ x, (f x).map g = f' x) :
    (o.bind f).map g = o.bind f' := by
  cases o with
  | none => rfl
  | some x => exact h x

/-- Forgetting the record, `softmax_regression_train_step_logged` is
`softmax_regression_train_step`, on every input. -/
theorem softmax_regression_train_step_logged_erase {α : Type} [LinearOrderedField α]
    (expf logf : α → α) (ARENA_ALIGN : Nat) (la : logged_arena) (mem : Mem α) (X : Matrix)
    (labels : Nat → Nat) (W b : Matrix) (learning_rate : α) :
    (softmax_regression_train_step_logged expf logf ARENA_ALIGN la mem X labels W b
        learning_rate).map (fun r => (r.1, r.2.1.arena, r.2.2)) =
      softmax_regression_train_step expf logf ARENA_ALIGN la.arena mem X labels W b
        learning_rate := by
  unfold softmax_regression_train_step_logged softmax_regression_train_step
  refine bind_map_erase _ _ LoggedOutcome.erase _ _ _
    (Matrix_mut_Matrix_logged_erase ARENA_ALIGN _ mem _ X W) (fun logits => ?_)
  refine bind_map_same _ _ _ _ (fun biased => ?_)
  refine bind_map_erase _ _ LoggedOutcome.erase _ _ _
    (softmax_logged_erase expf ARENA_ALIGN _ _ _) (fun probs => ?_)
  refine bind_map_same _ _ _ _ (fun loss => ?_)
  refine bind_map_same _ _ _ _ (fun dZ => ?_)
  refine bind_map_erase _ _ LoggedTransposeOutcome.erase _ _ _
    (Matrix_transpose_logged_erase ARENA_ALIGN (some probs.arena) _ _ X) (fun Xt => ?_)
  show (if Xt.status ≠ LnaOpStatus.LNA_OK then none else _).map _ =
    if Xt.status ≠ LnaOpStatus.LNA_OK then none else _
  by_cases hs : Xt.status ≠ LnaOpStatus.LNA_OK
  · rw [if_pos hs, if_pos hs]
    rfl
  · rw [if_neg hs, if_neg hs]
    refine bind_map_erase Xt.arena _ (fun a : logged_arena => a.arena) _ _ _ rfl
      (fun arena_t => ?_)
    refine bind_map_erase _ _ LoggedOutcome.erase _ _ _
      (Matrix_mut_Matrix_logged_erase ARENA_ALIGN _ _ _ _ _) (fun dW => ?_)
    refine bind_map_erase _ _ LoggedOutcome.erase _ _ _
      (sum_rows_logged_erase ARENA_ALIGN _ _ _) (fun db => ?_)
    refine bind_map_same _ _ _ _ (fun dWs => ?_)
    refine bind_map_same _ _ _ _ (fun Wn => ?_)
    refine bind_map_same _ _ _ _ (fun dbs => ?_)
    refine bind_map_same _ _ _ _ (fun bn => ?_)
    rfl

theorem Matrix_mut_Matrix_logged_runs {α : Type} [Zero α] [Add α] [Mul α] (k : Nat)
    (hk : k < 64) (la : logged_arena) (mem : Mem α) (out : Matrix) (R K C pl pr : Nat)
    (hpos : la.arena.pos ≤ la.arena.capacity) (hcap : la.arena.capacity + 2 ^ k ≤ 2 ^ 64)
    (hroom : align_up la.arena.pos (2 ^ k) + 4 * (R * C) ≤ la.arena.capacity) :
    ∃ m', Matrix_mut_Matrix_logged (2 ^ k) la mem out (Matrix.mk R K (some pl))
          (Matrix.mk K C (some pr)) =
        some ⟨LnaOpStatus.LNA_OK,
          { arena := { la.arena with pos := align_up la.arena.pos (2 ^ k) + 4 * (R * C) },
            pushes := la.pushes ++
              [(some (la.arena.base + align_up la.arena.pos (2 ^ k)), 4 * (R * C))] },
          Matrix.mk R C (some (la.arena.base + align_up la.arena.pos (2 ^ k))), m'⟩ := by
  unfold Matrix_mut_Matrix_logged
  rw [if_neg (fun h => h rfl), if_neg (by simp)]
  simp only [create_Matrix_logged_ok k hk la R C hpos hcap hroom]
  refine exists_map_some _ _ (forLoop_total _ _ _ ?_)
  intro i m
  refine forLoop_total _ _ _ ?_
  intro j m2
  refine exists_bind_some _ _ (forLoop_total _ _ _ ?_) ?_
  · intro t acc
    exact ⟨_, rfl⟩
  · intro acc
    exact ⟨_, rfl⟩

theorem softmax_logged_runs {α : Type} [LinearOrderedField α] (expf : α → α) (k : Nat)
    (hk : k < 64) (la : logged_arena) (mem : Mem α) (R C pl : Nat)
    (hpos : la.arena.pos ≤ la.arena.capacity) (hcap : la.arena.capacity + 2 ^ k ≤ 2 ^ 64)
    (hroom : align_up la.arena.pos (2 ^ k) + 4 * (R * C) ≤ la.arena.capacity) :
    ∃ m', softmax_logged expf (2 ^ k) la mem (Matrix.mk R C (some pl)) =
        some ⟨LnaOpStatus.LNA_OK,
          { arena := { la.arena with pos := align_up la.arena.pos (2 ^ k) + 4 * (R * C) },
            pushes := la.pushes ++
              [(some (la.arena.base + align_up la.arena.pos (2 ^ k)), 4 * (R * C))] },
          Matrix.mk R C (some (la.arena.base + align_up la.arena.pos (2 ^ k))), m'⟩ := by
  unfold softmax_logged
  simp only [create_Matrix_logged_ok k hk la R C hpos hcap hroom]
  refine exists_map_some _ _ (forLoop_total _ _ _ ?_)
  intro i m
  exact softmax_row_total expf _ _ _ _ _ _ i m

theorem Matrix_transpose_logged_runs {α : Type} (k : Nat) (hk : k < 64) (la : logged_arena)
    (mem : Mem α) (out : Matrix) (R C pt : Nat)
    (hpos : la.arena.pos ≤ la.arena.capacity) (hcap : la.arena.capacity + 2 ^ k ≤ 2 ^ 64)
    (hroom : align_up la.arena.pos (2 ^ k) + 4 * (C * R) ≤ la.arena.capacity) :
    ∃ m', Matrix_transpose_logged (2 ^ k) (some la) mem out (Matrix.mk R C (some pt)) =
        some ⟨LnaOpStatus.LNA_OK,
          some { arena := { la.arena with
                   pos := align_up la.arena.pos (2 ^ k) + 4 * (C * R) },
                 pushes := la.pushes ++
                   [(some (la.arena.base + align_up la.arena.pos (2 ^ k)), 4 * (C * R))] },
          Matrix.mk C R (some (la.arena.base + align_up la.arena.pos (2 ^ k))), m'⟩ := by
  unfold Matrix_transpose_logged
  simp only
  rw [if_neg (by simp)]
  simp only [create_Matrix_logged_ok k hk la C R hpos hcap hroom]
  unfold transpose_loop
  refine exists_map_some _ _ (forLoop_total _ _ _ ?_)
  intro i m
  refine forLoop_total _ _ _ ?_
  intro j m2
  exact ⟨_, rfl⟩

theorem sum_rows_logged_runs {α : Type} [Zero α] [Add α] (k : Nat) (hk : k < 64)
    (la : logged_arena) (mem : Mem α) (N C pm : Nat)
    (hpos : la.arena.pos ≤ la.arena.capacity) (hcap : la.arena.capacity + 2 ^ k ≤ 2 ^ 64)
    (hroom : align_up la.arena.pos (2 ^ k) + 4 * (1 * C) ≤ la.arena.capacity) :
    ∃ m', sum_rows_logged (2 ^ k) la mem (Matrix.mk N C (some pm)) =
        some ⟨LnaOpStatus.LNA_OK,
          { arena := { la.arena with pos := align_up la.arena.pos (2 ^ k) + 4 * (1 * C) },
            pushes := la.pushes ++
              [(some (la.arena.base + align_up la.arena.pos (2 ^ k)), 4 * (1 * C))] },
          Matrix.mk 1 C (some (la.arena.base + align_up la.arena.pos (2 ^ k))), m'⟩ := by
  unfold sum_rows_logged
  simp only [create_Matrix_logged_ok k hk la 1 C hpos hcap hroom]
  refine exists_map_some _ _ (exists_bind_some _ _ (forLoop_total _ _ _ ?_) ?_)
  · intro j m
    exact ⟨_, rfl⟩
  · intro z
    refine forLoop_total _ _ _ ?_
    intro i m
    refine forLoop_total _ _ _ ?_
    intro j m2
    exact ⟨_, rfl⟩

/-- One training step on a logged arena with no pushes yet, on stored `X`, `W` and `b`
with room for the seven allocations: it returns, and the record holds the seven pushes. -/
theorem train_step_logged_runs {α : Type} [LinearOrderedField α] (expf logf : α → α)
    (k : Nat) (hk : k < 64) (arena : ml_arena) (mem : Mem α)
    (N D C px pw rb cb pb : Nat) (labels : Nat → Nat) (lr : α)
    (hpos : arena.pos ≤ arena.capacity) (hcap : arena.capacity + 2 ^ k ≤ 2 ^ 64)
    (hroom : train_step_pos (2 ^ k) arena.pos N D C ≤ arena.capacity) :
    ∃ loss m', softmax_regression_train_step_logged expf logf (2 ^ k)
          (logged_arena.mk arena []) mem (Matrix.mk N D (some px)) labels
          (Matrix.mk D C (some pw)) (Matrix.mk rb cb (some pb)) lr =
        some (loss,
          logged_arena.mk { arena with pos := train_step_pos (2 ^ k) arena.pos N D C }
            (expected_pushes (2 ^ k) arena.base arena.pos (train_step_sizes N D C)),
          m') := by
  obtain ⟨base, cap, pos⟩ := arena
  have hexp : expected_pushes (2 ^ k) base pos (train_step_sizes N D C) =
      [(some (base + align_up pos (2 ^ k)), 4 * (N * C)),
        (some (base + align_up (pos_after (2 ^ k) pos (4 * (N * C))) (2 ^ k)), 4 * (N * C)),
        (some (base + align_up (pos_after (2 ^ k) (pos_after (2 ^ k) pos (4 * (N * C)))
          (4 * (N * C))) (2 ^ k)), 4 * (N * C)),
        (some (base + align_up (pos_after (2 ^ k) (pos_after (2 ^ k)
          (pos_after (2 ^ k) pos (4 * (N * C))) (4 * (N * C))) (4 * (N * C))) (2 ^ k)),
          4 * (D * N)),
        (some (base + align_up (pos_after (2 ^ k) (pos_after (2 ^ k) (pos_after (2 ^ k)
          (pos_after (2 ^ k) pos (4 * (N * C))) (4 * (N * C))) (4 * (N * C)))
          (4 * (D * N))) (2 ^ k)), 4 * (D * C)),
        (some (base + align_up (pos_after (2 ^ k) (pos_after (2 ^ k) (pos_after (2 ^ k)
          (pos_after (2 ^ k) (pos_after (2 ^ k) pos (4 * (N * C))) (4 * (N * C)))
          (4 * (N * C))) (4 * (D * N))) (4 * (D * C))) (2 ^ k)), 4 * (D * C)),
        (some (base + align_up (pos_after (2 ^ k) (pos_after (2 ^ k) (pos_after (2 ^ k)
          (pos_after (2 ^ k) (pos_after (2 ^ k) (pos_after (2 ^ k) pos (4 * (N * C)))
          (4 * (N * C))) (4 * (N * C))) (4 * (D * N))) (4 * (D * C))) (4 * (D * C)))
          (2 ^ k)), 4 * (1 * C))] := by
    rw [Nat.one_mul]
    rfl
  rw [hexp]
  dsimp only at hpos hcap hroom ⊢
  unfold train_step_pos pos_after at hroom ⊢
  have hp : 0 < 2 ^ k := Nat.two_pow_pos k
  obtain ⟨A1, e1⟩ : ∃ A, A = align_up pos (2 ^ k) := ⟨_, rfl⟩
  rw [← e1] at hroom ⊢
  have l1 : pos ≤ A1 := by rw [e1]; exact le_align_up _ _ hp
  obtain ⟨A2, e2⟩ : ∃ A, A = align_up (A1 + 4 * (N * C)) (2 ^ k) := ⟨_, rfl⟩
  rw [← e2] at hroom ⊢
  have l2 : A1 + 4 * (N * C) ≤ A2 := by rw [e2]; exact le_align_up _ _ hp
  obtain ⟨A3, e3⟩ : ∃ A, A = align_up (A2 + 4 * (N * C)) (2 ^ k) := ⟨_, rfl⟩
  rw [← e3] at hroom ⊢
  have l3 : A2 + 4 * (N * C) ≤ A3 := by rw [e3]; exact le_align_up _ _ hp
  obtain ⟨A4, e4⟩ : ∃ A, A = align_up (A3 + 4 * (N * C)) (2 ^ k) := ⟨_, rfl⟩
  rw [← e4] at hroom ⊢
  have l4 : A3 + 4 * (N * C) ≤ A4 := by rw [e4]; exact le_align_up _ _ hp
  obtain ⟨A5, e5⟩ : ∃ A, A = align_up (A4 + 4 * (D * N)) (2 ^ k) := ⟨_, rfl⟩
  rw [← e5] at hroom ⊢
  have l5 : A4 + 4 * (D * N) ≤ A5 := by rw [e5]; exact le_align_up _ _ hp
  obtain ⟨A6, e6⟩ : ∃ A, A = align_up (A5 + 4 * (D * C)) (2 ^ k) := ⟨_, rfl⟩
  rw [← e6] at hroom ⊢
  have l6 : A5 + 4 * (D * C) ≤ A6 := by rw [e6]; exact le_align_up _ _ hp
  obtain ⟨A7, e7⟩ : ∃ A, A = align_up (A6 + 4 * (D * C)) (2 ^ k) := ⟨_, rfl⟩
  rw [← e7] at hroom ⊢
  have l7 : A6 + 4 * (D * C) ≤ A7 := by rw [e7]; exact le_align_up _ _ hp
  have hc1 := create_Matrix_logged_ok k hk (logged_arena.mk (ml_arena.mk base cap pos) [])
    N C hpos hcap (by simp only [← e1]; omega)
  simp only [← e1, List.nil_append] at hc1
  have h := Matrix_mut_Matrix_logged_runs k hk
    (logged_arena.mk (ml_arena.mk base cap (A1 + 4 * (N * C)))
      [(some (base + A1), 4 * (N * C))]) mem
    (Matrix.mk N C (some (base + A1))) N D C px pw (by dsimp only; omega) hcap
    (by simp only [← e2]; omega)
  simp only [← e2, List.singleton_append] at h
  obtain ⟨m1, h1⟩ := h
  obtain ⟨s2, h2⟩ := add_bias_rowwise_inplace_total m1 N C (base + A2) rb cb pb
  have h := softmax_logged_runs expf k hk
    (logged_arena.mk (ml_arena.mk base cap (A2 + 4 * (N * C)))
      [(some (base + A1), 4 * (N * C)), (some (base + A2), 4 * (N * C))]) s2.2 N C
    (base + A2) (by dsimp only; omega) hcap (by simp only [← e3]; omega)
  simp only [← e3, List.cons_append, List.nil_append] at h
  obtain ⟨m3, h3⟩ := h
  obtain ⟨loss, hloss⟩ := cross_entropy_total logf m3 N C (base + A3) labels
  obtain ⟨s5, h5⟩ := softmax_xent_backward_inplace_total m3 N C (base + A3) labels
  have h := Matrix_transpose_logged_runs k hk
    (logged_arena.mk (ml_arena.mk base cap (A3 + 4 * (N * C)))
      [(some (base + A1), 4 * (N * C)), (some (base + A2), 4 * (N * C)),
        (some (base + A3), 4 * (N * C))]) s5.2
    (Matrix.mk 0 0 none) N D px (by dsimp only; omega) hcap (by simp only [← e4]; omega)
  simp only [← e4, List.cons_append, List.nil_append] at h
  obtain ⟨m6, h6⟩ := h
  have hc7 := create_Matrix_logged_ok k hk
    (logged_arena.mk (ml_arena.mk base cap (A4 + 4 * (D * N)))
      [(some (base + A1), 4 * (N * C)), (some (base + A2), 4 * (N * C)),
        (some (base + A3), 4 * (N * C)), (some (base + A4), 4 * (D * N))]) D C
    (by dsimp only; omega) hcap (by simp only [← e5]; omega)
  simp only [← e5, List.cons_append, List.nil_append] at hc7
  have h := Matrix_mut_Matrix_logged_runs k hk
    (logged_arena.mk (ml_arena.mk base cap (A5 + 4 * (D * C)))
      [(some (base + A1), 4 * (N * C)), (some (base + A2), 4 * (N * C)),
        (some (base + A3), 4 * (N * C)), (some (base + A4), 4 * (D * N)),
        (some (base + A5), 4 * (D * C))]) m6
    (Matrix.mk D C (some (base + A5))) D N C (base + A4) (base + A3)
    (by dsimp only; omega) hcap (by simp only [← e6]; omega)
  simp only [← e6, List.cons_append, List.nil_append] at h
  obtain ⟨m8, h8⟩ := h
  have h := sum_rows_logged_runs k hk
    (logged_arena.mk (ml_arena.mk base cap (A6 + 4 * (D * C)))
      [(some (base + A1), 4 * (N * C)), (some (base + A2), 4 * (N * C)),
        (some (base + A3), 4 * (N * C)), (some (base + A4), 4 * (D * N)),
        (some (base + A5), 4 * (D * C)), (some (base + A6), 4 * (D * C))]) m8 N C
    (base + A3) (by dsimp only; omega) hcap (by simp only [← e7]; omega)
  simp only [← e7, List.cons_append, List.nil_append] at h
  obtain ⟨m9, h9⟩ := h
  obtain ⟨s10, h10⟩ := Matrix_mut_Scalar_total m9 D C (base + A6) lr
  obtain ⟨s11, h11⟩ := Matrix_minus_Matrix_inplace_total s10.2 D C pw D C (base + A6)
  obtain ⟨s12, h12⟩ := Matrix_mut_Scalar_total s11.2 1 C (base + A7) lr
  obtain ⟨s13, h13⟩ := Matrix_minus_Matrix_inplace_total s12.2 rb cb pb 1 C (base + A7)
  refine ⟨loss, s13.2, ?_⟩
  unfold softmax_regression_train_step_logged
  simp only [hc1, h1, h2, h3, hloss, h5, h6, hc7, h8, h9, h10, h11, h12, h13,
    Option.some_bind, ne_eq, not_true_eq_false, if_false]

theorem aligned_regions_sizes (al : Nat) (sizes : List Nat) :
    ∀ pos, (aligned_regions al pos sizes).map Prod.snd = sizes := by
  induction sizes with
  | nil => intro pos; rfl
  | cons s rest ih =>
    intro pos
    show s :: (aligned_regions al (pos_after al pos s) rest).map Prod.snd = s :: rest
    rw [ih]

/-- C22: the arena cost of one training step.  For stored `X` (`N x D`), `W` (`D x C`)
and `b` at non-null addresses, labels below `C`, and an arena at a non-null base with
room, `softmax_regression_train_step` makes exactly seven `push_ml_arena` calls, of
`4NC, 4NC, 4NC, 4DN, 4DC, 4DC, 4C` bytes in this order; each returns a non-null pointer,
`base` plus the position before it aligned up to `ARENA_ALIGN`.  The arena it leaves is
the one these seven pushes leave, base and capacity are unchanged, and the position
after the step is not below the position before it.  The calls are read off the step on
a logged arena, which returns the same loss, arena and memory as the step itself. -/
theorem train_step_arena_cost {α : Type} [LinearOrderedField α] (expf logf : α → α)
    (k : Nat) (hk : k < 64) (arena : ml_arena) (mem : Mem α)
    (N D C px pw rb cb pb : Nat) (labels : Nat → Nat) (lr : α)
    (hbase : arena.base ≠ 0) (hpx : px ≠ 0) (hpw : pw ≠ 0) (hpb : pb ≠ 0)
    (hlab : ∀ i, i < N → labels i < C)
    (hpos : arena.pos ≤ arena.capacity) (hcap : arena.capacity + 2 ^ k ≤ 2 ^ 64)
    (hroom : train_step_pos (2 ^ k) arena.pos N D C ≤ arena.capacity) :
    ∃ loss la m',
      softmax_regression_train_step_logged expf logf (2 ^ k) (logged_arena.mk arena []) mem
          (Matrix.mk N D (some px)) labels (Matrix.mk D C (some pw))
          (Matrix.mk rb cb (some pb)) lr = some (loss, la, m') ∧
      softmax_regression_train_step expf logf (2 ^ k) arena mem (Matrix.mk N D (some px))
          labels (Matrix.mk D C (some pw)) (Matrix.mk rb cb (some pb)) lr =
        some (loss, la.arena, m') ∧
      la.pushes.length = 7 ∧
      la.pushes.map Prod.snd =
        [4 * (N * C), 4 * (N * C), 4 * (N * C), 4 * (D * N), 4 * (D * C), 4 * (D * C),
          4 * C] ∧
      la.pushes =
        (aligned_regions (2 ^ k) arena.pos (train_step_sizes N D C)).map
          (fun r => (some (arena.base + r.1), r.2)) ∧
      (∀ e, e ∈ la.pushes → ∃ p, e.1 = some p ∧ p ≠ 0) ∧
      la.arena = (push_all (2 ^ k) arena (train_step_sizes N D C)).2 ∧
      la.arena = { arena with pos := train_step_pos (2 ^ k) arena.pos N D C } ∧
      arena.pos ≤ la.arena.pos := by
  have _h1 := hpx
  have _h2 := hpw
  have _h3 := hpb
  have _h4 := hlab
  have hsz : (train_step_sizes N D C).foldl (pos_after (2 ^ k)) arena.pos =
      train_step_pos (2 ^ k) arena.pos N D C := by
    unfold train_step_sizes train_step_pos
    simp only [List.foldl, Nat.one_mul]
  have hpa := push_all_of_room k hk (train_step_sizes N D C) arena hpos hcap
    (by rw [hsz]; exact hroom)
  obtain ⟨loss, m', hrun⟩ := train_step_logged_runs expf logf k hk arena mem N D C px pw
    rb cb pb labels lr hpos hcap hroom
  have hplain := softmax_regression_train_step_logged_erase expf logf (2 ^ k)
    (logged_arena.mk arena []) mem (Matrix.mk N D (some px)) labels
    (Matrix.mk D C (some pw)) (Matrix.mk rb cb (some pb)) lr
  rw [hrun] at hplain
  refine ⟨loss, _, m', hrun, hplain.symm, rfl, ?_, rfl, ?_, ?_, rfl, ?_⟩
  · show (expected_pushes (2 ^ k) arena.base arena.pos (train_step_sizes N D C)).map
      Prod.snd = _
    unfold expected_pushes
    rw [List.map_map]
    exact aligned_regions_sizes (2 ^ k) (train_step_sizes N D C) arena.pos
  · intro e he
    obtain ⟨r, _, hr⟩ := List.mem_map.mp he
    refine ⟨arena.base + r.1, ?_, by omega⟩
    rw [← hr]
  · rw [hpa, hsz]
  · exact le_train_step_pos (2 ^ k) arena.pos N D C (Nat.two_pow_pos k)

/-- C22 (witness): two samples, three features, two classes over the reals, memory of
zeros, `X` at 8192, `W` at 8216, `b` at 8240, the labels `i ↦ i`, and the empty arena of
capacity 1024 at 4096 with `ARENA_ALIGN = 8`. -/
theorem train_step_arena_cost_witness :
    ∃ loss la m',
      softmax_regression_train_step_logged Real.exp Real.log (2 ^ 3)
          (logged_arena.mk (ml_arena.mk 4096 1024 0) []) (fun _ => (0 : ℝ))
          (Matrix.mk 2 3 (some 8192)) (fun i => i) (Matrix.mk 3 2 (some 8216))
          (Matrix.mk 1 2 (some 8240)) (1 / 10) = some (loss, la, m') ∧
      softmax_regression_train_step Real.exp Real.log (2 ^ 3) (ml_arena.mk 4096 1024 0)
          (fun _ => (0 : ℝ)) (Matrix.mk 2 3 (some 8192)) (fun i => i)
          (Matrix.mk 3 2 (some 8216)) (Matrix.mk 1 2 (some 8240)) (1 / 10) =
        some (loss, la.arena, m') ∧
      la.pushes.length = 7 ∧
      la.pushes.map Prod.snd =
        [4 * (2 * 2), 4 * (2 * 2), 4 * (2 * 2), 4 * (3 * 2), 4 * (3 * 2), 4 * (3 * 2),
          4 * 2] ∧
      la.pushes =
        (aligned_regions (2 ^ 3) (ml_arena.mk 4096 1024 0).pos (train_step_sizes 2 3 2)).map
          (fun r => (some ((ml_arena.mk 4096 1024 0).base + r.1), r.2)) ∧
      (∀ e, e ∈ la.pushes → ∃ p, e.1 = some p ∧ p ≠ 0) ∧
      la.arena = (push_all (2 ^ 3) (ml_arena.mk 4096 1024 0) (train_step_sizes 2 3 2)).2 ∧
      la.arena = { (ml_arena.mk 4096 1024 0) with
        pos := train_step_pos (2 ^ 3) (ml_arena.mk 4096 1024 0).pos 2 3 2 } ∧
      (ml_arena.mk 4096 1024 0).pos ≤ la.arena.pos :=
  train_step_arena_cost Real.exp Real.log 3 (by decide) (ml_arena.mk 4096 1024 0)
    (fun _ => (0 : ℝ)) 2 3 2 8192 8216 1 2 8240 (fun i => i) (1 / 10) (by decide)
    (by decide) (by decide) (by decide) (fun _ hi => hi) (by decide) (by decide) (by decide)

/-! ## Arena: the contract inside the address space -/

/-- C1: for every arena that ends at least `ARENA_ALIGN` bytes below `2^64` (as every
arena backed by memory does) with `pos ≤ capacity`, and every size: with `a` the least
multiple of `ARENA_ALIGN` that is `≥ pos`, `push_ml_arena` returns `NULL` if and only if
`a > capacity` or `size > capacity - a`; otherwise it returns `base + a` and sets `pos`
to `a + size`, leaving base and capacity. -/
theorem push_ml_arena_contract (k : Nat) (hk : k < 64) (arena : ml_arena) (size : Nat)
    (hpos : arena.pos ≤ arena.capacity) (hcap : arena.capacity + 2 ^ k ≤ 2 ^ 64) :
    (2 ^ k ∣ align_up arena.pos (2 ^ k) ∧ arena.pos ≤ align_up arena.pos (2 ^ k) ∧
      ∀ m, 2 ^ k ∣ m → arena.pos ≤ m → align_up arena.pos (2 ^ k) ≤ m) ∧
    ((push_ml_arena (2 ^ k) arena size).1 = none ↔
      (align_up arena.pos (2 ^ k) > arena.capacity ∨
        size > arena.capacity - align_up arena.pos (2 ^ k))) ∧
    (¬ (align_up arena.pos (2 ^ k) > arena.capacity ∨
        size > arena.capacity - align_up arena.pos (2 ^ k)) →
      push_ml_arena (2 ^ k) arena size =
        (some (arena.base + align_up arena.pos (2 ^ k)),
          { arena with pos := align_up arena.pos (2 ^ k) + size })) := by
  have hp : 0 < 2 ^ k := Nat.two_pow_pos k
  have hpush := push_ml_arena_no_wrap k hk arena size hpos hcap
  refine ⟨⟨dvd_align_up _ _, le_align_up _ _ hp,
    fun m hm hle => align_up_least _ _ m hp hm hle⟩, ?_, ?_⟩
  · by_cases h : align_up arena.pos (2 ^ k) > arena.capacity ∨
        size > arena.capacity - align_up arena.pos (2 ^ k)
    · rw [hpush, if_pos h]
      exact ⟨fun _ => h, fun _ => rfl⟩
    · rw [hpush, if_neg h]
      constructor
      · intro hn
        cases hn
      · intro h'
        exact absurd h' h
  · intro h
    rw [hpush, if_neg h]

/-- C1 (witness): the arena of capacity 100 at position 9 with `ARENA_ALIGN = 8` and a
request of 20 bytes: the aligned position is 16, the call returns `base + 16` and leaves
the position at 36. -/
theorem push_ml_arena_contract_witness :
    (2 ^ 3 ∣ align_up (ml_arena.mk 4096 100 9).pos (2 ^ 3) ∧
      (ml_arena.mk 4096 100 9).pos ≤ align_up (ml_arena.mk 4096 100 9).pos (2 ^ 3) ∧
      ∀ m, 2 ^ 3 ∣ m → (ml_arena.mk 4096 100 9).pos ≤ m →
        align_up (ml_arena.mk 4096 100 9).pos (2 ^ 3) ≤ m) ∧
    ((push_ml_arena (2 ^ 3) (ml_arena.mk 4096 100 9) 20).1 = none ↔
      (align_up (ml_arena.mk 4096 100 9).pos (2 ^ 3) > (ml_arena.mk 4096 100 9).capacity ∨
        20 > (ml_arena.mk 4096 100 9).capacity -
          align_up (ml_arena.mk 4096 100 9).pos (2 ^ 3))) ∧
    (¬ (align_up (ml_arena.mk 4096 100 9).pos (2 ^ 3) > (ml_arena.mk 4096 100 9).capacity ∨
        20 > (ml_arena.mk 4096 100 9).capacity -
          align_up (ml_arena.mk 4096 100 9).pos (2 ^ 3)) →
      push_ml_arena (2 ^ 3) (ml_arena.mk 4096 100 9) 20 =
        (some ((ml_arena.mk 4096 100 9).base + align_up (ml_arena.mk 4096 100 9).pos (2 ^ 3)),
          { (ml_arena.mk 4096 100 9) with
            pos := align_up (ml_arena.mk 4096 100 9).pos (2 ^ 3) + 20 })) :=
  push_ml_arena_contract 3 (by decide) (ml_arena.mk 4096 100 9) 20 (by decide) (by decide)

/-- C3: for every arena freshly created with a capacity that ends at least `ARENA_ALIGN`
bytes below `2^64` (as every arena backed by memory does) and every sequence of
`push_ml_arena` calls, the regions `[offset, offset + size)` returned by the successful
calls are pairwise disjoint, and each is contained in `[0, capacity)`. -/
theorem fresh_arena_regions_disjoint (k : Nat) (hk : k < 64) (capacity mem : Nat)
    (sizes : List Nat) (hcap : capacity + 2 ^ k ≤ 2 ^ 64) :
    (push_all (2 ^ k) (create_ml_arena capacity mem) sizes).1.Pairwise regions_disjoint ∧
      ∀ reg, reg ∈ (push_all (2 ^ k) (create_ml_arena capacity mem) sizes).1 →
        0 ≤ reg.1 ∧ reg.1 + reg.2 ≤ capacity := by
  obtain ⟨hin, hpair⟩ := push_all_regions k hk sizes (create_ml_arena capacity mem)
    (Nat.zero_le _) hcap
  refine ⟨hpair.imp (fun {a b} h => regions_disjoint_of_le a b h), ?_⟩
  intro reg hreg
  exact ⟨Nat.zero_le _, (hin reg hreg).2⟩

/-- C3 (witness): the fresh arena of capacity 64 with `ARENA_ALIGN = 8` and the requests
of 10, 20, 100 and 8 bytes (the third fails). -/
theorem fresh_arena_regions_disjoint_witness :
    (push_all (2 ^ 3) (create_ml_arena 64 4096) [10, 20, 100, 8]).1.Pairwise
        regions_disjoint ∧
      ∀ reg, reg ∈ (push_all (2 ^ 3) (create_ml_arena 64 4096) [10, 20, 100, 8]).1 →
        0 ≤ reg.1 ∧ reg.1 + reg.2 ≤ 64 :=
  fresh_arena_regions_disjoint 3 (by decide) 64 4096 [10, 20, 100, 8] (by decide)

/-- C16: allocation is monotonic.  For every arena that ends at least `ARENA_ALIGN`
bytes below `2^64` (as every arena backed by memory does) with `pos ≤ capacity`, and
every size, the position after `push_ml_arena` is greater than or equal to the position
before it, whether the call succeeds or fails; `pop_ml_arena` never increases it. -/
theorem push_never_moves_back (k : Nat) (hk : k < 64) (arena : ml_arena) (size : Nat)
    (hpos : arena.pos ≤ arena.capacity) (hcap : arena.capacity + 2 ^ k ≤ 2 ^ 64) :
    arena.pos ≤ (push_ml_arena (2 ^ k) arena size).2.pos ∧
      (pop_ml_arena arena size).pos ≤ arena.pos := by
  have hp : 0 < 2 ^ k := Nat.two_pow_pos k
  refine ⟨push_ml_arena_pos_mono k hk arena size hpos hcap, ?_⟩
  unfold pop_ml_arena
  split_ifs with h
  · exact Nat.zero_le _
  · show u64_sub arena.pos size ≤ arena.pos
    rw [u64_sub_of_le (by omega) (by omega)]
    omega

/-- C16 (witness): the arena of capacity 100 at position 9 with `ARENA_ALIGN = 8`, a push
and a pop of 20 bytes. -/
theorem push_never_moves_back_witness :
    (ml_arena.mk 4096 100 9).pos ≤ (push_ml_arena (2 ^ 3) (ml_arena.mk 4096 100 9) 20).2.pos ∧
      (pop_ml_arena (ml_arena.mk 4096 100 9) 20).pos ≤ (ml_arena.mk 4096 100 9).pos :=
  push_never_moves_back 3 (by decide) (ml_arena.mk 4096 100 9) 20 (by decide) (by decide)

end Lna
